import Mathlib

/-!
# Verification of the AutoOrtho persistent DDS cache

A shallow embedding of `autoortho/aopipeline/dynamic_dds_cache.py` and
`autoortho/aopipeline/disk_budget_manager.py`, together with theorems about
the cache's public operations.

Modelling conventions:
* byte strings are `List Nat`;
* the filesystem is a pair of association lists mapping structured path
  keys to file contents (DDS payload bytes, parsed DDM sidecar records);
* Python code that may raise is embedded in the monad
  `M α = St → Except St (α × St)`: an `Except.error s` is an uncaught
  Python exception escaping with the side effects `s` performed so far;
  `pyTry` mirrors a `try/except` block;
* fallible OS primitives (open/write/replace/stat/remove) consult a set
  of fault-injection flags carried in the state, so that the
  error-propagation structure of the source is preserved;
* the external `zstandard` library is modelled by a `Codec`: a pair of
  functions with a decompress-of-compress round-trip guarantee;
* background threads spawned by the source (JPEG cleanup, healing
  dispatch, async eviction) are not executed by the sequential model.
-/

namespace AO

/-! ## Byte strings -/

/-- The bytes `[a, a+n)` of a byte string, clamped like a Python slice
`l[a:a+n]`. -/
def sliceOf (l : List Nat) (a n : Nat) : List Nat := (l.drop a).take n

/-- Python `bytearray` slice assignment `dest[off:off+len(src)] = src`,
clamped to the length of `dest` (no extension). -/
def writeAt (dest : List Nat) (off : Nat) (src : List Nat) : List Nat :=
  dest.take off ++ src.take (dest.length - off) ++ dest.drop (off + src.length)

/-- A `seek(off); write(src)` on a file opened `r+b`: overwrites in place
and extends the file (zero-filling any gap) when the write runs past the
end, as POSIX files do. -/
def writeAtExt (dest : List Nat) (off : Nat) (src : List Nat) : List Nat :=
  dest.take off ++ List.replicate (off - dest.length) 0 ++ src
    ++ dest.drop (off + src.length)

theorem length_writeAt (dest : List Nat) (off : Nat) (src : List Nat)
    (h : off + src.length ≤ dest.length) :
    (writeAt dest off src).length = dest.length := by
  have hoff : off ≤ dest.length := le_trans (Nat.le_add_right _ _) h
  simp [writeAt, List.length_take, List.length_drop,
    Nat.min_eq_left hoff, Nat.min_eq_left (Nat.le_sub_of_add_le' h)]
  omega

theorem writeAt_eq_of_inbounds (dest : List Nat) (off : Nat) (src : List Nat)
    (h : off + src.length ≤ dest.length) :
    writeAt dest off src = dest.take off ++ src ++ dest.drop (off + src.length) := by
  unfold writeAt
  have h2 : src.take (dest.length - off) = src := List.take_of_length_le (by omega)
  rw [h2]

theorem length_writeAtExt (dest : List Nat) (off : Nat) (src : List Nat)
    (h : off + src.length ≤ dest.length) :
    (writeAtExt dest off src).length = dest.length := by
  have hoff : off ≤ dest.length := le_trans (Nat.le_add_right _ _) h
  simp [writeAtExt, List.length_take, List.length_drop,
    Nat.min_eq_left hoff]
  omega

theorem writeAtExt_eq_writeAt (dest : List Nat) (off : Nat) (src : List Nat)
    (h : off + src.length ≤ dest.length) :
    writeAtExt dest off src = writeAt dest off src := by
  have hoff : off ≤ dest.length := le_trans (Nat.le_add_right _ _) h
  rw [writeAt_eq_of_inbounds dest off src h]
  unfold writeAtExt
  rw [Nat.sub_eq_zero_of_le hoff]
  simp

theorem length_sliceOf (l : List Nat) (a n : Nat) (h : a + n ≤ l.length) :
    (sliceOf l a n).length = n := by
  simp [sliceOf, List.length_take, List.length_drop]
  omega

/-- Reading back the exact region just written. -/
theorem sliceOf_writeAt_self (dest : List Nat) (off : Nat) (src : List Nat)
    (h : off + src.length ≤ dest.length) :
    sliceOf (writeAt dest off src) off src.length = src := by
  have hoff : off ≤ dest.length := le_trans (Nat.le_add_right _ _) h
  have hA : (dest.take off).length = off := by
    simp [List.length_take]; omega
  rw [writeAt_eq_of_inbounds dest off src h]
  unfold sliceOf
  rw [List.append_assoc, List.drop_append_eq_append_drop]
  rw [List.drop_eq_nil_of_le (by rw [hA]), hA, Nat.sub_self, List.drop_zero,
    List.nil_append]
  rw [List.take_append_of_le_length (le_refl _), List.take_length]

/-- A write at or after `a + n` does not disturb the slice `[a, a+n)`. -/
theorem sliceOf_writeAt_before (dest : List Nat) (off : Nat) (src : List Nat)
    (a n : Nat) (hin : off + src.length ≤ dest.length) (hdisj : a + n ≤ off) :
    sliceOf (writeAt dest off src) a n = sliceOf dest a n := by
  have hoff : off ≤ dest.length := le_trans (Nat.le_add_right _ _) hin
  have hA : (dest.take off).length = off := by
    simp [List.length_take]; omega
  rw [writeAt_eq_of_inbounds dest off src hin]
  unfold sliceOf
  rw [List.append_assoc, List.drop_append_of_le_length (by rw [hA]; omega)]
  rw [List.take_append_of_le_length
    (by simp [List.length_drop, hA]; omega)]
  rw [List.drop_take, List.take_take, Nat.min_eq_left (by omega)]

/-- A write strictly before `a` does not disturb the slice `[a, a+n)`. -/
theorem sliceOf_writeAt_after (dest : List Nat) (off : Nat) (src : List Nat)
    (a n : Nat) (hin : off + src.length ≤ dest.length)
    (hdisj : off + src.length ≤ a) :
    sliceOf (writeAt dest off src) a n = sliceOf dest a n := by
  have hoff : off ≤ dest.length := le_trans (Nat.le_add_right _ _) hin
  have hX : (dest.take off ++ src).length = off + src.length := by
    simp [List.length_take]; omega
  rw [writeAt_eq_of_inbounds dest off src hin]
  unfold sliceOf
  rw [List.drop_append_eq_append_drop]
  rw [List.drop_eq_nil_of_le (by rw [hX]; omega), List.nil_append, hX]
  rw [List.drop_drop]
  rw [show off + src.length + (a - (off + src.length)) = a by omega]

/-! ## DDS layout descriptor

Modelled from the spec (section 3 and 4.1; `autoortho/pydds.py` is not part
of the sources provided): mipmap `i` has width `max(1, W >> i)`, height
`max(1, H >> i)` and byte length `max(1, (w*h) >> 4) * blocksize` with
`blocksize` 8 for BC1 and 16 for BC3; enumeration starts at byte 128 and
stops when `w` or `h` reaches 0.  This is the same computation as the
`MockDDS` mirror of `pydds.DDS.__init__` in
`autoortho/tests/test_dynamic_dds_cache.py`. -/

structure MipMap where
  idx : Nat
  startpos : Nat
  mmlen : Nat
  endpos : Nat
  databuffer : Option (List Nat)
deriving Repr, DecidableEq

/-- Byte length of one mipmap level: `max(1, (w*h) >> 4) * blocksize`. -/
def mmLen (blocksize w h : Nat) : Nat := max 1 (w * h / 16) * blocksize

/-- The mipmap enumeration loop of `pydds.DDS.__init__` /
`MockDDS.__init__`, with an explicit fuel argument so the recursion is
structural (the width halves each iteration, so `w` units of fuel always
suffice; `buildMMs_rec` below recovers the loop-shaped recurrence). -/
def buildMMsF (blocksize : Nat) : Nat → Nat → Nat → Nat → Nat → List MipMap
  | 0, _, _, _, _ => []
  | fuel + 1, w, h, cur, idx =>
    if 1 ≤ w ∧ 1 ≤ h then
      let len := mmLen blocksize w h
      ⟨idx, cur, len, cur + len, none⟩ ::
        buildMMsF blocksize fuel (w / 2) (h / 2) (cur + len) (idx + 1)
    else []

def buildMMs (blocksize w h cur idx : Nat) : List MipMap :=
  buildMMsF blocksize w w h cur idx

/-- Final value of `curbytes` after the enumeration loop (`total_size`). -/
def mmTotalF (blocksize : Nat) : Nat → Nat → Nat → Nat → Nat
  | 0, _, _, cur => cur
  | fuel + 1, w, h, cur =>
    if 1 ≤ w ∧ 1 ≤ h then
      mmTotalF blocksize fuel (w / 2) (h / 2) (cur + mmLen blocksize w h)
    else cur

def mmTotal (blocksize w h cur : Nat) : Nat := mmTotalF blocksize w w h cur

theorem buildMMsF_irrel (bs : Nat) (w : Nat) : ∀ f1 f2 h cur idx,
    w ≤ f1 → w ≤ f2 →
    buildMMsF bs f1 w h cur idx = buildMMsF bs f2 w h cur idx := by
  induction w using Nat.strong_induction_on with
  | _ w ih =>
    intro f1 f2 h cur idx h1 h2
    match w, f1, f2 with
    | 0, 0, 0 => rfl
    | 0, 0, f2 + 1 => simp [buildMMsF]
    | 0, f1 + 1, 0 => simp [buildMMsF]
    | 0, f1 + 1, f2 + 1 => simp [buildMMsF]
    | w + 1, f1 + 1, f2 + 1 =>
      show buildMMsF bs (f1 + 1) (w + 1) h cur idx
        = buildMMsF bs (f2 + 1) (w + 1) h cur idx
      unfold buildMMsF
      by_cases hh : 1 ≤ w + 1 ∧ 1 ≤ h
      · rw [if_pos hh, if_pos hh]
        have hlt : (w + 1) / 2 < w + 1 := Nat.div_lt_self (by omega) (by omega)
        have hrec := ih ((w + 1) / 2) hlt f1 f2 (h / 2)
          (cur + mmLen bs (w + 1) h) (idx + 1) (by omega) (by omega)
        simp only [hrec]
      · rw [if_neg hh, if_neg hh]

theorem mmTotalF_irrel (bs : Nat) (w : Nat) : ∀ f1 f2 h cur,
    w ≤ f1 → w ≤ f2 →
    mmTotalF bs f1 w h cur = mmTotalF bs f2 w h cur := by
  induction w using Nat.strong_induction_on with
  | _ w ih =>
    intro f1 f2 h cur h1 h2
    match w, f1, f2 with
    | 0, 0, 0 => rfl
    | 0, 0, f2 + 1 => simp [mmTotalF]
    | 0, f1 + 1, 0 => simp [mmTotalF]
    | 0, f1 + 1, f2 + 1 => simp [mmTotalF]
    | w + 1, f1 + 1, f2 + 1 =>
      show mmTotalF bs (f1 + 1) (w + 1) h cur = mmTotalF bs (f2 + 1) (w + 1) h cur
      unfold mmTotalF
      by_cases hh : 1 ≤ w + 1 ∧ 1 ≤ h
      · rw [if_pos hh, if_pos hh]
        have hlt : (w + 1) / 2 < w + 1 := Nat.div_lt_self (by omega) (by omega)
        rw [ih ((w + 1) / 2) hlt f1 f2 _ _ (by omega) (by omega)]
      · rw [if_neg hh, if_neg hh]

/-- The source-shaped recurrence of the enumeration loop. -/
theorem buildMMs_rec (bs w h cur idx : Nat) :
    buildMMs bs w h cur idx =
      if 1 ≤ w ∧ 1 ≤ h then
        ⟨idx, cur, mmLen bs w h, cur + mmLen bs w h, none⟩ ::
          buildMMs bs (w / 2) (h / 2) (cur + mmLen bs w h) (idx + 1)
      else [] := by
  match w with
  | 0 =>
    show buildMMsF bs 0 0 h cur idx = _
    rw [if_neg (by omega)]
    rfl
  | w + 1 =>
    show (if 1 ≤ w + 1 ∧ 1 ≤ h then
        ⟨idx, cur, mmLen bs (w + 1) h, cur + mmLen bs (w + 1) h, none⟩ ::
          buildMMsF bs w ((w + 1) / 2) (h / 2) (cur + mmLen bs (w + 1) h)
            (idx + 1)
      else ([] : List MipMap)) = _
    by_cases hh : 1 ≤ w + 1 ∧ 1 ≤ h
    · rw [if_pos hh, if_pos hh]
      have hrec := buildMMsF_irrel bs ((w + 1) / 2) w ((w + 1) / 2) (h / 2)
        (cur + mmLen bs (w + 1) h) (idx + 1) (by omega) (le_refl _)
      rw [hrec]
      rfl
    · rw [if_neg hh, if_neg hh]

theorem mmTotal_rec (bs w h cur : Nat) :
    mmTotal bs w h cur =
      if 1 ≤ w ∧ 1 ≤ h then
        mmTotal bs (w / 2) (h / 2) (cur + mmLen bs w h)
      else cur := by
  match w with
  | 0 =>
    show mmTotalF bs 0 0 h cur = _
    rw [if_neg (by omega)]
    rfl
  | w + 1 =>
    show (if 1 ≤ w + 1 ∧ 1 ≤ h then
        mmTotalF bs w ((w + 1) / 2) (h / 2) (cur + mmLen bs (w + 1) h)
      else cur) = _
    by_cases hh : 1 ≤ w + 1 ∧ 1 ≤ h
    · rw [if_pos hh, if_pos hh]
      exact mmTotalF_irrel bs ((w + 1) / 2) w ((w + 1) / 2) (h / 2)
        (cur + mmLen bs (w + 1) h) (by omega) (le_refl _)
    · rw [if_neg hh, if_neg hh]

/-- `blocksize = 8 if dxt_format == "BC1" else 16`. -/
def blocksizeOf (fmt : String) : Nat := if fmt = "BC1" then 8 else 16

/-- The 128-byte DDS header: magic `"DDS "` followed by the header fields
(modelled as in the test mock: 124 trailing bytes). -/
def ddsHeaderBytes : List Nat := 68 :: 68 :: 83 :: 32 :: List.replicate 124 0

structure DDSLayout where
  width : Nat
  height : Nat
  blocksize : Nat
  mipmap_list : List MipMap
  mipMapCount : Nat
  total_size : Nat
  header : List Nat
deriving Repr, DecidableEq

/-- The layout descriptor `pydds.DDS(width, height, dxt_format)`. -/
def mkDDS (w h : Nat) (fmt : String) : DDSLayout :=
  let bs := blocksizeOf fmt
  let mml := buildMMs bs w h 128 0
  { width := w, height := h, blocksize := bs, mipmap_list := mml,
    mipMapCount := mml.length, total_size := mmTotal bs w h 128,
    header := ddsHeaderBytes }

theorem ddsHeaderBytes_length : ddsHeaderBytes.length = 128 := by
  simp [ddsHeaderBytes]

theorem mmTotal_ge (blocksize w h cur : Nat) : cur ≤ mmTotal blocksize w h cur := by
  induction w using Nat.strong_induction_on generalizing h cur with
  | _ w ih =>
    rw [mmTotal_rec]
    split
    · rename_i hwh
      exact le_trans (Nat.le_add_right _ _)
        (ih (w / 2) (Nat.div_lt_self (by omega) (by omega)) _ _)
    · exact le_refl _

/-! ## DDM sidecar metadata (v3) -/

/-- One entry of the DDM `mipmaps` array; `total` and `valid` are present
only on mipmap 0 of tiles with a known chunk grid. -/
structure MMeta where
  zl : Nat
  complete : Bool
  total : Option Nat
  valid : Option Nat
deriving Repr, DecidableEq

/-- The DDM v3 record; the JSON field `map` is called `maptype` here. -/
structure DDM where
  v : Nat
  w : Nat
  h : Nat
  mm : Nat
  zl : Nat
  max_zl : Nat
  fmt : String
  comp : String
  maptype : String
  bundle_mtime : Nat
  built : Nat
  tile_row : Nat
  tile_col : Nat
  mipmaps : List MMeta
  populated_mipmaps : List Nat
  needs_healing : Bool
  healing_chunks : Nat
  missing_indices : List Nat
  disk_compression : String
deriving Repr, DecidableEq

/-! ## Path resolution

Modelled from the spec (section 4.3; `autoortho/utils/bundle_paths.py` is
not part of the sources provided): the resolver is a pure function of
`(cache_root, row, col, maptype, tilename_zoom, max_zoom)`, with equal
inputs giving equal paths and different `max_zoom` giving different paths.
A DDS/DDM pair location is therefore represented by the structured key
itself, which is injective by construction. -/

structure PathKey where
  row : Nat
  col : Nat
  maptype : String
  tilename_zoom : Nat
  max_zoom : Nat
deriving Repr, DecidableEq

/-- Bundle location: pure function of the DDM identity fields
(`get_bundle2_path`, modelled from the spec). -/
structure BundleKey where
  row : Nat
  col : Nat
  maptype : String
  zl : Nat
deriving Repr, DecidableEq

/-! ## Tile object (the mutable fields the cache reads and writes) -/

structure Tile where
  row : Nat
  col : Nat
  maptype : String
  tilename_zoom : Nat
  max_zoom : Nat
  chunks_per_row : Nat
  dds : Option DDSLayout
  upgradeAvailable : Option (PathKey × DDM)
  downgradeAvailable : Option (PathKey × DDM)
  needsHealing : Bool
  missingIndices : List Nat
  populatedMipmaps : Option (List Nat)
deriving Repr, DecidableEq

/-- `_paths_for`: the DDS/DDM pair location for a tile at a zoom. -/
def pkOfTile (t : Tile) (mz : Nat) : PathKey :=
  ⟨t.row, t.col, t.maptype, t.tilename_zoom, mz⟩

def bundleKeyOf (row col : Nat) (maptype : String) (zl : Nat) : BundleKey :=
  ⟨row, col, maptype, zl⟩

/-- `_tile_key`: the LRU key string. -/
def tileKeyStr (tile_id : String) (mz : Nat) : String :=
  tile_id ++ "_z" ++ toString mz

/-- The tile id string the callers build (`MockTile.id`):
`"row_col_maptype_tilenamezoom"`. -/
def tileIdOf (t : Tile) : String :=
  toString t.row ++ "_" ++ toString t.col ++ "_" ++ t.maptype
    ++ "_" ++ toString t.tilename_zoom

/-! ## The zstd codec (external `zstandard` library)

The external compressor is modelled as any pair of functions satisfying
the decompress-of-compress round trip; `modelCodec` is one concrete
instance (a run-length special case) used by concrete witnesses. -/

structure Codec where
  comp : List Nat → List Nat
  decomp : List Nat → Option (List Nat)
  roundtrip : ∀ b, decomp (comp b) = some b

def mcComp (b : List Nat) : List Nat :=
  match b with
  | v :: rest =>
      if rest = List.replicate rest.length v ∧ 3 ≤ rest.length then
        [0, rest.length + 1, v]
      else 1 :: v :: rest
  | [] => [1]

def mcDecomp (c : List Nat) : Option (List Nat) :=
  match c with
  | [0, n, v] => some (List.replicate n v)
  | 1 :: rest => some rest
  | _ => none

theorem mcRoundtrip (b : List Nat) : mcDecomp (mcComp b) = some b := by
  cases b with
  | nil => rfl
  | cons v rest =>
    show mcDecomp (if rest = List.replicate rest.length v ∧ 3 ≤ rest.length
      then [0, rest.length + 1, v] else 1 :: v :: rest) = some (v :: rest)
    split
    · rename_i hc
      obtain ⟨h1, _⟩ := hc
      show some (List.replicate (rest.length + 1) v) = some (v :: rest)
      rw [List.replicate_succ, ← h1]
    · rfl

def modelCodec : Codec := ⟨mcComp, mcDecomp, mcRoundtrip⟩

/-- `_HAS_ZSTD`: the zstandard module is importable. -/
def HAS_ZSTD : Bool := true

/-! ## Filesystem and cache state -/

structure DdsFile where
  bytes : List Nat
  mtime : Nat
deriving Repr, DecidableEq

/-- A DDM sidecar file on disk: either a parseable record or corrupt
bytes (`corrupt` carries the on-disk byte count). -/
inductive DdmFile where
  | parsed (m : DDM)
  | corrupt (sz : Nat)
deriving Repr, DecidableEq

/-- Association list primitives used for directory contents and the LRU
ordered mapping (insertion order preserved, oldest first). -/
def alookup {κ β : Type} [DecidableEq κ] : List (κ × β) → κ → Option β
  | [], _ => none
  | (k1, v) :: rest, k => if k1 = k then some v else alookup rest k

def aset {κ β : Type} [DecidableEq κ] : List (κ × β) → κ → β → List (κ × β)
  | [], k, v => [(k, v)]
  | (k1, v1) :: rest, k, v =>
    if k1 = k then (k, v) :: rest else (k1, v1) :: aset rest k v

def aerase {κ β : Type} [DecidableEq κ] (l : List (κ × β)) (k : κ) :
    List (κ × β) :=
  l.filter (fun p => decide (p.1 ≠ k))

structure Fs where
  dds : List (PathKey × DdsFile)
  ddm : List (PathKey × DdmFile)
  bundles : List (BundleKey × Nat)
deriving Repr, DecidableEq

/-- One LRU entry: `(dds_path, ddm_path, size, last_access)`; the two
paths share one structured key. -/
structure Entry where
  pk : PathKey
  size : Nat
  atime : Nat
deriving Repr, DecidableEq

/-- Fault-injection flags for the fallible OS primitives; a `true` flag
makes the corresponding primitive raise `OSError`. -/
structure Faults where
  ddsWrite : PathKey → Bool
  ddmWrite : PathKey → Bool
  ddsRead : PathKey → Bool
  ddmRead : PathKey → Bool
  ddsStat : PathKey → Bool
  ddsRemove : PathKey → Bool
  ddmRemove : PathKey → Bool
  srcStat : Bool
  srcRead : Bool
  link : Bool
  copyf : Bool

def noFaults : Faults :=
  ⟨fun _ => false, fun _ => false, fun _ => false, fun _ => false,
   fun _ => false, fun _ => false, fun _ => false, false, false, false, false⟩

/-- The configuration surface the cache reads (`CFG.pydds`). -/
structure Config where
  fmt : String
  compressor : String
  dds_compression : String
  dds_compression_level : Nat

/-- The entire mutable world: `DynamicDDSCache` fields, the filesystem,
a logical clock and the fault flags. -/
structure St where
  enabled : Bool
  max_size : Nat
  current_size : Int
  entries : List (String × Entry)
  healing_in_progress : List String
  hits : Nat
  misses : Nat
  stores : Nat
  evictions : Nat
  upgrades : Nat
  compression : String
  compression_level : Nat
  cfg : Config
  fs : Fs
  nowTime : Nat
  faults : Faults

/-! ## The Python-exception monad -/

/-- A computation over the state that can terminate with an uncaught
exception; the error carries the state reached so far. -/
def M (α : Type) : Type := St → Except St (α × St)

def mpure {α : Type} (a : α) : M α := fun s => Except.ok (a, s)

def mbind {α β : Type} (x : M α) (f : α → M β) : M β := fun s =>
  match x s with
  | Except.ok (a, s1) => f a s1
  | Except.error s1 => Except.error s1

instance : Monad M where
  pure := mpure
  bind := mbind

def getS : M St := fun s => Except.ok (s, s)

def modifyS (f : St → St) : M Unit := fun s => Except.ok ((), f s)

/-- Raise an exception. -/
def pyRaise {α : Type} : M α := fun s => Except.error s

/-- A `try/except` block: the handler runs from the state at the raise
point (side effects before the exception are kept). -/
def pyTry {α : Type} (body : M α) (handler : M α) : M α := fun s =>
  match body s with
  | Except.ok r => Except.ok r
  | Except.error s1 => handler s1

theorem pyTry_ok {α : Type} (body handler : M α) (s : St)
    (h : ∀ s1, ∃ r, handler s1 = Except.ok r) :
    ∃ r, pyTry body handler s = Except.ok r := by
  unfold pyTry
  cases hb : body s with
  | ok r => exact ⟨r, rfl⟩
  | error s1 => exact h s1

/-! ## OS primitives -/

/-- `os.path.exists` on a DDS path (never raises). -/
def ddsExists (s : St) (k : PathKey) : Bool := (alookup s.fs.dds k).isSome

/-- `open(dds_path, "rb").read()`: raises `OSError` on a missing file or
an injected read fault. -/
def readDdsE (k : PathKey) : M (List Nat) := fun s =>
  if s.faults.ddsRead k then Except.error s
  else
    match alookup s.fs.dds k with
    | some f => Except.ok (f.bytes, s)
    | none => Except.error s

/-- Atomic DDS payload write (`tmp` + `os.replace`): raises on an
injected write fault. -/
def writeDdsE (k : PathKey) (b : List Nat) : M Unit := fun s =>
  if s.faults.ddsWrite k then Except.error s
  else
    Except.ok ((),
      { s with fs := { s.fs with dds := aset s.fs.dds k ⟨b, s.nowTime⟩ } })

/-- `os.path.getsize` on a DDS path: raises on missing file or stat
fault. -/
def statDdsE (k : PathKey) : M Nat := fun s =>
  if s.faults.ddsStat k then Except.error s
  else
    match alookup s.fs.dds k with
    | some f => Except.ok (f.bytes.length, s)
    | none => Except.error s

/-- In-place update of an open DDS file (`open(path, "r+b")` plus
seek/writes): raises on a missing file or read fault. -/
def updateDdsE (k : PathKey) (f : List Nat → List Nat) : M Unit := fun s =>
  if s.faults.ddsRead k then Except.error s
  else
    match alookup s.fs.dds k with
    | some df =>
      Except.ok ((),
        { s with fs :=
          { s.fs with dds := aset s.fs.dds k ⟨f df.bytes, s.nowTime⟩ } })
    | none => Except.error s

/-- `os.remove` wrapped in `try/except OSError: pass` (never raises; on a
fault the file survives). -/
def removeDdsQuiet : PathKey → M Unit := fun k => fun s =>
  if s.faults.ddsRemove k then Except.ok ((), s)
  else
    Except.ok ((), { s with fs := { s.fs with dds := aerase s.fs.dds k } })

def removeDdmQuiet : PathKey → M Unit := fun k => fun s =>
  if s.faults.ddmRemove k then Except.ok ((), s)
  else
    Except.ok ((), { s with fs := { s.fs with ddm := aerase s.fs.ddm k } })

/-- `_read_ddm`: returns `None` on a missing, corrupt, or unreadable
sidecar (all error paths are caught inside). -/
def readDdm (s : St) (k : PathKey) : Option DDM :=
  if s.faults.ddmRead k then none
  else
    match alookup s.fs.ddm k with
    | some (DdmFile.parsed m) => some m
    | some (DdmFile.corrupt _) => none
    | none => none

/-- `_write_ddm`: atomic JSON write that deletes its temp file and
re-raises on failure. -/
def writeDdmE (k : PathKey) (m : DDM) : M Unit := fun s =>
  if s.faults.ddmWrite k then Except.error s
  else
    Except.ok ((),
      { s with fs := { s.fs with ddm := aset s.fs.ddm k (DdmFile.parsed m) } })

/-- `_delete_pair`: best-effort removal of both files of an entry. -/
def deletePair (k : PathKey) : M Unit := do
  removeDdsQuiet k
  removeDdmQuiet k

/-! ## Config helpers -/

def upperStr (s : String) : String := ⟨s.data.map Char.toUpper⟩

def lowerStr (s : String) : String := ⟨s.data.map Char.toLower⟩

/-- Normalisation of `CFG.pydds.format` (`DXT1 -> BC1`, `DXT5 -> BC3`). -/
def normFmt (f : String) : String :=
  let u := upperStr f
  if u = "DXT1" then "BC1" else if u = "DXT5" then "BC3" else u

/-- `_get_format_and_compressor`. -/
def getFormatAndCompressor (cfg : Config) : String × String :=
  (normFmt cfg.fmt, upperStr cfg.compressor)

/-- `_get_compression_settings`: sanitise the compression mode and clamp
the level to `[1, 19]`. -/
def getCompressionSettings (cfg : Config) : String × Nat :=
  let c0 := lowerStr cfg.dds_compression
  let c := if c0 ≠ "none" ∧ c0 ≠ "zstd" then "zstd" else c0
  (c, max 1 (min 19 cfg.dds_compression_level))

/-- `_compress_dds`: wraps the payload when the cache was configured with
zstd compression, otherwise returns it unchanged. -/
def compressDds (cdc : Codec) (compression : String) (data : List Nat) :
    List Nat :=
  if compression = "zstd" ∧ HAS_ZSTD then cdc.comp data else data

/-- `_decompress_dds`: unwraps according to the DDM `disk_compression`
field; raises when the zstd frame does not decode. -/
def decompressDdsE (cdc : Codec) (data : List Nat) (meta : DDM) :
    M (List Nat) :=
  if meta.disk_compression ≠ "zstd" then pure data
  else
    match cdc.decomp data with
    | some d => pure d
    | none => pyRaise

/-! ## DDM builders -/

/-- The `mipmaps[i].zl` formula of `_build_ddm`. -/
def mmZl (mz i : Nat) : Nat := if i < mz - 11 then mz - i else 12

/-- `_build_ddm`: DDM v3 record from a tile and the current config. -/
def buildDdm (tile : Tile) (mz : Nat) (bundle_mtime : Option Nat)
    (fmt compstr : String) (missing : Option (List Nat)) (dcomp : String)
    (builtTime : Nat) : DDM :=
  let w := match tile.dds with | some d => d.width | none => 0
  let h := match tile.dds with | some d => d.height | none => 0
  let mmc := match tile.dds with | some d => d.mipMapCount | none => 0
  let miss := missing.getD []
  let total_chunks := tile.chunks_per_row ^ 2
  let entry := fun (i : Nat) =>
    if i = 0 ∧ 0 < total_chunks then
      MMeta.mk (mmZl mz i) miss.isEmpty (some total_chunks)
        (some (total_chunks - miss.length))
    else MMeta.mk (mmZl mz i) true none none
  { v := 3, w := w, h := h, mm := mmc, zl := tile.tilename_zoom,
    max_zl := mz, fmt := fmt, comp := compstr, maptype := tile.maptype,
    bundle_mtime := bundle_mtime.getD 0, built := builtTime,
    tile_row := tile.row, tile_col := tile.col,
    mipmaps := (List.range mmc).map entry,
    populated_mipmaps := List.range mmc,
    needs_healing := decide (0 < miss.length),
    healing_chunks := miss.length,
    missing_indices := miss,
    disk_compression := dcomp }

/-- Stable insertion sort ascending on a `Nat` key (Python `sorted`). -/
def insertByKey {α : Type} (key : α → Nat) (a : α) : List α → List α
  | [] => [a]
  | b :: bs => if key a ≤ key b then a :: b :: bs else b :: insertByKey key a bs

def sortByKey {α : Type} (key : α → Nat) (l : List α) : List α :=
  l.foldr (insertByKey key) []

/-- `_build_ddm_incremental`. -/
def buildDdmIncremental (row col : Nat) (maptype : String)
    (tilename_zoom mz w h mmc : Nat) (fmt compstr : String)
    (populated : List Nat) (builtTime : Nat) : DDM :=
  { v := 3, w := w, h := h, mm := mmc, zl := tilename_zoom,
    max_zl := mz, fmt := fmt, comp := compstr, maptype := maptype,
    bundle_mtime := 0, built := builtTime,
    tile_row := row, tile_col := col,
    mipmaps := (List.range mmc).map
      (fun i => MMeta.mk (mmZl mz i) (decide (i ∈ populated)) none none),
    populated_mipmaps := sortByKey id populated,
    needs_healing := false,
    healing_chunks := 0,
    missing_indices := [],
    disk_compression := "none" }

/-! ## Staleness -/

/-- `_is_stale`: rules 2 (format), 3 (compressor), 4 (size of
uncompressed entries) and 1 (bundle mtime), in source order.  A failing
`getsize` counts as stale; a failing or missing bundle stat does not. -/
def isStale (s : St) (meta : DDM) (tile : Tile) (k : PathKey) : Bool :=
  if meta.fmt ≠ normFmt s.cfg.fmt then true
  else if meta.comp ≠ upperStr s.cfg.compressor then true
  else
    let sizeStale :=
      if meta.disk_compression = "none" then
        match tile.dds with
        | some d =>
          if meta.max_zl = tile.max_zoom then
            (match alookup s.fs.dds k with
             | some f =>
               if s.faults.ddsStat k then true
               else decide (f.bytes.length ≠ d.total_size)
             | none => true)
          else false
        | none => false
      else false
    if sizeStale then true
    else if 0 < meta.bundle_mtime then
      match alookup s.fs.bundles
        (bundleKeyOf tile.row tile.col tile.maptype tile.tilename_zoom) with
      | some mt => decide (meta.bundle_mtime < mt)
      | none => false
    else false

/-! ## `load` -/

/-- `move_to_end(key)` followed by re-assignment of `key` (net effect:
remove and append at newest position). -/
def lruPut (entries : List (String × Entry)) (key : String) (e : Entry) :
    List (String × Entry) :=
  aerase entries key ++ [(key, e)]

/-- `_check_upgrade_candidate`: look for an entry one zoom level below
and record the hint on the tile. -/
def checkUpgradeCandidate (s : St) (mz : Nat) (tile : Tile) : Tile :=
  let old_zoom := mz - 1
  if old_zoom < 12 then tile
  else
    let ok := pkOfTile tile old_zoom
    match readDdm s ok with
    | some om =>
      if om.max_zl = old_zoom then
        { tile with upgradeAvailable := some (ok, om) }
      else tile
    | none => tile

def bumpMisses : M Unit :=
  modifyS fun st => { st with misses := st.misses + 1 }

/-- The body of `load` inside its catch-all `try`. -/
def loadBody (cdc : Codec) (tile_id : String) (max_zoom : Nat)
    (tile : Tile) : M (Option (List Nat) × Tile) := do
  let k := pkOfTile tile max_zoom
  let s ← getS
  match readDdm s k with
  | none => do
    let tile1 := checkUpgradeCandidate s max_zoom tile
    bumpMisses
    pure (none, tile1)
  | some meta =>
    if isStale s meta tile k then do
      deletePair k
      bumpMisses
      pure (none, tile)
    else if meta.max_zl ≠ max_zoom then
      if meta.max_zl + 1 = max_zoom then do
        let tile1 := { tile with upgradeAvailable := some (k, meta) }
        bumpMisses
        pure (none, tile1)
      else if max_zoom + 1 = meta.max_zl then do
        let tile1 := { tile with downgradeAvailable := some (k, meta) }
        bumpMisses
        pure (none, tile1)
      else do
        deletePair k
        bumpMisses
        pure (none, tile)
    else do
      let rawOpt ← pyTry (do let r ← readDdsE k; pure (some r)) (pure none)
      match rawOpt with
      | none => do
        deletePair k
        bumpMisses
        pure (none, tile)
      | some raw => do
        let decOpt ← pyTry
          (do let d ← decompressDdsE cdc raw meta; pure (some d)) (pure none)
        match decOpt with
        | none => do
          deletePair k
          bumpMisses
          pure (none, tile)
        | some dds_bytes =>
          let sizeBad := match tile.dds with
            | some d => decide (dds_bytes.length ≠ d.total_size)
            | none => false
          if sizeBad then do
            deletePair k
            bumpMisses
            pure (none, tile)
          else do
            -- healing hint; the background healing dispatch spawned by
            -- `_try_heal_from_disk_cache` is a daemon thread and is not
            -- executed by this sequential model
            let tile2 :=
              if meta.needs_healing then
                { tile with needsHealing := true,
                            missingIndices := meta.missing_indices }
              else tile
            let tile3 :=
              { tile2 with populatedMipmaps := some meta.populated_mipmaps }
            let key := tileKeyStr tile_id max_zoom
            modifyS fun st =>
              let size := dds_bytes.length
              match alookup st.entries key with
              | some e =>
                { st with
                  entries := lruPut st.entries key ⟨k, e.size, st.nowTime⟩,
                  hits := st.hits + 1 }
              | none =>
                { st with
                  entries := st.entries ++ [(key, ⟨k, size, st.nowTime⟩)],
                  current_size := st.current_size + size,
                  hits := st.hits + 1 }
            pure (some dds_bytes, tile3)

/-- `DynamicDDSCache.load`. -/
def load (cdc : Codec) (tile_id : String) (max_zoom : Nat) (tile : Tile) :
    M (Option (List Nat) × Tile) := do
  let s0 ← getS
  if s0.enabled = false then pure (none, tile)
  else
    pyTry (loadBody cdc tile_id max_zoom tile)
      (do bumpMisses; pure (none, tile))

/-- `DynamicDDSCache.load_metadata`. -/
def load_metadata (_tile_id : String) (max_zoom : Nat) (tile : Tile) :
    M (Option DDM) := do
  let s0 ← getS
  if s0.enabled = false then pure none
  else
    pyTry (do let s ← getS; pure (readDdm s (pkOfTile tile max_zoom)))
      (pure none)

/-- `DynamicDDSCache.contains`. -/
def containsOp (_tile_id : String) (max_zoom : Nat) (tile : Tile) :
    M Bool := do
  let s0 ← getS
  if s0.enabled = false then pure false
  else
    pyTry (do let s ← getS; pure (ddsExists s (pkOfTile tile max_zoom)))
      (pure false)

/-! ## `store`, `store_from_file`, `store_incremental` -/

/-- The LRU bookkeeping block shared by the store paths: subtract any
previous size for the key, insert at the newest position, add the new
size and count the store. -/
def lruStoreUpdate (key : String) (k : PathKey) (size : Nat) : M Unit :=
  modifyS fun st =>
    let st1 := match alookup st.entries key with
      | some e => { st with current_size := st.current_size - e.size }
      | none => st
    { st1 with
      entries := lruPut st1.entries key ⟨k, size, st1.nowTime⟩,
      current_size := st1.current_size + size,
      stores := st1.stores + 1 }

/-- The body of `store` inside its catch-all `try`. -/
def storeBody (cdc : Codec) (tile_id : String) (max_zoom : Nat)
    (dds_bytes : List Nat) (tile : Tile) (bundle_path : Option BundleKey)
    (mm0_missing : Option (List Nat)) : M Bool := do
  let k := pkOfTile tile max_zoom
  let s ← getS
  -- `os.path.getmtime(bundle_path)` wrapped in `try/except OSError: pass`
  let bundle_mtime : Option Nat :=
    match bundle_path with
    | some bk => alookup s.fs.bundles bk
    | none => none
  let fc := getFormatAndCompressor s.cfg
  let compBytes := compressDds cdc s.compression dds_bytes
  let disk_compression :=
    if compBytes.length < dds_bytes.length then s.compression else "none"
  let disk_bytes :=
    if disk_compression = "none" then dds_bytes else compBytes
  writeDdsE k disk_bytes
  let s1 ← getS
  let meta := buildDdm tile max_zoom bundle_mtime fc.1 fc.2 mm0_missing
    disk_compression s1.nowTime
  writeDdmE k meta
  lruStoreUpdate (tileKeyStr tile_id max_zoom) k disk_bytes.length
  -- on a complete store the source-JPEG cleanup is dispatched to a
  -- daemon thread; not executed by this sequential model
  pure true

/-- `DynamicDDSCache.store`. -/
def store (cdc : Codec) (tile_id : String) (max_zoom : Nat)
    (dds_bytes : List Nat) (tile : Tile) (bundle_path : Option BundleKey)
    (mm0_missing : Option (List Nat)) : M Bool := do
  let s0 ← getS
  if s0.enabled = false then pure false
  else if dds_bytes.length < 128 then pure false
  else
    -- the handler deletes the temp file (best effort, invisible here)
    -- and reports failure
    pyTry (storeBody cdc tile_id max_zoom dds_bytes tile bundle_path
      mm0_missing) (pure false)

/-- `os.path.getsize(source_path)` for the externally built source file
(the file is modelled by its optional content). -/
def statSrcE (source : Option (List Nat)) : M Nat := fun s =>
  if s.faults.srcStat then Except.error s
  else
    match source with
    | some b => Except.ok (b.length, s)
    | none => Except.error s

/-- `open(source_path, "rb").read()`. -/
def readSrcE (source : Option (List Nat)) : M (List Nat) := fun s =>
  if s.faults.srcRead then Except.error s
  else
    match source with
    | some b => Except.ok (b, s)
    | none => Except.error s

/-- The hard-link-then-copy placement: `os.link` failure (fault or
missing source) falls back to `shutil.copy2`, whose failure raises. -/
def placeSrcE (source : Option (List Nat)) : M (List Nat) := fun s =>
  match source with
  | some b =>
    if s.faults.link ∧ s.faults.copyf then Except.error s
    else Except.ok (b, s)
  | none => Except.error s

/-- The body of `store_from_file` inside its catch-all `try`. -/
def storeFromFileBody (cdc : Codec) (tile_id : String) (max_zoom : Nat)
    (source : Option (List Nat)) (source_size : Nat) (tile : Tile)
    (mm0_missing : Option (List Nat)) : M Bool := do
  let k := pkOfTile tile max_zoom
  let s ← getS
  let r ←
    if s.compression = "zstd" ∧ HAS_ZSTD then do
      let raw ← readSrcE source
      let compBytes := cdc.comp raw
      let disk_compression :=
        if compBytes.length < raw.length then s.compression else "none"
      let disk_bytes :=
        if disk_compression = "none" then raw else compBytes
      writeDdsE k disk_bytes
      pure (disk_compression, disk_bytes.length)
    else do
      let content ← placeSrcE source
      writeDdsE k content
      pure ("none", source_size)
  let s1 ← getS
  let fc := getFormatAndCompressor s1.cfg
  let meta := buildDdm tile max_zoom none fc.1 fc.2 mm0_missing r.1
    s1.nowTime
  writeDdmE k meta
  lruStoreUpdate (tileKeyStr tile_id max_zoom) k r.2
  pure true

/-- `DynamicDDSCache.store_from_file`. -/
def store_from_file (cdc : Codec) (tile_id : String) (max_zoom : Nat)
    (source : Option (List Nat)) (tile : Tile)
    (mm0_missing : Option (List Nat)) : M Bool := do
  let s0 ← getS
  if s0.enabled = false then pure false
  else do
    let szOpt ← pyTry (do let n ← statSrcE source; pure (some n)) (pure none)
    match szOpt with
    | none => pure false
    | some source_size =>
      if source_size < 128 then pure false
      else
        pyTry (storeFromFileBody cdc tile_id max_zoom source source_size
          tile mm0_missing) (pure false)

/-- `_create_dds_skeleton`: header write followed by
`truncate(total_size)` (zero-extension or truncation). -/
def skeletonBytes (hdr : List Nat) (total : Nat) : List Nat :=
  hdr.take total ++ List.replicate (total - hdr.length) 0

/-- Remove duplicates keeping first occurrences (Python `set` built from
a list, before sorting). -/
def dedupNat (l : List Nat) : List Nat :=
  l.foldl (fun acc x => if x ∈ acc then acc else acc ++ [x]) []

/-- The seek-write loop of `store_incremental`; a mipmap index absent
from `mipmap_offsets` raises `KeyError`, a length mismatch is skipped. -/
def writeMipmapsE (k : PathKey) :
    List (Nat × List Nat) → List (Nat × (Nat × Nat)) → M Unit
  | [], _ => pure ()
  | (idx, data) :: rest, offs => do
    match alookup offs idx with
    | none => pyRaise
    | some se =>
      if data.length = se.2 then
        updateDdsE k (fun b => writeAtExt b se.1 data)
      else pure ()
      writeMipmapsE k rest offs

/-- The body of `store_incremental` inside its catch-all `try`. -/
def storeIncrementalBody (tile_id : String) (max_zoom row col : Nat)
    (maptype : String) (tilename_zoom : Nat) (header_bytes : List Nat)
    (total_size width height mm_count : Nat)
    (mipmap_data : List (Nat × List Nat))
    (mipmap_offsets : List (Nat × (Nat × Nat))) : M Bool := do
  let k : PathKey := ⟨row, col, maptype, tilename_zoom, max_zoom⟩
  let s ← getS
  let already := match readDdm s k with
    | some m => m.populated_mipmaps
    | none => []
  let new_mipmaps := mipmap_data.filter (fun p => decide (p.1 ∉ already))
  if new_mipmaps.isEmpty then pure true
  else do
    if ddsExists s k = false then
      writeDdsE k (skeletonBytes header_bytes total_size)
    else pure ()
    writeMipmapsE k new_mipmaps mipmap_offsets
    let merged := sortByKey id
      (dedupNat (already ++ new_mipmaps.map Prod.fst))
    let s1 ← getS
    let fc := getFormatAndCompressor s1.cfg
    let meta := buildDdmIncremental row col maptype tilename_zoom max_zoom
      width height mm_count fc.1 fc.2 merged s1.nowTime
    writeDdmE k meta
    let szOpt ← pyTry (do let n ← statDdsE k; pure (some n)) (pure none)
    lruStoreUpdate (tileKeyStr tile_id max_zoom) k (szOpt.getD total_size)
    pure true

/-- `DynamicDDSCache.store_incremental`. -/
def store_incremental (tile_id : String) (max_zoom row col : Nat)
    (maptype : String) (tilename_zoom : Nat) (header_bytes : List Nat)
    (total_size width height mm_count : Nat)
    (mipmap_data : List (Nat × List Nat))
    (mipmap_offsets : List (Nat × (Nat × Nat))) : M Bool := do
  let s0 ← getS
  if s0.enabled = false then pure false
  else if mipmap_data.isEmpty then pure false
  else
    pyTry (storeIncrementalBody tile_id max_zoom row col maptype
      tilename_zoom header_bytes total_size width height mm_count
      mipmap_data mipmap_offsets) (pure false)

/-! ## `upgrade_zl`, `downgrade_zl` -/

/-- The mipmap-shifting loop shared by `upgrade_zl` and `downgrade_zl`:
the bytes of each source mipmap slot are copied verbatim into the paired
destination slot (`copy_len = min(len(old_data), new_mm.length)`), and
the loop stops when either list runs out. -/
def shiftWrites (oldBytes : List Nat) :
    List MipMap → List MipMap → List Nat → List Nat
  | [], _, buf => buf
  | _ :: _, [], buf => buf
  | om :: oms, nm :: nms, buf =>
    let oldData := sliceOf oldBytes om.startpos (om.endpos - om.startpos)
    let copyLen := min oldData.length nm.mmlen
    shiftWrites oldBytes oms nms (writeAt buf nm.startpos (oldData.take copyLen))

/-- The body of `upgrade_zl` inside its catch-all `try`. -/
def upgradeBody (cdc : Codec) (tile_id : String)
    (old_max_zoom new_max_zoom : Nat) (new_mm0_bytes : List Nat)
    (tile : Tile) : M (Option (List Nat)) := do
  let old_k := pkOfTile tile old_max_zoom
  let s ← getS
  match readDdm s old_k with
  | none => pure none
  | some old_meta => do
    let rawOpt ← pyTry (do let r ← readDdsE old_k; pure (some r)) (pure none)
    match rawOpt with
    | none => pure none
    | some old_raw => do
      let decOpt ← pyTry
        (do let d ← decompressDdsE cdc old_raw old_meta; pure (some d))
        (pure none)
      match decOpt with
      | none => do
        deletePair old_k
        pure none
      | some old_dds_bytes =>
        if old_meta.w = 0 ∨ old_meta.h = 0 then pure none
        else
          match tile.dds with
          | none => pure none
          | some new_dds_ref => do
            let new_total_size := new_dds_ref.total_size
            let new_mm_list := new_dds_ref.mipmap_list
            let old_struct := mkDDS old_meta.w old_meta.h old_meta.fmt
            let old_mm_list := old_struct.mipmap_list
            let buf0 : List Nat := List.replicate new_total_size 0
            let buf1 := writeAt buf0 0 (new_dds_ref.header.take 128)
            let buf2 := match new_mm_list with
              | [] => buf1
              | mm0 :: _ =>
                let endp := min (mm0.startpos + new_mm0_bytes.length) mm0.endpos
                writeAt buf1 mm0.startpos
                  (new_mm0_bytes.take (endp - mm0.startpos))
            let new_dds_bytes :=
              shiftWrites old_dds_bytes old_mm_list (new_mm_list.drop 1) buf2
            let ok ← store cdc tile_id new_max_zoom new_dds_bytes tile
              none none
            if ok then do
              deletePair old_k
              let old_key := tileKeyStr tile_id old_max_zoom
              modifyS fun st =>
                let st1 := match alookup st.entries old_key with
                  | some e =>
                    { st with
                      entries := aerase st.entries old_key,
                      current_size := st.current_size - e.size }
                  | none => st
                { st1 with upgrades := st1.upgrades + 1 }
              pure (some new_dds_bytes)
            else pure none

/-- `DynamicDDSCache.upgrade_zl`: only single-step upgrades. -/
def upgrade_zl (cdc : Codec) (tile_id : String)
    (old_max_zoom new_max_zoom : Nat) (new_mm0_bytes : List Nat)
    (tile : Tile) : M (Option (List Nat)) := do
  let s0 ← getS
  if s0.enabled = false then pure none
  else if old_max_zoom + 1 ≠ new_max_zoom then pure none
  else
    pyTry (upgradeBody cdc tile_id old_max_zoom new_max_zoom new_mm0_bytes
      tile) (pure none)

/-- The body of `downgrade_zl` inside its catch-all `try`. -/
def downgradeBody (cdc : Codec) (tile_id : String)
    (old_max_zoom new_max_zoom : Nat) (tile : Tile) :
    M (Option (List Nat)) := do
  let old_k := pkOfTile tile old_max_zoom
  let s ← getS
  match readDdm s old_k with
  | none => pure none
  | some old_meta => do
    let rawOpt ← pyTry (do let r ← readDdsE old_k; pure (some r)) (pure none)
    match rawOpt with
    | none => pure none
    | some old_raw => do
      let decOpt ← pyTry
        (do let d ← decompressDdsE cdc old_raw old_meta; pure (some d))
        (pure none)
      match decOpt with
      | none => do
        deletePair old_k
        pure none
      | some old_dds_bytes =>
        if old_meta.w = 0 ∨ old_meta.h = 0 then pure none
        else do
          let old_struct := mkDDS old_meta.w old_meta.h old_meta.fmt
          let old_mm_list := old_struct.mipmap_list
          let new_width := old_meta.w / 2
          let new_height := old_meta.h / 2
          if new_width < 4 ∨ new_height < 4 then pure none
          else do
            let new_struct := mkDDS new_width new_height old_meta.fmt
            let new_mm_list := new_struct.mipmap_list
            let new_total_size := new_struct.total_size
            let buf0 : List Nat := List.replicate new_total_size 0
            let buf1 := writeAt buf0 0 (new_struct.header.take 128)
            let new_dds_bytes :=
              shiftWrites old_dds_bytes (old_mm_list.drop 1) new_mm_list buf1
            let ok ← store cdc tile_id new_max_zoom new_dds_bytes tile
              none none
            if ok then do
              deletePair old_k
              let old_key := tileKeyStr tile_id old_max_zoom
              modifyS fun st =>
                match alookup st.entries old_key with
                | some e =>
                  { st with
                    entries := aerase st.entries old_key,
                    current_size := st.current_size - e.size }
                | none => st
              pure (some new_dds_bytes)
            else pure none

/-- `DynamicDDSCache.downgrade_zl`: only single-step downgrades. -/
def downgrade_zl (cdc : Codec) (tile_id : String)
    (old_max_zoom new_max_zoom : Nat) (tile : Tile) :
    M (Option (List Nat)) := do
  let s0 ← getS
  if s0.enabled = false then pure none
  else if new_max_zoom + 1 ≠ old_max_zoom then pure none
  else
    pyTry (downgradeBody cdc tile_id old_max_zoom new_max_zoom tile)
      (pure none)

/-! ## `invalidate`, `evict_lru`, `scan_existing` -/

/-- `DynamicDDSCache.invalidate`. -/
def invalidate (tile_id : String) (max_zoom : Nat) : M Bool := do
  let s0 ← getS
  if s0.enabled = false then pure false
  else do
    let key := tileKeyStr tile_id max_zoom
    match alookup s0.entries key with
    | none => pure false
    | some e => do
      modifyS fun st =>
        { st with
          entries := aerase st.entries key,
          current_size := st.current_size - e.size }
      deletePair e.pk
      pure true

/-- The pop-oldest loop of `evict_lru`, returning
`(freed, remaining entries, popped pair keys, evictions)`. -/
def evictLoop (need : Nat) :
    List (String × Entry) → Nat → (Nat × List (String × Entry) × List PathKey × Nat)
  | [], freed => (freed, [], [], 0)
  | (key, e) :: rest, freed =>
    if freed < need then
      let r := evictLoop need rest (freed + e.size)
      (r.1, r.2.1, e.pk :: r.2.2.1, r.2.2.2 + 1)
    else (freed, (key, e) :: rest, [], 0)

/-- `DynamicDDSCache.evict_lru`: pops oldest entries under the lock, then
deletes the files outside it. -/
def evict_lru (bytes_to_free : Nat) : M Nat := do
  let s0 ← getS
  let r := evictLoop bytes_to_free s0.entries 0
  modifyS fun st =>
    { st with
      entries := r.2.1,
      current_size := st.current_size - r.1,
      evictions := st.evictions + r.2.2.2 }
  r.2.2.1.forM deletePair
  pure r.1

/-- One step of the `scan_existing` walk (the walk iterates over the
DDS files found in the cache tree). -/
def scanLoop : List (PathKey × DdsFile) → M Nat
  | [] => pure 0
  | (k, _) :: rest => do
    let s ← getS
    if (alookup s.fs.ddm k).isSome = false then do
      -- orphan DDS without metadata: removed on discovery
      removeDdsQuiet k
      scanLoop rest
    else
      match readDdm s k with
      | none => scanLoop rest
      | some meta => do
        let tile_id := toString meta.tile_row ++ "_" ++ toString meta.tile_col
          ++ "_" ++ meta.maptype ++ "_" ++ toString meta.zl
        let key := tileKeyStr tile_id meta.max_zl
        let szOpt ← pyTry (do let n ← statDdsE k; pure (some n)) (pure none)
        match szOpt with
        | none => scanLoop rest
        | some size => do
          let s2 ← getS
          let atime := match alookup s2.fs.dds k with
            | some df => if s2.faults.ddsStat k then s2.nowTime else df.mtime
            | none => s2.nowTime
          let s3 ← getS
          let inserted :=
            match alookup s3.entries key with
            | some _ => false
            | none => true
          if inserted then
            modifyS fun st =>
              { st with
                entries := st.entries ++ [(key, ⟨k, size, atime⟩)],
                current_size := st.current_size + size }
          else pure ()
          let n ← scanLoop rest
          pure ((if inserted then 1 else 0) + n)

/-- `DynamicDDSCache.scan_existing`: walk the tree, then re-sort the LRU
by recorded access time (oldest first). -/
def scan_existing : M Nat := do
  let s0 ← getS
  if s0.enabled = false then pure 0
  else do
    let cnt ← pyTry (scanLoop s0.fs.dds) (pure 0)
    if 0 < cnt then
      modifyS fun st =>
        { st with entries := sortByKey (fun p => p.2.atime) st.entries }
    else pure ()
    pure cnt

/-! ## `patch_missing_chunks` (healing)

The JPEG decoder, the Lanczos resizer (both PIL) and the DXT block
compressor (`tile.dds.compress`) are external collaborators; they are
passed in as parameters.  An image is `(width, height, rgba bytes)`. -/

structure PatchExt where
  decodeJpeg : List Nat → Option (Nat × Nat × List Nat)
  resize : (Nat × Nat × List Nat) → Nat → Nat → (Nat × Nat × List Nat)
  dxtCompress : Nat → Nat → List Nat → Option (List Nat)

/-- Write the `blocks_per_side` stripes of one chunk at one mipmap level
into a buffer (`wf` is the buffer writer: clamped slice assignment for
the in-memory bytearray, extending seek-write for the file), and mirror
them into the level's in-memory databuffer when one is attached. -/
def patchLevel (wf : List Nat → Nat → List Nat → List Nat) (dxt : List Nat)
    (mm : MipMap) (blocksPerSide rowStride blockX blockY blocksize : Nat)
    (buf : List Nat) : List Nat × MipMap :=
  let stripeB := blocksPerSide * blocksize
  let base := blockY * rowStride + blockX * blocksize
  let buf2 := (List.range blocksPerSide).foldl
    (fun b s => wf b (mm.startpos + base + s * rowStride)
      (sliceOf dxt (s * stripeB) stripeB)) buf
  let db2 := match mm.databuffer with
    | some db => some ((List.range blocksPerSide).foldl
        (fun b s => writeAtExt b (base + s * rowStride)
          (sliceOf dxt (s * stripeB) stripeB)) db)
    | none => none
  (buf2, { mm with databuffer := db2 })

/-- The per-mipmap-level loop of `_do_patch` for one chunk. -/
def patchLevels (ext : PatchExt) (wf : List Nat → Nat → List Nat → List Nat)
    (width blocksize : Nat) (img : Nat × Nat × List Nat) (cx cy : Nat) :
    List MipMap → Nat → List Nat → List Nat × List MipMap
  | [], _, buf => (buf, [])
  | mm :: rest, mmIdx, buf =>
    let chunkPixels := 256 / 2 ^ mmIdx
    if chunkPixels < 4 then (buf, mm :: rest)
    else
      let mmWidth := width / 2 ^ mmIdx
      if mmWidth < 4 then (buf, mm :: rest)
      else
        let blocksPerSide := chunkPixels / 4
        let rowStride := (mmWidth / 4) * blocksize
        let blockX := cx * blocksPerSide
        let blockY := cy * blocksPerSide
        let resized :=
          if mmIdx = 0 ∧ img.1 = chunkPixels ∧ img.2.1 = chunkPixels then img
          else ext.resize img chunkPixels chunkPixels
        match ext.dxtCompress chunkPixels chunkPixels resized.2.2 with
        | none =>
          let r := patchLevels ext wf width blocksize img cx cy rest
            (mmIdx + 1) buf
          (r.1, mm :: r.2)
        | some dxt =>
          let p := patchLevel wf dxt mm blocksPerSide rowStride blockX
            blockY blocksize buf
          let r := patchLevels ext wf width blocksize img cx cy rest
            (mmIdx + 1) p.1
          (r.1, p.2 :: r.2)

/-- The per-chunk loop of `_do_patch`: a failed JPEG decode skips the
chunk without counting it as patched. -/
def patchChunks (ext : PatchExt) (wf : List Nat → Nat → List Nat → List Nat)
    (width blocksize cpr : Nat) :
    List (Nat × List Nat) → List MipMap → List Nat →
      Nat × List Nat × List MipMap
  | [], mml, buf => (0, buf, mml)
  | (idx, jpeg) :: rest, mml, buf =>
    let cx := idx % cpr
    let cy := idx / cpr
    match ext.decodeJpeg jpeg with
    | none => patchChunks ext wf width blocksize cpr rest mml buf
    | some img =>
      let l := patchLevels ext wf width blocksize img cx cy mml 0 buf
      let r := patchChunks ext wf width blocksize cpr rest l.2 l.1
      (r.1 + 1, r.2.1, r.2.2)

/-- After a full heal, mark mipmap 0 complete in the DDM. -/
def markMm0Complete (l : List MMeta) : List MMeta :=
  match l with
  | [] => []
  | m0 :: rest =>
    { m0 with valid := some (m0.total.getD 0), complete := true } :: rest

/-- After a partial heal, record the residual miss count on mipmap 0. -/
def markMm0Partial (remaining : Nat) (l : List MMeta) : List MMeta :=
  match l with
  | [] => []
  | m0 :: rest =>
    { m0 with valid := some (m0.total.getD 0 - remaining),
              complete := decide (remaining = 0) } :: rest

/-- `_do_patch`: the big `try` catches only `OSError`-kind failures of
the file operations; the final DDM sidecar update is outside it and its
failure propagates to the caller. -/
def doPatch (cdc : Codec) (ext : PatchExt) (_tile_id : String) (mz : Nat)
    (tile : Tile) (chunk_jpegs : List (Nat × List Nat)) :
    M (Bool × Tile) := do
  match tile.dds with
  | none => pure (false, tile)
  | some dds_ref =>
    if tile.chunks_per_row = 0 then pure (false, tile)
    else do
      let k := pkOfTile tile mz
      let blocksize := dds_ref.blocksize
      let mm_list := dds_ref.mipmap_list
      let s ← getS
      let meta0 := readDdm s k
      let isComp :=
        (match meta0 with
         | some m => m.disk_compression
         | none => "none") = "zstd"
      let attempt ← pyTry
        (if isComp then do
          let raw ← readDdsE k
          let decOpt ← pyTry
            (do
              match meta0 with
              | some m => do
                let d ← decompressDdsE cdc raw m
                pure (some d)
              | none => pure (some raw))
            (pure none)
          match decOpt with
          | none => pure none
          | some dds_data => do
            let r := patchChunks ext writeAt dds_ref.width blocksize
              tile.chunks_per_row chunk_jpegs mm_list dds_data
            let s1 ← getS
            writeDdsE k (compressDds cdc s1.compression r.2.1)
            pure (some (r.1, r.2.2))
        else do
          let raw ← readDdsE k
          let r := patchChunks ext writeAtExt dds_ref.width blocksize
            tile.chunks_per_row chunk_jpegs mm_list raw
          writeDdsE k r.2.1
          pure (some (r.1, r.2.2)))
        (pure none)
      match attempt with
      | none => pure (false, tile)
      | some pr => do
        let tileU := { tile with dds := some { dds_ref with mipmap_list := pr.2 } }
        if pr.1 = chunk_jpegs.length then do
          let s2 ← getS
          match readDdm s2 k with
          | some m =>
            writeDdmE k
              { m with needs_healing := false, healing_chunks := 0,
                       missing_indices := [],
                       mipmaps := markMm0Complete m.mipmaps }
          | none => pure ()
          pure (true, { tileU with needsHealing := false, missingIndices := [] })
        else do
          let remaining := tileU.missingIndices.filter
            (fun i => decide (alookup chunk_jpegs i = none))
          let s2 ← getS
          match readDdm s2 k with
          | some m =>
            writeDdmE k
              { m with missing_indices := remaining,
                       healing_chunks := remaining.length,
                       needs_healing := decide (0 < remaining.length),
                       mipmaps := markMm0Partial remaining.length m.mipmaps }
          | none => pure ()
          pure (false,
            { tileU with missingIndices := remaining,
                         needsHealing := decide (0 < remaining.length) })

/-- A `try/finally` block (the exception still propagates). -/
def pyFinally {α : Type} (body : M α) (fin : St → St) : M α := fun s =>
  match body s with
  | Except.ok (a, s1) => Except.ok (a, fin s1)
  | Except.error s1 => Except.error (fin s1)

/-- `DynamicDDSCache.patch_missing_chunks`: the in-flight guard admits
one healer per key; the body runs under `try/finally` only, so an
exception from `_do_patch` propagates to the caller. -/
def patch_missing_chunks (cdc : Codec) (ext : PatchExt) (tile_id : String)
    (mz : Nat) (tile : Tile) (chunk_jpegs : List (Nat × List Nat)) :
    M (Bool × Tile) := do
  let key := tileKeyStr tile_id mz
  let s ← getS
  if key ∈ s.healing_in_progress then pure (false, tile)
  else do
    modifyS fun st =>
      { st with healing_in_progress := key :: st.healing_in_progress }
    pyFinally (doPatch cdc ext tile_id mz tile chunk_jpegs)
      (fun st =>
        { st with healing_in_progress := st.healing_in_progress.erase key })

/-! ## DDM sidecar on-disk size

Modelled from the spec: the sidecar is a single JSON object serialized
compactly (`json.dump(meta, separators=(",", ":"))`).  The serializer
below fixes a concrete byte count for a parsed sidecar; only its
positivity matters to the theorems. -/

def mmetaJson (m : MMeta) : String :=
  "\x7b\"zl\":" ++ toString m.zl ++ ",\"complete\":"
    ++ (if m.complete then "true" else "false")
    ++ (match m.total with
        | some t => ",\"total\":" ++ toString t
        | none => "")
    ++ (match m.valid with
        | some v => ",\"valid\":" ++ toString v
        | none => "")
    ++ "\x7d"

def natListJson (l : List Nat) : String :=
  "[" ++ String.intercalate "," (l.map toString) ++ "]"

def ddmJson (m : DDM) : String :=
  "\x7b\"v\":" ++ toString m.v
    ++ ",\"w\":" ++ toString m.w
    ++ ",\"h\":" ++ toString m.h
    ++ ",\"mm\":" ++ toString m.mm
    ++ ",\"zl\":" ++ toString m.zl
    ++ ",\"max_zl\":" ++ toString m.max_zl
    ++ ",\"fmt\":\"" ++ m.fmt
    ++ "\",\"comp\":\"" ++ m.comp
    ++ "\",\"map\":\"" ++ m.maptype
    ++ "\",\"bundle_mtime\":" ++ toString m.bundle_mtime
    ++ ",\"built\":" ++ toString m.built
    ++ ",\"tile_row\":" ++ toString m.tile_row
    ++ ",\"tile_col\":" ++ toString m.tile_col
    ++ ",\"mipmaps\":[" ++ String.intercalate "," (m.mipmaps.map mmetaJson)
    ++ "],\"populated_mipmaps\":" ++ natListJson m.populated_mipmaps
    ++ ",\"needs_healing\":" ++ (if m.needs_healing then "true" else "false")
    ++ ",\"healing_chunks\":" ++ toString m.healing_chunks
    ++ ",\"missing_indices\":" ++ natListJson m.missing_indices
    ++ ",\"disk_compression\":\"" ++ m.disk_compression ++ "\"\x7d"

/-- On-disk byte count of a DDM sidecar file. -/
def ddmFileSize : DdmFile → Nat
  | DdmFile.parsed m => (ddmJson m).length
  | DdmFile.corrupt sz => sz

/-! ## Disk budget manager (`DiskBudgetManager`) -/

structure BmSt where
  dds_usage : Int
  bundle_usage : Int
  jpeg_usage : Int
  dds_budget : Nat
  bundle_budget : Nat
  jpeg_budget : Nat
deriving Repr, DecidableEq

def fsRemovePair (fs : Fs) (k : PathKey) : Fs :=
  { fs with dds := aerase fs.dds k, ddm := aerase fs.ddm k }

/-- The walk of `cleanup_stale_dds` over the sidecar files, returning
`(removed count, freed DDS bytes, filesystem afterwards)`.  A corrupt
sidecar removes the pair without accounting; a parsed sidecar whose
bundle (derived from its `tile_row/col/map/zl` fields) is absent removes
the pair and accounts the DDS file's size (`os.path.getsize(dds_path)`;
a missing DDS contributes nothing). -/
def cleanupLoop : List (PathKey × DdmFile) → Fs → Nat × Nat × Fs
  | [], fs => (0, 0, fs)
  | (k, f) :: rest, fs =>
    match f with
    | DdmFile.corrupt _ =>
      let r := cleanupLoop rest (fsRemovePair fs k)
      (r.1 + 1, r.2.1, r.2.2)
    | DdmFile.parsed m =>
      let bk := bundleKeyOf m.tile_row m.tile_col m.maptype m.zl
      if (alookup fs.bundles bk).isSome then cleanupLoop rest fs
      else
        let sz := match alookup fs.dds k with
          | some df => df.bytes.length
          | none => 0
        let r := cleanupLoop rest (fsRemovePair fs k)
        (r.1 + 1, r.2.1 + sz, r.2.2)

/-- `DiskBudgetManager.cleanup_stale_dds`: returns the removal count;
tracked DDS usage is reduced by the freed DDS bytes (clamped at zero)
when anything was freed. -/
def cleanup_stale_dds (fs : Fs) (bm : BmSt) : Nat × Fs × BmSt :=
  let r := cleanupLoop fs.ddm fs
  let bm2 :=
    if 0 < r.2.1 then
      { bm with dds_usage := max 0 (bm.dds_usage - r.2.1) }
    else bm
  (r.1, r.2.2, bm2)

/-! ## Run lemmas for symbolic execution -/

theorem bind_is_mbind {α β : Type} (x : M α) (f : α → M β) :
    x >>= f = mbind x f := rfl

theorem pure_is_mpure {α : Type} (a : α) : (pure a : M α) = mpure a := rfl

theorem mbind_run_ok {α β : Type} (x : M α) (f : α → M β) (s s1 : St) (a : α)
    (h : x s = Except.ok (a, s1)) : mbind x f s = f a s1 := by
  unfold mbind; rw [h]

theorem mbind_run_err {α β : Type} (x : M α) (f : α → M β) (s s1 : St)
    (h : x s = Except.error s1) : mbind x f s = Except.error s1 := by
  unfold mbind; rw [h]

theorem mpure_run {α : Type} (a : α) (s : St) :
    mpure a s = Except.ok (a, s) := rfl

theorem getS_run (s : St) : getS s = Except.ok (s, s) := rfl

theorem modifyS_run (f : St → St) (s : St) :
    modifyS f s = Except.ok ((), f s) := rfl

theorem pyTry_run_ok {α : Type} (body handler : M α) (s : St)
    (r : α × St) (h : body s = Except.ok r) :
    pyTry body handler s = Except.ok r := by
  unfold pyTry; rw [h]

theorem pyTry_run_err {α : Type} (body handler : M α) (s s1 : St)
    (h : body s = Except.error s1) :
    pyTry body handler s = handler s1 := by
  unfold pyTry; rw [h]

/-- All fault flags off. -/
def NoFaults (s : St) : Prop := s.faults = noFaults

/-! ### Association list lemmas -/

theorem alookup_aset_self {κ β : Type} [DecidableEq κ]
    (l : List (κ × β)) (k : κ) (v : β) : alookup (aset l k v) k = some v := by
  induction l with
  | nil => simp [aset, alookup]
  | cons p rest ih =>
    by_cases h : p.1 = k
    · simp [aset, h, alookup]
    · simp [aset, h, alookup, ih]

theorem alookup_aset_ne {κ β : Type} [DecidableEq κ]
    (l : List (κ × β)) (k k1 : κ) (v : β) (h : k1 ≠ k) :
    alookup (aset l k v) k1 = alookup l k1 := by
  induction l with
  | nil =>
    simp only [aset, alookup]
    rw [if_neg (fun he => h he.symm)]
  | cons p rest ih =>
    obtain ⟨a, b⟩ := p
    by_cases hp : a = k
    · subst hp
      simp only [aset, if_pos rfl, alookup]
      rw [if_neg (fun he => h he.symm), if_neg (fun he => h he.symm)]
    · simp only [aset, if_neg hp, alookup]
      by_cases hq : a = k1
      · rw [if_pos hq, if_pos hq]
      · rw [if_neg hq, if_neg hq, ih]

theorem aerase_cons_self {κ β : Type} [DecidableEq κ]
    (a : κ) (b : β) (rest : List (κ × β)) (k : κ) (h : a = k) :
    aerase ((a, b) :: rest) k = aerase rest k := by
  simp [aerase, List.filter_cons, h]

theorem aerase_cons_ne {κ β : Type} [DecidableEq κ]
    (a : κ) (b : β) (rest : List (κ × β)) (k : κ) (h : ¬a = k) :
    aerase ((a, b) :: rest) k = (a, b) :: aerase rest k := by
  simp [aerase, List.filter_cons, h]

theorem alookup_aerase_self {κ β : Type} [DecidableEq κ]
    (l : List (κ × β)) (k : κ) : alookup (aerase l k) k = none := by
  induction l with
  | nil => rfl
  | cons p rest ih =>
    obtain ⟨a, b⟩ := p
    by_cases h : a = k
    · rw [aerase_cons_self a b rest k h, ih]
    · rw [aerase_cons_ne a b rest k h]
      show (if a = k then some b else alookup (aerase rest k) k) = none
      rw [if_neg h, ih]

theorem alookup_aerase_ne {κ β : Type} [DecidableEq κ]
    (l : List (κ × β)) (k k1 : κ) (h : k1 ≠ k) :
    alookup (aerase l k) k1 = alookup l k1 := by
  induction l with
  | nil => rfl
  | cons p rest ih =>
    obtain ⟨a, b⟩ := p
    by_cases hp : a = k
    · rw [aerase_cons_self a b rest k hp, ih]
      show alookup rest k1 = (if a = k1 then some b else alookup rest k1)
      rw [if_neg (by rw [hp]; exact fun hq => h hq.symm)]
    · rw [aerase_cons_ne a b rest k hp]
      show (if a = k1 then some b else alookup (aerase rest k) k1)
        = (if a = k1 then some b else alookup rest k1)
      by_cases hq : a = k1
      · rw [if_pos hq, if_pos hq]
      · rw [if_neg hq, if_neg hq, ih]

theorem alookup_append {κ β : Type} [DecidableEq κ]
    (l1 l2 : List (κ × β)) (k : κ) :
    alookup (l1 ++ l2) k =
      match alookup l1 k with
      | some v => some v
      | none => alookup l2 k := by
  induction l1 with
  | nil => simp [alookup]
  | cons p rest ih =>
    by_cases h : p.1 = k
    · simp [alookup, h]
    · simp [alookup, h, ih]

/-! ### State helpers and primitive run lemmas -/

def setDdsSt (s : St) (k : PathKey) (b : List Nat) : St :=
  { s with fs := { s.fs with dds := aset s.fs.dds k ⟨b, s.nowTime⟩ } }

def setDdmSt (s : St) (k : PathKey) (m : DDM) : St :=
  { s with fs := { s.fs with ddm := aset s.fs.ddm k (DdmFile.parsed m) } }

def erasePairSt (s : St) (k : PathKey) : St :=
  { s with fs :=
    { s.fs with dds := aerase s.fs.dds k, ddm := aerase s.fs.ddm k } }

def bumpMissesSt (s : St) : St := { s with misses := s.misses + 1 }

theorem writeDdsE_run (k : PathKey) (b : List Nat) (s : St)
    (h : s.faults.ddsWrite k = false) :
    writeDdsE k b s = Except.ok ((), setDdsSt s k b) := by
  unfold writeDdsE setDdsSt; rw [h]; simp

theorem writeDdmE_run (k : PathKey) (m : DDM) (s : St)
    (h : s.faults.ddmWrite k = false) :
    writeDdmE k m s = Except.ok ((), setDdmSt s k m) := by
  unfold writeDdmE setDdmSt; rw [h]; simp

theorem removeDdsQuiet_run (k : PathKey) (s : St)
    (h : s.faults.ddsRemove k = false) :
    removeDdsQuiet k s =
      Except.ok ((), { s with fs := { s.fs with dds := aerase s.fs.dds k } }) := by
  unfold removeDdsQuiet; rw [h]; simp

theorem deletePair_run (k : PathKey) (s : St)
    (h1 : s.faults.ddsRemove k = false) (h2 : s.faults.ddmRemove k = false) :
    deletePair k s = Except.ok ((), erasePairSt s k) := by
  unfold deletePair
  rw [bind_is_mbind]
  rw [mbind_run_ok _ _ _ _ _ (removeDdsQuiet_run k s h1)]
  simp [removeDdmQuiet, erasePairSt, h2]

theorem readDdsE_run (k : PathKey) (s : St) (f : DdsFile)
    (hf : s.faults.ddsRead k = false) (h : alookup s.fs.dds k = some f) :
    readDdsE k s = Except.ok (f.bytes, s) := by
  unfold readDdsE; rw [hf, h]; simp

theorem statDdsE_run (k : PathKey) (s : St) (f : DdsFile)
    (hf : s.faults.ddsStat k = false) (h : alookup s.fs.dds k = some f) :
    statDdsE k s = Except.ok (f.bytes.length, s) := by
  unfold statDdsE; rw [hf, h]; simp

theorem readDdm_parsed (s : St) (k : PathKey) (m : DDM)
    (hf : s.faults.ddmRead k = false)
    (h : alookup s.fs.ddm k = some (DdmFile.parsed m)) :
    readDdm s k = some m := by
  unfold readDdm; rw [hf, h]; simp

/-! ### Characterization of `store` -/
def storeDiskBytes (cdc : Codec) (compression : String) (B : List Nat) : List Nat :=
  if (compressDds cdc compression B).length < B.length then
    compressDds cdc compression B
  else B

def storeDiskComp (cdc : Codec) (compression : String) (B : List Nat) : String :=
  if (compressDds cdc compression B).length < B.length then compression
  else "none"

def bundleMtimeOf (s : St) (bp : Option BundleKey) : Option Nat :=
  match bp with
  | some bk => alookup s.fs.bundles bk
  | none => none

def storeMeta (cdc : Codec) (s : St) (mz : Nat) (tile : Tile)
    (bp : Option BundleKey) (miss : Option (List Nat)) (B : List Nat) : DDM :=
  buildDdm tile mz (bundleMtimeOf s bp) (normFmt s.cfg.fmt)
    (upperStr s.cfg.compressor) miss (storeDiskComp cdc s.compression B)
    s.nowTime

def lruStoreSt (s : St) (key : String) (k : PathKey) (size : Nat) : St :=
  let s1 := match alookup s.entries key with
    | some e => { s with current_size := s.current_size - e.size }
    | none => s
  { s1 with
    entries := lruPut s1.entries key ⟨k, size, s1.nowTime⟩,
    current_size := s1.current_size + size,
    stores := s1.stores + 1 }

def storeSt (cdc : Codec) (tid : String) (mz : Nat) (B : List Nat)
    (tile : Tile) (bp : Option BundleKey) (miss : Option (List Nat))
    (s : St) : St :=
  lruStoreSt
    (setDdmSt (setDdsSt s (pkOfTile tile mz) (storeDiskBytes cdc s.compression B))
      (pkOfTile tile mz) (storeMeta cdc s mz tile bp miss B))
    (tileKeyStr tid mz) (pkOfTile tile mz) (storeDiskBytes cdc s.compression B).length

theorem compress_lt_zstd (cdc : Codec) (c : String) (B : List Nat)
    (h : (compressDds cdc c B).length < B.length) : c = "zstd" := by
  unfold compressDds at h
  by_cases hc : c = "zstd" ∧ HAS_ZSTD = true
  · exact hc.1
  · rw [if_neg hc] at h
    exact absurd h (lt_irrefl _)

theorem storeBody_run (cdc : Codec) (tid : String) (mz : Nat) (B : List Nat)
    (tile : Tile) (bp : Option BundleKey) (miss : Option (List Nat)) (s : St)
    (hW : s.faults.ddsWrite (pkOfTile tile mz) = false)
    (hM : s.faults.ddmWrite (pkOfTile tile mz) = false) :
    storeBody cdc tid mz B tile bp miss s =
      Except.ok (true, storeSt cdc tid mz B tile bp miss s) := by
  have hzn : ¬ (("zstd" : String) = "none") := by decide
  by_cases hlt : (compressDds cdc s.compression B).length < B.length
  · have hz : s.compression = "zstd" := compress_lt_zstd cdc _ B hlt
    rw [hz] at hlt
    have hnle : ¬ (B.length ≤ (compressDds cdc "zstd" B).length) :=
      not_le.mpr hlt
    simp [storeBody, storeSt, storeMeta, storeDiskBytes, storeDiskComp,
      bundleMtimeOf, lruStoreSt, bind_is_mbind, pure_is_mpure, mbind, mpure,
      getS, modifyS, writeDdsE, writeDdmE, lruStoreUpdate, setDdsSt, setDdmSt,
      getFormatAndCompressor, hW, hM, hlt, hz, hzn, hnle]
  · have hge : B.length ≤ (compressDds cdc s.compression B).length :=
      Nat.le_of_not_lt hlt
    simp [storeBody, storeSt, storeMeta, storeDiskBytes, storeDiskComp,
      bundleMtimeOf, lruStoreSt, bind_is_mbind, pure_is_mpure, mbind, mpure,
      getS, modifyS, writeDdsE, writeDdmE, lruStoreUpdate, setDdsSt, setDdmSt,
      getFormatAndCompressor, hW, hM, hlt, hge]

/-! ### Characterization of `load` hits -/
theorem store_run (cdc : Codec) (tid : String) (mz : Nat) (B : List Nat)
    (tile : Tile) (bp : Option BundleKey) (miss : Option (List Nat)) (s : St)
    (hE : s.enabled = true) (hL : 128 ≤ B.length)
    (hW : s.faults.ddsWrite (pkOfTile tile mz) = false)
    (hM : s.faults.ddmWrite (pkOfTile tile mz) = false) :
    store cdc tid mz B tile bp miss s =
      Except.ok (true, storeSt cdc tid mz B tile bp miss s) := by
  unfold store
  rw [bind_is_mbind, mbind_run_ok _ _ _ _ _ (getS_run s)]
  rw [if_neg (by simp [hE]), if_neg (by omega)]
  exact pyTry_run_ok _ _ _ _ (storeBody_run cdc tid mz B tile bp miss s hW hM)

theorem store_short (cdc : Codec) (tid : String) (mz : Nat) (B : List Nat)
    (tile : Tile) (bp : Option BundleKey) (miss : Option (List Nat)) (s : St)
    (h : B.length < 128) :
    store cdc tid mz B tile bp miss s = Except.ok (false, s) := by
  unfold store
  rw [bind_is_mbind, mbind_run_ok _ _ _ _ _ (getS_run s)]
  by_cases he : s.enabled = false
  · rw [if_pos he]; rfl
  · rw [if_neg he, if_pos h]; rfl

/-- The value `load` obtains from `_decompress_dds`, as a pure partial
function. -/
def decompOf (cdc : Codec) (meta : DDM) (data : List Nat) :
    Option (List Nat) :=
  if meta.disk_compression ≠ "zstd" then some data else cdc.decomp data

theorem decompressDdsE_run (cdc : Codec) (meta : DDM) (data D : List Nat)
    (t : St) (hDec : decompOf cdc meta data = some D) :
    decompressDdsE cdc data meta t = Except.ok (D, t) := by
  unfold decompressDdsE
  unfold decompOf at hDec
  by_cases h : meta.disk_compression = "zstd"
  · rw [if_neg (by simp [h])] at hDec
    rw [if_neg (by simp [h])]
    rw [hDec]
    rfl
  · rw [if_pos h] at hDec
    rw [if_pos h]
    injection hDec with h2
    rw [h2]
    rfl

/-- The tile after a cache hit (healing hint plus populated set). -/
def loadHitTile (tile : Tile) (meta : DDM) : Tile :=
  let t2 :=
    if meta.needs_healing then
      { tile with needsHealing := true, missingIndices := meta.missing_indices }
    else tile
  { t2 with populatedMipmaps := some meta.populated_mipmaps }

/-- The state after the LRU block of a cache hit. -/
def loadHitSt (t : St) (key : String) (k : PathKey) (size : Nat) : St :=
  match alookup t.entries key with
  | some e =>
    { t with entries := lruPut t.entries key ⟨k, e.size, t.nowTime⟩,
             hits := t.hits + 1 }
  | none =>
    { t with entries := t.entries ++ [(key, ⟨k, size, t.nowTime⟩)],
             current_size := t.current_size + size,
             hits := t.hits + 1 }

theorem load_hit_run (cdc : Codec) (tid : String) (mz : Nat) (tile : Tile)
    (t : St) (meta : DDM) (df : DdsFile) (D : List Nat)
    (hE : t.enabled = true)
    (hFm : t.faults.ddmRead (pkOfTile tile mz) = false)
    (hFr : t.faults.ddsRead (pkOfTile tile mz) = false)
    (hDdm : alookup t.fs.ddm (pkOfTile tile mz) = some (DdmFile.parsed meta))
    (hStale : isStale t meta tile (pkOfTile tile mz) = false)
    (hZl : meta.max_zl = mz)
    (hDds : alookup t.fs.dds (pkOfTile tile mz) = some df)
    (hDec : decompOf cdc meta df.bytes = some D)
    (hSB : (match tile.dds with
            | some d => decide (D.length ≠ d.total_size)
            | none => false) = false) :
    load cdc tid mz tile t =
      Except.ok ((some D, loadHitTile tile meta),
        loadHitSt t (tileKeyStr tid mz) (pkOfTile tile mz) D.length) := by
  have hR : readDdm t (pkOfTile tile mz) = some meta :=
    readDdm_parsed t _ meta hFm hDdm
  have hRd : readDdsE (pkOfTile tile mz) t = Except.ok (df.bytes, t) :=
    readDdsE_run _ t df hFr hDds
  have hDc : decompressDdsE cdc df.bytes meta t = Except.ok (D, t) :=
    decompressDdsE_run cdc meta df.bytes D t hDec
  unfold load
  rw [bind_is_mbind, mbind_run_ok _ _ _ _ _ (getS_run t)]
  rw [if_neg (by simp [hE])]
  apply pyTry_run_ok
  unfold loadBody
  rw [bind_is_mbind, mbind_run_ok _ _ _ _ _ (getS_run t)]
  simp only [hR, hStale, hZl, Bool.false_eq_true, if_false,
    ne_eq, not_true_eq_false]
  rw [bind_is_mbind]
  rw [mbind_run_ok _ _ _ _ _ (pyTry_run_ok _ _ _ _
    (by rw [bind_is_mbind, mbind_run_ok _ _ _ _ _ hRd]; rfl))]
  simp only []
  rw [bind_is_mbind]
  rw [mbind_run_ok _ _ _ _ _ (pyTry_run_ok _ _ _ _
    (by rw [bind_is_mbind, mbind_run_ok _ _ _ _ _ hDc]; rfl))]
  simp only [hSB, Bool.false_eq_true, if_false]
  rw [bind_is_mbind, mbind_run_ok _ _ _ _ _ (modifyS_run _ t)]
  by_cases hNH : meta.needs_healing = true
  · simp [loadHitSt, loadHitTile, mpure, pure_is_mpure, hNH]
  · simp [loadHitSt, loadHitTile, mpure, pure_is_mpure, hNH]

/-! ### Facts about the stored state -/
theorem lruStoreSt_fs (s : St) (key : String) (k : PathKey) (sz : Nat) :
    (lruStoreSt s key k sz).fs = s.fs := by
  unfold lruStoreSt
  rcases h : alookup s.entries key <;> simp [h]

theorem lruStoreSt_faults (s : St) (key : String) (k : PathKey) (sz : Nat) :
    (lruStoreSt s key k sz).faults = s.faults := by
  unfold lruStoreSt
  rcases h : alookup s.entries key <;> simp [h]

theorem lruStoreSt_cfg (s : St) (key : String) (k : PathKey) (sz : Nat) :
    (lruStoreSt s key k sz).cfg = s.cfg := by
  unfold lruStoreSt
  rcases h : alookup s.entries key <;> simp [h]

theorem lruStoreSt_enabled (s : St) (key : String) (k : PathKey) (sz : Nat) :
    (lruStoreSt s key k sz).enabled = s.enabled := by
  unfold lruStoreSt
  rcases h : alookup s.entries key <;> simp [h]

theorem lruStoreSt_compression (s : St) (key : String) (k : PathKey) (sz : Nat) :
    (lruStoreSt s key k sz).compression = s.compression := by
  unfold lruStoreSt
  rcases h : alookup s.entries key <;> simp [h]

theorem lruStoreSt_nowTime (s : St) (key : String) (k : PathKey) (sz : Nat) :
    (lruStoreSt s key k sz).nowTime = s.nowTime := by
  unfold lruStoreSt
  rcases h : alookup s.entries key <;> simp [h]

theorem storeSt_fs_ddm (cdc : Codec) (tid : String) (mz : Nat) (B : List Nat)
    (tile : Tile) (bp : Option BundleKey) (miss : Option (List Nat)) (s : St) :
    (storeSt cdc tid mz B tile bp miss s).fs.ddm =
      aset s.fs.ddm (pkOfTile tile mz)
        (DdmFile.parsed (storeMeta cdc s mz tile bp miss B)) := by
  unfold storeSt
  rw [lruStoreSt_fs]
  rfl

theorem storeSt_fs_dds (cdc : Codec) (tid : String) (mz : Nat) (B : List Nat)
    (tile : Tile) (bp : Option BundleKey) (miss : Option (List Nat)) (s : St) :
    (storeSt cdc tid mz B tile bp miss s).fs.dds =
      aset s.fs.dds (pkOfTile tile mz)
        ⟨storeDiskBytes cdc s.compression B, s.nowTime⟩ := by
  unfold storeSt
  rw [lruStoreSt_fs]
  rfl

theorem storeSt_faults (cdc : Codec) (tid : String) (mz : Nat) (B : List Nat)
    (tile : Tile) (bp : Option BundleKey) (miss : Option (List Nat)) (s : St) :
    (storeSt cdc tid mz B tile bp miss s).faults = s.faults := by
  unfold storeSt; rw [lruStoreSt_faults]; rfl

theorem storeSt_cfg (cdc : Codec) (tid : String) (mz : Nat) (B : List Nat)
    (tile : Tile) (bp : Option BundleKey) (miss : Option (List Nat)) (s : St) :
    (storeSt cdc tid mz B tile bp miss s).cfg = s.cfg := by
  unfold storeSt; rw [lruStoreSt_cfg]; rfl

theorem storeSt_enabled (cdc : Codec) (tid : String) (mz : Nat) (B : List Nat)
    (tile : Tile) (bp : Option BundleKey) (miss : Option (List Nat)) (s : St) :
    (storeSt cdc tid mz B tile bp miss s).enabled = s.enabled := by
  unfold storeSt; rw [lruStoreSt_enabled]; rfl

/-- `storeMeta` chooses `"none"` as `disk_compression` exactly when the
compressed form is not smaller. -/
theorem storeDiskComp_none (cdc : Codec) (c : String) (B : List Nat)
    (h : ¬ (compressDds cdc c B).length < B.length) :
    storeDiskComp cdc c B = "none" := by
  unfold storeDiskComp; rw [if_neg h]

theorem storeDiskBytes_of_not_lt (cdc : Codec) (c : String) (B : List Nat)
    (h : ¬ (compressDds cdc c B).length < B.length) :
    storeDiskBytes cdc c B = B := by
  unfold storeDiskBytes; rw [if_neg h]

/-- The staleness check never fires immediately after a `store` of a
payload of the expected size. -/
theorem isStale_after_store (cdc : Codec) (tid : String) (mz : Nat)
    (B : List Nat) (tile : Tile) (miss : Option (List Nat)) (s : St)
    (d : DDSLayout)
    (hNF : NoFaults s)
    (hdds : tile.dds = some d)
    (hB : B.length = d.total_size)
    (hMz : tile.max_zoom = mz) :
    isStale (storeSt cdc tid mz B tile none miss s)
      (storeMeta cdc s mz tile none miss B) tile (pkOfTile tile mz) = false := by
  have hcfg := storeSt_cfg cdc tid mz B tile none miss s
  have hfa := storeSt_faults cdc tid mz B tile none miss s
  have hfd := storeSt_fs_dds cdc tid mz B tile none miss s
  unfold isStale
  rw [hcfg]
  rw [if_neg (by simp [storeMeta, buildDdm])]
  rw [if_neg (by simp [storeMeta, buildDdm])]
  have hbm : (storeMeta cdc s mz tile none miss B).bundle_mtime = 0 := by
    simp [storeMeta, buildDdm, bundleMtimeOf]
  by_cases hlt : (compressDds cdc s.compression B).length < B.length
  · have hz : s.compression = "zstd" := compress_lt_zstd cdc _ B hlt
    rw [hz] at hlt
    have hdc : (storeMeta cdc s mz tile none miss B).disk_compression = "zstd" := by
      simp [storeMeta, buildDdm, storeDiskComp, hlt, hz]
    rw [hdc]
    simp [hbm]
  · have hdc : (storeMeta cdc s mz tile none miss B).disk_compression = "none" := by
      simp [storeMeta, buildDdm, storeDiskComp_none cdc _ B hlt]
    rw [hdc]
    rw [hdds]
    have hzl : (storeMeta cdc s mz tile none miss B).max_zl = mz := by
      simp [storeMeta, buildDdm]
    rw [hzl, hMz]
    rw [hfd, alookup_aset_self]
    rw [hfa, hNF]
    simp [noFaults, storeDiskBytes_of_not_lt cdc _ B hlt, hB, hbm]

/-! ### Characterization of `store_from_file` -/
theorem decompOf_storeMeta (cdc : Codec) (s : St) (mz : Nat) (tile : Tile)
    (bp : Option BundleKey) (miss : Option (List Nat)) (B : List Nat) :
    decompOf cdc (storeMeta cdc s mz tile bp miss B)
      (storeDiskBytes cdc s.compression B) = some B := by
  by_cases hlt : (compressDds cdc s.compression B).length < B.length
  · have hz : s.compression = "zstd" := compress_lt_zstd cdc _ B hlt
    rw [hz] at hlt
    have hdc : (storeMeta cdc s mz tile bp miss B).disk_compression = "zstd" := by
      simp [storeMeta, buildDdm, storeDiskComp, hlt, hz]
    have hcb : compressDds cdc "zstd" B = cdc.comp B := by
      simp [compressDds, HAS_ZSTD]
    have hdb : storeDiskBytes cdc s.compression B = cdc.comp B := by
      unfold storeDiskBytes
      rw [hz, hcb]
      rw [if_pos (by rw [hcb] at hlt; exact hlt)]
    unfold decompOf
    rw [hdc, hdb]
    simp [cdc.roundtrip]
  · have hdc : (storeMeta cdc s mz tile bp miss B).disk_compression = "none" := by
      simp [storeMeta, buildDdm, storeDiskComp_none cdc _ B hlt]
    unfold decompOf
    rw [hdc, storeDiskBytes_of_not_lt cdc _ B hlt]
    simp

theorem total_size_ge_128 (w h : Nat) (fmt : String) :
    128 ≤ (mkDDS w h fmt).total_size :=
  mmTotal_ge (blocksizeOf fmt) w h 128

theorem storeFromFileBody_run (cdc : Codec) (tid : String) (mz : Nat)
    (raw : List Nat) (tile : Tile) (miss : Option (List Nat)) (s : St)
    (hW : s.faults.ddsWrite (pkOfTile tile mz) = false)
    (hM : s.faults.ddmWrite (pkOfTile tile mz) = false)
    (hSR : s.faults.srcRead = false)
    (hLC : s.faults.link = false) :
    storeFromFileBody cdc tid mz (some raw) raw.length tile miss s =
      Except.ok (true, storeSt cdc tid mz raw tile none miss s) := by
  have hzn : ¬ (("zstd" : String) = "none") := by decide
  rcases halk : alookup s.entries (tileKeyStr tid mz) with _ | e
  all_goals (
    by_cases hc : s.compression = "zstd" ∧ HAS_ZSTD = true
    · have hcb : compressDds cdc "zstd" raw = cdc.comp raw := by
        simp [compressDds, HAS_ZSTD]
      by_cases hlt : (cdc.comp raw).length < raw.length
      · have hnle : ¬ (raw.length ≤ (cdc.comp raw).length) := not_le.mpr hlt
        simp [storeFromFileBody, storeSt, storeMeta, storeDiskBytes,
          storeDiskComp, bundleMtimeOf, lruStoreSt, bind_is_mbind,
          pure_is_mpure, mbind, mpure, getS, modifyS, writeDdsE, writeDdmE,
          lruStoreUpdate, setDdsSt, setDdmSt, getFormatAndCompressor,
          readSrcE, hW, hM, hSR, hc.1, hcb, hlt, hnle, hzn, HAS_ZSTD, halk]
      · have hge : raw.length ≤ (cdc.comp raw).length := Nat.le_of_not_lt hlt
        simp [storeFromFileBody, storeSt, storeMeta, storeDiskBytes,
          storeDiskComp, bundleMtimeOf, lruStoreSt, bind_is_mbind,
          pure_is_mpure, mbind, mpure, getS, modifyS, writeDdsE, writeDdmE,
          lruStoreUpdate, setDdsSt, setDdmSt, getFormatAndCompressor,
          readSrcE, hW, hM, hSR, hc.1, hcb, hlt, hge, hzn, HAS_ZSTD, halk]
    · have hcb : compressDds cdc s.compression raw = raw := by
        simp only [compressDds]
        rw [if_neg (by intro h2; exact hc ⟨h2.1, by simp [HAS_ZSTD]⟩)]
      have hnlt : ¬ (compressDds cdc s.compression raw).length < raw.length := by
        rw [hcb]; exact lt_irrefl _
      simp [storeFromFileBody, storeSt, storeMeta, storeDiskBytes,
        storeDiskComp, bundleMtimeOf, lruStoreSt, bind_is_mbind,
        pure_is_mpure, mbind, mpure, getS, modifyS, writeDdsE, writeDdmE,
        lruStoreUpdate, setDdsSt, setDdmSt, getFormatAndCompressor,
        placeSrcE, hW, hM, hLC, hc, hcb, hnlt, hzn, halk])

theorem storeFromFile_run (cdc : Codec) (tid : String) (mz : Nat)
    (raw : List Nat) (tile : Tile) (miss : Option (List Nat)) (s : St)
    (hE : s.enabled = true) (hL : 128 ≤ raw.length)
    (hW : s.faults.ddsWrite (pkOfTile tile mz) = false)
    (hM : s.faults.ddmWrite (pkOfTile tile mz) = false)
    (hSS : s.faults.srcStat = false)
    (hSR : s.faults.srcRead = false)
    (hLC : s.faults.link = false) :
    store_from_file cdc tid mz (some raw) tile miss s =
      Except.ok (true, storeSt cdc tid mz raw tile none miss s) := by
  unfold store_from_file
  rw [bind_is_mbind, mbind_run_ok _ _ _ _ _ (getS_run s)]
  rw [if_neg (by simp [hE])]
  have hstat : statSrcE (some raw) s = Except.ok (raw.length, s) := by
    unfold statSrcE; rw [hSS]; simp
  rw [bind_is_mbind]
  rw [mbind_run_ok _ _ _ _ _ (pyTry_run_ok _ _ _ _
    (by rw [bind_is_mbind, mbind_run_ok _ _ _ _ _ hstat]; rfl))]
  simp only []
  rw [if_neg (by omega)]
  exact pyTry_run_ok _ _ _ _
    (storeFromFileBody_run cdc tid mz raw tile miss s hW hM hSR hLC)

theorem noFaults_dds_write (k : PathKey) : noFaults.ddsWrite k = false := rfl
theorem noFaults_ddm_write (k : PathKey) : noFaults.ddmWrite k = false := rfl
theorem noFaults_dds_read (k : PathKey) : noFaults.ddsRead k = false := rfl
theorem noFaults_ddm_read (k : PathKey) : noFaults.ddmRead k = false := rfl
theorem noFaults_dds_stat (k : PathKey) : noFaults.ddsStat k = false := rfl
theorem noFaults_dds_rm (k : PathKey) : noFaults.ddsRemove k = false := rfl
theorem noFaults_ddm_rm (k : PathKey) : noFaults.ddmRemove k = false := rfl

/-! ## Claim C1: store/load round trip -/
/-- A `load` of a just-stored entry is a hit returning the stored bytes. -/
theorem load_after_store (cdc : Codec) (tid : String) (Z W H : Nat)
    (fmt : String) (B : List Nat) (tile : Tile) (s : St)
    (hNF : NoFaults s) (hE : s.enabled = true)
    (hdds : tile.dds = some (mkDDS W H fmt))
    (hB : B.length = (mkDDS W H fmt).total_size)
    (hMz : tile.max_zoom = Z) (miss : Option (List Nat)) :
    load cdc tid Z tile (storeSt cdc tid Z B tile none miss s) =
      Except.ok ((some B, loadHitTile tile (storeMeta cdc s Z tile none miss B)),
        loadHitSt (storeSt cdc tid Z B tile none miss s) (tileKeyStr tid Z)
          (pkOfTile tile Z) B.length) := by
  have hfa := storeSt_faults cdc tid Z B tile none miss s
  apply load_hit_run cdc tid Z tile _ (storeMeta cdc s Z tile none miss B)
    ⟨storeDiskBytes cdc s.compression B, s.nowTime⟩ B
  · rw [storeSt_enabled]; exact hE
  · rw [hfa, hNF]; rfl
  · rw [hfa, hNF]; rfl
  · rw [storeSt_fs_ddm]; exact alookup_aset_self _ _ _
  · exact isStale_after_store cdc tid Z B tile miss s (mkDDS W H fmt) hNF hdds hB hMz
  · rfl
  · rw [storeSt_fs_dds]; exact alookup_aset_self _ _ _
  · exact decompOf_storeMeta cdc s Z tile none miss B
  · rw [hdds]; simp [hB]

/-- C1 (round trip): for a tile whose layout is `(W, H, fmt)` and any
payload of exactly `total_size` bytes, a successful `store` followed by
`load` returns exactly the stored bytes; the same holds when the bytes
are placed via `store_from_file`.  Both disk-compression modes are
covered (`s.compression` is `"none"` or `"zstd"`). -/
theorem claim_C1_round_trip (cdc : Codec) (tid : String) (Z W H : Nat)
    (fmt : String) (B : List Nat) (tile : Tile) (s : St)
    (hNF : NoFaults s) (hE : s.enabled = true)
    (_hComp : s.compression = "none" ∨ s.compression = "zstd")
    (hdds : tile.dds = some (mkDDS W H fmt))
    (hB : B.length = (mkDDS W H fmt).total_size)
    (hMz : tile.max_zoom = Z) :
    (store cdc tid Z B tile none none s =
       Except.ok (true, storeSt cdc tid Z B tile none none s) ∧
     load cdc tid Z tile (storeSt cdc tid Z B tile none none s) =
       Except.ok ((some B, loadHitTile tile (storeMeta cdc s Z tile none none B)),
         loadHitSt (storeSt cdc tid Z B tile none none s) (tileKeyStr tid Z)
           (pkOfTile tile Z) B.length)) ∧
    (store_from_file cdc tid Z (some B) tile none s =
       Except.ok (true, storeSt cdc tid Z B tile none none s) ∧
     load cdc tid Z tile (storeSt cdc tid Z B tile none none s) =
       Except.ok ((some B, loadHitTile tile (storeMeta cdc s Z tile none none B)),
         loadHitSt (storeSt cdc tid Z B tile none none s) (tileKeyStr tid Z)
           (pkOfTile tile Z) B.length)) := by
  have hL : 128 ≤ B.length := by rw [hB]; exact total_size_ge_128 W H fmt
  have hW : s.faults.ddsWrite (pkOfTile tile Z) = false := by rw [hNF]; rfl
  have hM : s.faults.ddmWrite (pkOfTile tile Z) = false := by rw [hNF]; rfl
  refine ⟨⟨store_run cdc tid Z B tile none none s hE hL hW hM, ?_⟩,
    ⟨?_, ?_⟩⟩
  · exact load_after_store cdc tid Z W H fmt B tile s hNF hE hdds hB hMz none
  · exact storeFromFile_run cdc tid Z B tile none s hE hL hW hM
      (by rw [hNF]; rfl) (by rw [hNF]; rfl) (by rw [hNF]; rfl)
  · exact load_after_store cdc tid Z W H fmt B tile s hNF hE hdds hB hMz none

/-! ## Concrete instances and the C1 witness -/
/-- Concrete instances used by the witnesses and counterexamples. -/
def cfgC : Config := ⟨"BC1", "ISPC", "zstd", 3⟩

def tileC8 : Tile :=
  ⟨1, 2, "BI", 12, 13, 0, some (mkDDS 8 8 "BC1"), none, none, false, [], none⟩

def stC : St :=
  ⟨true, 4096, 0, [], [], 0, 0, 0, 0, 0, "zstd", 3, cfgC, ⟨[], [], []⟩, 100,
    noFaults⟩

def bytesC : List Nat := List.replicate 184 7

set_option maxRecDepth 10000

/-- Witness for C1 at a concrete 8x8 BC1 tile in zstd mode. -/
theorem claim_C1_round_trip_witness :
    (store modelCodec "1_2_BI_12" 13 bytesC tileC8 none none stC =
       Except.ok (true, storeSt modelCodec "1_2_BI_12" 13 bytesC tileC8 none none stC) ∧
     load modelCodec "1_2_BI_12" 13 tileC8
         (storeSt modelCodec "1_2_BI_12" 13 bytesC tileC8 none none stC) =
       Except.ok ((some bytesC,
           loadHitTile tileC8 (storeMeta modelCodec stC 13 tileC8 none none bytesC)),
         loadHitSt (storeSt modelCodec "1_2_BI_12" 13 bytesC tileC8 none none stC)
           (tileKeyStr "1_2_BI_12" 13) (pkOfTile tileC8 13) bytesC.length)) ∧
    (store_from_file modelCodec "1_2_BI_12" 13 (some bytesC) tileC8 none stC =
       Except.ok (true, storeSt modelCodec "1_2_BI_12" 13 bytesC tileC8 none none stC) ∧
     load modelCodec "1_2_BI_12" 13 tileC8
         (storeSt modelCodec "1_2_BI_12" 13 bytesC tileC8 none none stC) =
       Except.ok ((some bytesC,
           loadHitTile tileC8 (storeMeta modelCodec stC 13 tileC8 none none bytesC)),
         loadHitSt (storeSt modelCodec "1_2_BI_12" 13 bytesC tileC8 none none stC)
           (tileKeyStr "1_2_BI_12" 13) (pkOfTile tileC8 13) bytesC.length)) :=
  claim_C1_round_trip modelCodec "1_2_BI_12" 13 8 8 "BC1" bytesC tileC8 stC
    rfl rfl (Or.inr rfl) rfl (by decide) rfl

/-! ## Claims C9 and C10 -/
theorem statSrcE_none_err (s0 : St) : statSrcE none s0 = Except.error s0 := by
  unfold statSrcE
  split <;> rfl

/-- `store_from_file` rejects a missing or undersized source without
touching any state. -/
theorem storeFromFile_reject (cdc : Codec) (tid : String) (mz : Nat)
    (source : Option (List Nat)) (tile : Tile) (miss : Option (List Nat))
    (s : St)
    (hsrc : match source with | some b => b.length < 128 | none => True) :
    store_from_file cdc tid mz source tile miss s = Except.ok (false, s) := by
  unfold store_from_file
  rw [bind_is_mbind, mbind_run_ok _ _ _ _ _ (getS_run s)]
  by_cases he : s.enabled = false
  · rw [if_pos he]; rfl
  · rw [if_neg he]
    cases source with
    | none =>
      rw [bind_is_mbind, mbind_run_ok _ _ _ _ _ (pyTry_run_err _ _ _ _
        (by rw [bind_is_mbind, mbind_run_err _ _ _ _ (statSrcE_none_err s)]))]
      rfl
    | some b =>
      by_cases hf : s.faults.srcStat = true
      · have hstat : statSrcE (some b) s = Except.error s := by
          unfold statSrcE; rw [hf]; rfl
        rw [bind_is_mbind, mbind_run_ok _ _ _ _ _ (pyTry_run_err _ _ _ _
          (by rw [bind_is_mbind, mbind_run_err _ _ _ _ hstat]))]
        rfl
      · have hstat : statSrcE (some b) s = Except.ok (b.length, s) := by
          unfold statSrcE
          rw [show s.faults.srcStat = false from Bool.not_eq_true _ |>.mp hf]
          simp
        rw [bind_is_mbind, mbind_run_ok _ _ _ _ _ (pyTry_run_ok _ _ _ _
          (by rw [bind_is_mbind, mbind_run_ok _ _ _ _ _ hstat]; rfl))]
        simp only []
        rw [if_pos hsrc]
        rfl

/-- C9: `store` rejects an empty or undersized payload (fewer than 128
bytes) and leaves the entire state unchanged, and `store_from_file` does
the same when the source file is undersized or cannot be stat'ed. -/
theorem claim_C9_minimum_payload (cdc : Codec) (tid : String) (mz : Nat)
    (B : List Nat) (source : Option (List Nat)) (tile : Tile)
    (bp : Option BundleKey) (miss : Option (List Nat)) (s : St)
    (hB : B.length < 128)
    (hsrc : match source with | some b => b.length < 128 | none => True) :
    store cdc tid mz B tile bp miss s = Except.ok (false, s) ∧
    store_from_file cdc tid mz source tile miss s = Except.ok (false, s) :=
  ⟨store_short cdc tid mz B tile bp miss s hB,
   storeFromFile_reject cdc tid mz source tile miss s hsrc⟩

/-- Witness for C9: a 5-byte payload and a missing source file. -/
theorem claim_C9_minimum_payload_witness :
    store modelCodec "1_2_BI_12" 13 [68, 68, 83, 32, 0] tileC8 none none stC =
      Except.ok (false, stC) ∧
    store_from_file modelCodec "1_2_BI_12" 13 none tileC8 none stC =
      Except.ok (false, stC) :=
  claim_C9_minimum_payload modelCodec "1_2_BI_12" 13 [68, 68, 83, 32, 0]
    none tileC8 none none stC (by decide) trivial

/-- C10: `invalidate` removes the pair and reports `true` only when the
key is tracked in the LRU map; an untracked key reports `false` and
leaves the whole state (including every file on disk) untouched. -/
theorem claim_C10_invalidate_scope (tid : String) (mz : Nat) (s : St)
    (hNF : NoFaults s) (hE : s.enabled = true) :
    (alookup s.entries (tileKeyStr tid mz) = none →
      invalidate tid mz s = Except.ok (false, s)) ∧
    (∀ e, alookup s.entries (tileKeyStr tid mz) = some e →
      invalidate tid mz s = Except.ok (true,
        erasePairSt
          { s with entries := aerase s.entries (tileKeyStr tid mz),
                   current_size := s.current_size - e.size } e.pk)) := by
  constructor
  · intro hnone
    unfold invalidate
    rw [bind_is_mbind, mbind_run_ok _ _ _ _ _ (getS_run s)]
    rw [if_neg (by simp [hE])]
    rw [hnone]
    rfl
  · intro e hsome
    unfold invalidate
    rw [bind_is_mbind, mbind_run_ok _ _ _ _ _ (getS_run s)]
    rw [if_neg (by simp [hE])]
    rw [hsome]
    simp only []
    rw [bind_is_mbind, mbind_run_ok _ _ _ _ _ (modifyS_run _ s)]
    rw [bind_is_mbind, mbind_run_ok _ _ _ _ _ (deletePair_run e.pk _
      (by rw [show s.faults = noFaults from hNF]; rfl)
      (by rw [show s.faults = noFaults from hNF]; rfl))]
    rfl

/-- Witness for C10 at a concrete state: an untracked key is refused
though a matching pair exists on disk; a tracked key is removed. -/
theorem claim_C10_invalidate_scope_witness :
    ((alookup (storeSt modelCodec "1_2_BI_12" 13 bytesC tileC8 none none stC).entries
        (tileKeyStr "9_9_XX_12" 13) = none →
      invalidate "9_9_XX_12" 13
          (storeSt modelCodec "1_2_BI_12" 13 bytesC tileC8 none none stC) =
        Except.ok (false,
          storeSt modelCodec "1_2_BI_12" 13 bytesC tileC8 none none stC)) ∧
     (∀ e, alookup (storeSt modelCodec "1_2_BI_12" 13 bytesC tileC8 none none stC).entries
        (tileKeyStr "9_9_XX_12" 13) = some e →
      invalidate "9_9_XX_12" 13
          (storeSt modelCodec "1_2_BI_12" 13 bytesC tileC8 none none stC) =
        Except.ok (true,
          erasePairSt
            { storeSt modelCodec "1_2_BI_12" 13 bytesC tileC8 none none stC with
                entries := aerase (storeSt modelCodec "1_2_BI_12" 13 bytesC tileC8 none none stC).entries
                  (tileKeyStr "9_9_XX_12" 13),
                current_size := (storeSt modelCodec "1_2_BI_12" 13 bytesC tileC8 none none stC).current_size - e.size }
            e.pk))) :=
  claim_C10_invalidate_scope "9_9_XX_12" 13
    (storeSt modelCodec "1_2_BI_12" 13 bytesC tileC8 none none stC)
    (by show (storeSt modelCodec "1_2_BI_12" 13 bytesC tileC8 none none stC).faults = noFaults
        rw [storeSt_faults]
        rfl)
    (by rw [storeSt_enabled]; rfl)

/-! ## Claim C7: staleness closure -/
/-- Rules 2 and 3: a changed block format or compressor tag makes the
entry stale. -/
theorem isStale_of_config_change (s : St) (meta : DDM) (tile : Tile)
    (k : PathKey)
    (hch : meta.fmt ≠ normFmt s.cfg.fmt ∨ meta.comp ≠ upperStr s.cfg.compressor) :
    isStale s meta tile k = true := by
  unfold isStale
  by_cases h1 : meta.fmt ≠ normFmt s.cfg.fmt
  · rw [if_pos h1]
  · rw [if_neg h1]
    have h2 : meta.comp ≠ upperStr s.cfg.compressor := hch.resolve_left h1
    rw [if_pos h2]

/-- The stale branch of `load`: delete the pair, count a miss, return
nothing. -/
theorem load_stale_run (cdc : Codec) (tid : String) (mz : Nat) (tile : Tile)
    (s : St) (meta : DDM)
    (hE : s.enabled = true) (hNF : NoFaults s)
    (hDdm : alookup s.fs.ddm (pkOfTile tile mz) = some (DdmFile.parsed meta))
    (hStale : isStale s meta tile (pkOfTile tile mz) = true) :
    load cdc tid mz tile s =
      Except.ok ((none, tile),
        bumpMissesSt (erasePairSt s (pkOfTile tile mz))) := by
  have hR : readDdm s (pkOfTile tile mz) = some meta :=
    readDdm_parsed s _ meta (by rw [show s.faults = noFaults from hNF]; rfl) hDdm
  unfold load
  rw [bind_is_mbind, mbind_run_ok _ _ _ _ _ (getS_run s)]
  rw [if_neg (by simp [hE])]
  apply pyTry_run_ok
  unfold loadBody
  rw [bind_is_mbind, mbind_run_ok _ _ _ _ _ (getS_run s)]
  simp only [hR, hStale, if_true]
  rw [bind_is_mbind, mbind_run_ok _ _ _ _ _ (deletePair_run _ s
    (by rw [show s.faults = noFaults from hNF]; rfl)
    (by rw [show s.faults = noFaults from hNF]; rfl))]
  rw [bind_is_mbind, mbind_run_ok _ _ _ _ _
    (show bumpMisses (erasePairSt s (pkOfTile tile mz))
      = Except.ok ((), bumpMissesSt (erasePairSt s (pkOfTile tile mz))) from rfl)]
  rfl

/-- C7 (staleness closure): when the active block format or compressor
tag no longer equals the sidecar's `fmt`/`comp`, the next `load` of the
entry returns nothing and removes both the DDS and DDM files. -/
theorem claim_C7_staleness_closure (cdc : Codec) (tid : String) (mz : Nat)
    (tile : Tile) (s : St) (meta : DDM)
    (hE : s.enabled = true) (hNF : NoFaults s)
    (hDdm : alookup s.fs.ddm (pkOfTile tile mz) = some (DdmFile.parsed meta))
    (hch : meta.fmt ≠ normFmt s.cfg.fmt ∨ meta.comp ≠ upperStr s.cfg.compressor) :
    load cdc tid mz tile s =
      Except.ok ((none, tile),
        bumpMissesSt (erasePairSt s (pkOfTile tile mz))) ∧
    alookup (bumpMissesSt (erasePairSt s (pkOfTile tile mz))).fs.dds
      (pkOfTile tile mz) = none ∧
    alookup (bumpMissesSt (erasePairSt s (pkOfTile tile mz))).fs.ddm
      (pkOfTile tile mz) = none := by
  refine ⟨load_stale_run cdc tid mz tile s meta hE hNF hDdm
    (isStale_of_config_change s meta tile _ hch), ?_, ?_⟩
  · exact alookup_aerase_self _ _
  · exact alookup_aerase_self _ _

/-- Witness for C7: a stored BC1 entry read back after the configured
format changed to BC3. -/
theorem claim_C7_staleness_closure_witness :
    load modelCodec "1_2_BI_12" 13 tileC8
        { storeSt modelCodec "1_2_BI_12" 13 bytesC tileC8 none none stC with
            cfg := ⟨"BC3", "ISPC", "zstd", 3⟩ } =
      Except.ok ((none, tileC8),
        bumpMissesSt (erasePairSt
          { storeSt modelCodec "1_2_BI_12" 13 bytesC tileC8 none none stC with
              cfg := ⟨"BC3", "ISPC", "zstd", 3⟩ } (pkOfTile tileC8 13))) ∧
    alookup (bumpMissesSt (erasePairSt
        { storeSt modelCodec "1_2_BI_12" 13 bytesC tileC8 none none stC with
            cfg := ⟨"BC3", "ISPC", "zstd", 3⟩ } (pkOfTile tileC8 13))).fs.dds
      (pkOfTile tileC8 13) = none ∧
    alookup (bumpMissesSt (erasePairSt
        { storeSt modelCodec "1_2_BI_12" 13 bytesC tileC8 none none stC with
            cfg := ⟨"BC3", "ISPC", "zstd", 3⟩ } (pkOfTile tileC8 13))).fs.ddm
      (pkOfTile tileC8 13) = none :=
  claim_C7_staleness_closure modelCodec "1_2_BI_12" 13 tileC8 _
    (storeMeta modelCodec stC 13 tileC8 none none bytesC)
    (by rw [show ({ storeSt modelCodec "1_2_BI_12" 13 bytesC tileC8 none none stC with
          cfg := ⟨"BC3", "ISPC", "zstd", 3⟩ } : St).enabled
        = (storeSt modelCodec "1_2_BI_12" 13 bytesC tileC8 none none stC).enabled from rfl,
        storeSt_enabled]; rfl)
    (by show (storeSt modelCodec "1_2_BI_12" 13 bytesC tileC8 none none stC).faults = noFaults
        rw [storeSt_faults]; rfl)
    (by show alookup (storeSt modelCodec "1_2_BI_12" 13 bytesC tileC8 none none stC).fs.ddm
          (pkOfTile tileC8 13) = _
        rw [storeSt_fs_ddm]
        exact alookup_aset_self _ _ _)
    (Or.inl (by decide))

/-! ## Claim C4: zoom mismatch handling -/
/-- C4 (zoom mismatch, amended): with a non-stale sidecar whose
recorded `max_zl` differs from the requested zoom, `load` returns
nothing; a one-step difference sets the matching upgrade/downgrade hint
and deletes nothing, while any larger difference deletes the DDS/DDM
pair. -/
theorem claim_C4_zoom_mismatch (cdc : Codec) (tid : String) (mz : Nat)
    (tile : Tile) (s : St) (meta : DDM)
    (hE : s.enabled = true) (hNF : NoFaults s)
    (hDdm : alookup s.fs.ddm (pkOfTile tile mz) = some (DdmFile.parsed meta))
    (hStale : isStale s meta tile (pkOfTile tile mz) = false)
    (hne : meta.max_zl ≠ mz) :
    (meta.max_zl + 1 = mz →
      load cdc tid mz tile s =
        Except.ok ((none,
          { tile with upgradeAvailable := some (pkOfTile tile mz, meta) }),
          bumpMissesSt s)) ∧
    (mz + 1 = meta.max_zl →
      load cdc tid mz tile s =
        Except.ok ((none,
          { tile with downgradeAvailable := some (pkOfTile tile mz, meta) }),
          bumpMissesSt s)) ∧
    (meta.max_zl + 1 ≠ mz → mz + 1 ≠ meta.max_zl →
      load cdc tid mz tile s =
        Except.ok ((none, tile),
          bumpMissesSt (erasePairSt s (pkOfTile tile mz))) ∧
      alookup (bumpMissesSt (erasePairSt s (pkOfTile tile mz))).fs.dds
        (pkOfTile tile mz) = none ∧
      alookup (bumpMissesSt (erasePairSt s (pkOfTile tile mz))).fs.ddm
        (pkOfTile tile mz) = none) := by
  have hR : readDdm s (pkOfTile tile mz) = some meta :=
    readDdm_parsed s _ meta (by rw [show s.faults = noFaults from hNF]; rfl) hDdm
  have start : ∀ r : (Option (List Nat) × Tile) × St,
      loadBody cdc tid mz tile s = Except.ok r →
      load cdc tid mz tile s = Except.ok r := by
    intro r hb
    unfold load
    rw [bind_is_mbind, mbind_run_ok _ _ _ _ _ (getS_run s)]
    rw [if_neg (by simp [hE])]
    exact pyTry_run_ok _ _ _ _ hb
  refine ⟨fun hup => ?_, fun hdn => ?_, fun hnup hndn => ?_⟩
  · apply start
    unfold loadBody
    rw [bind_is_mbind, mbind_run_ok _ _ _ _ _ (getS_run s)]
    simp only [hR, hStale, Bool.false_eq_true, if_false]
    rw [if_pos hne, if_pos hup]
    rw [bind_is_mbind, mbind_run_ok _ _ _ _ _
      (show bumpMisses s = Except.ok ((), bumpMissesSt s) from rfl)]
    rfl
  · apply start
    unfold loadBody
    rw [bind_is_mbind, mbind_run_ok _ _ _ _ _ (getS_run s)]
    simp only [hR, hStale, Bool.false_eq_true, if_false]
    rw [if_pos hne, if_neg (by omega), if_pos hdn]
    rw [bind_is_mbind, mbind_run_ok _ _ _ _ _
      (show bumpMisses s = Except.ok ((), bumpMissesSt s) from rfl)]
    rfl
  · refine ⟨?_, alookup_aerase_self _ _, alookup_aerase_self _ _⟩
    apply start
    unfold loadBody
    rw [bind_is_mbind, mbind_run_ok _ _ _ _ _ (getS_run s)]
    simp only [hR, hStale, Bool.false_eq_true, if_false]
    rw [if_pos hne, if_neg hnup, if_neg hndn]
    rw [bind_is_mbind, mbind_run_ok _ _ _ _ _ (deletePair_run _ s
      (by rw [show s.faults = noFaults from hNF]; rfl)
      (by rw [show s.faults = noFaults from hNF]; rfl))]
    rw [bind_is_mbind, mbind_run_ok _ _ _ _ _
      (show bumpMisses (erasePairSt s (pkOfTile tile mz))
        = Except.ok ((), bumpMissesSt (erasePairSt s (pkOfTile tile mz))) from rfl)]
    rfl

/-! ### C4 witness and counterexample -/
/-- A concrete sidecar recording `max_zl = 13`. -/
def mMisC : DDM := buildDdm tileC8 13 none "BC1" "ISPC" none "none" 100

/-- A concrete state holding that sidecar (and its DDS bytes) at the
path for `max_zoom = pmz`, so the recorded zoom mismatches the path for
`pmz ≠ 13`. -/
def sMisC (pmz : Nat) : St :=
  { stC with fs :=
    ⟨[(⟨1, 2, "BI", 12, pmz⟩, ⟨List.replicate 184 7, 50⟩)],
     [(⟨1, 2, "BI", 12, pmz⟩, DdmFile.parsed mMisC)], []⟩ }

def tileMisC (mz w h : Nat) : Tile :=
  ⟨1, 2, "BI", 12, mz, 0, some (mkDDS w h "BC1"), none, none, false, [], none⟩

/-- Witness for C4 at the upgrade-hint distance (cached 13, requested 14). -/
theorem claim_C4_zoom_mismatch_witness :
    ((mMisC.max_zl + 1 = 14 →
      load modelCodec "1_2_BI_12" 14 (tileMisC 14 16 16) (sMisC 14) =
        Except.ok ((none,
          { tileMisC 14 16 16 with
              upgradeAvailable := some (pkOfTile (tileMisC 14 16 16) 14, mMisC) }),
          bumpMissesSt (sMisC 14))) ∧
    (14 + 1 = mMisC.max_zl →
      load modelCodec "1_2_BI_12" 14 (tileMisC 14 16 16) (sMisC 14) =
        Except.ok ((none,
          { tileMisC 14 16 16 with
              downgradeAvailable := some (pkOfTile (tileMisC 14 16 16) 14, mMisC) }),
          bumpMissesSt (sMisC 14))) ∧
    (mMisC.max_zl + 1 ≠ 14 → 14 + 1 ≠ mMisC.max_zl →
      load modelCodec "1_2_BI_12" 14 (tileMisC 14 16 16) (sMisC 14) =
        Except.ok ((none, tileMisC 14 16 16),
          bumpMissesSt (erasePairSt (sMisC 14) (pkOfTile (tileMisC 14 16 16) 14))) ∧
      alookup (bumpMissesSt (erasePairSt (sMisC 14)
          (pkOfTile (tileMisC 14 16 16) 14))).fs.dds
        (pkOfTile (tileMisC 14 16 16) 14) = none ∧
      alookup (bumpMissesSt (erasePairSt (sMisC 14)
          (pkOfTile (tileMisC 14 16 16) 14))).fs.ddm
        (pkOfTile (tileMisC 14 16 16) 14) = none)) :=
  claim_C4_zoom_mismatch modelCodec "1_2_BI_12" 14 (tileMisC 14 16 16)
    (sMisC 14) mMisC rfl rfl (by decide) (by decide) (by decide)

/-- Counterexample for C4 as frozen: at a mismatch of two zoom levels
the pair IS deleted by `load` (the claim asserts no deletion for every
magnitude of mismatch). -/
theorem claim_C4_counterexample :
    (match load modelCodec "1_2_BI_12" 15 (tileMisC 15 32 32) (sMisC 15) with
     | Except.ok (r, s2) =>
         decide (r.1 = none) &&
         decide (alookup s2.fs.dds (⟨1, 2, "BI", 12, 15⟩ : PathKey) = none) &&
         decide (alookup s2.fs.ddm (⟨1, 2, "BI", 12, 15⟩ : PathKey) = none)
     | Except.error _ => false) = true ∧
    alookup (sMisC 15).fs.ddm (⟨1, 2, "BI", 12, 15⟩ : PathKey) ≠ none := by
  constructor
  · decide
  · decide


/-! ## Mipmap layout chains and the shift-copy loop (C2, C3) -/

/-- Default mipmap used with `List.getD`. -/
def dMM : MipMap := ⟨0, 0, 0, 0, none⟩

/-- The mipmap list is a contiguous chain of non-empty regions starting
at `c`. -/
def MMChain : Nat → List MipMap → Prop
  | _, [] => True
  | c, m :: ms =>
    m.startpos = c ∧ m.endpos = c + m.mmlen ∧ 1 ≤ m.mmlen ∧ MMChain m.endpos ms

def chainEnd : Nat → List MipMap → Nat
  | c, [] => c
  | _, m :: ms => chainEnd m.endpos ms

theorem chainEnd_ge (l : List MipMap) : ∀ c, MMChain c l → c ≤ chainEnd c l := by
  induction l with
  | nil => intro c _; exact le_refl c
  | cons m ms ih =>
    intro c hch
    obtain ⟨h1, h2, h3, h4⟩ := hch
    calc c ≤ m.endpos := by omega
    _ ≤ chainEnd m.endpos ms := ih m.endpos h4

theorem mmLen_pos (bs w h : Nat) (hbs : 1 ≤ bs) : 1 ≤ mmLen bs w h := by
  unfold mmLen
  have h1 : 1 ≤ max 1 (w * h / 16) := le_max_left 1 _
  calc 1 = 1 * 1 := rfl
  _ ≤ max 1 (w * h / 16) * bs := Nat.mul_le_mul h1 hbs

theorem buildMMs_chain (bs : Nat) (hbs : 1 ≤ bs) (w : Nat) : ∀ h c i,
    MMChain c (buildMMs bs w h c i) := by
  induction w using Nat.strong_induction_on with
  | _ w ih =>
    intro h c i
    rw [buildMMs_rec]
    by_cases hwh : 1 ≤ w ∧ 1 ≤ h
    · rw [if_pos hwh]
      refine ⟨rfl, rfl, mmLen_pos bs w h hbs, ?_⟩
      exact ih (w / 2) (Nat.div_lt_self (by omega) (by omega)) (h / 2) _ _
    · rw [if_neg hwh]; trivial

theorem chainEnd_buildMMs (bs w : Nat) : ∀ h c i,
    chainEnd c (buildMMs bs w h c i) = mmTotal bs w h c := by
  induction w using Nat.strong_induction_on with
  | _ w ih =>
    intro h c i
    rw [buildMMs_rec, mmTotal_rec]
    by_cases hwh : 1 ≤ w ∧ 1 ≤ h
    · rw [if_pos hwh, if_pos hwh]
      show chainEnd (c + mmLen bs w h) (buildMMs bs (w / 2) (h / 2) _ _) = _
      exact ih (w / 2) (Nat.div_lt_self (by omega) (by omega)) (h / 2) _ _
    · rw [if_neg hwh, if_neg hwh]; rfl

/-- Lists built at different offsets and indices are parallel: same
length. -/
theorem buildMMs_length_eq (bs w : Nat) : ∀ h c c1 i i1,
    (buildMMs bs w h c i).length = (buildMMs bs w h c1 i1).length := by
  induction w using Nat.strong_induction_on with
  | _ w ih =>
    intro h c c1 i i1
    rw [buildMMs_rec bs w h c i, buildMMs_rec bs w h c1 i1]
    by_cases hwh : 1 ≤ w ∧ 1 ≤ h
    · rw [if_pos hwh, if_pos hwh]
      simp only [List.length_cons]
      rw [ih (w / 2) (Nat.div_lt_self (by omega) (by omega)) (h / 2) _ _ _ _]
    · rw [if_neg hwh, if_neg hwh]

/-- ... and the same region length at every index. -/
theorem buildMMs_mmlen_eq (bs w : Nat) : ∀ h c c1 i i1 j,
    ((buildMMs bs w h c i).getD j dMM).mmlen
      = ((buildMMs bs w h c1 i1).getD j dMM).mmlen := by
  induction w using Nat.strong_induction_on with
  | _ w ih =>
    intro h c c1 i i1 j
    rw [buildMMs_rec bs w h c i, buildMMs_rec bs w h c1 i1]
    by_cases hwh : 1 ≤ w ∧ 1 ≤ h
    · rw [if_pos hwh, if_pos hwh]
      cases j with
      | zero => rfl
      | succ j =>
        simp only [List.getD_cons_succ]
        exact ih (w / 2) (Nat.div_lt_self (by omega) (by omega)) (h / 2) _ _ _ _ j
    · rw [if_neg hwh, if_neg hwh]

theorem shiftWrites_length (ob : List Nat) (oms : List MipMap) : ∀ nms buf cn,
    MMChain cn nms → chainEnd cn nms ≤ buf.length →
    (shiftWrites ob oms nms buf).length = buf.length := by
  induction oms with
  | nil => intro nms buf cn _ _; rfl
  | cons om oms ih =>
    intro nms buf cn hch hb
    cases nms with
    | nil => rfl
    | cons nm nms =>
      obtain ⟨h1, h2, h3, h4⟩ := hch
      have hend : nm.endpos ≤ chainEnd cn (nm :: nms) :=
        chainEnd_ge nms nm.endpos h4
      have hin : nm.startpos + (((sliceOf ob om.startpos
          (om.endpos - om.startpos)).take
          (min (sliceOf ob om.startpos (om.endpos - om.startpos)).length
            nm.mmlen)).length) ≤ buf.length := by
        have := List.length_take_le (min (sliceOf ob om.startpos
          (om.endpos - om.startpos)).length nm.mmlen)
          (sliceOf ob om.startpos (om.endpos - om.startpos))
        have h5 : min (sliceOf ob om.startpos
            (om.endpos - om.startpos)).length nm.mmlen ≤ nm.mmlen :=
          Nat.min_le_right _ _
        have : chainEnd cn (nm :: nms) = chainEnd nm.endpos nms := rfl
        omega
      show (shiftWrites ob oms nms (writeAt buf nm.startpos _)).length = _
      rw [ih nms _ nm.endpos h4 (by rw [length_writeAt _ _ _ hin]; exact hb),
        length_writeAt _ _ _ hin]

theorem shiftWrites_frame (ob : List Nat) (oms : List MipMap) : ∀ nms buf cn a n,
    MMChain cn nms → chainEnd cn nms ≤ buf.length → a + n ≤ cn →
    sliceOf (shiftWrites ob oms nms buf) a n = sliceOf buf a n := by
  induction oms with
  | nil => intro nms buf cn a n _ _ _; rfl
  | cons om oms ih =>
    intro nms buf cn a n hch hb hdisj
    cases nms with
    | nil => rfl
    | cons nm nms =>
      obtain ⟨h1, h2, h3, h4⟩ := hch
      have hend : nm.endpos ≤ chainEnd cn (nm :: nms) :=
        chainEnd_ge nms nm.endpos h4
      have hsrc : (((sliceOf ob om.startpos (om.endpos - om.startpos)).take
          (min (sliceOf ob om.startpos (om.endpos - om.startpos)).length
            nm.mmlen)).length) ≤ nm.mmlen := by
        have := List.length_take_le (min (sliceOf ob om.startpos
          (om.endpos - om.startpos)).length nm.mmlen)
          (sliceOf ob om.startpos (om.endpos - om.startpos))
        have h5 : min (sliceOf ob om.startpos
            (om.endpos - om.startpos)).length nm.mmlen ≤ nm.mmlen :=
          Nat.min_le_right _ _
        omega
      have hin : nm.startpos + (((sliceOf ob om.startpos
          (om.endpos - om.startpos)).take
          (min (sliceOf ob om.startpos (om.endpos - om.startpos)).length
            nm.mmlen)).length) ≤ buf.length := by
        have : chainEnd cn (nm :: nms) = chainEnd nm.endpos nms := rfl
        omega
      show sliceOf (shiftWrites ob oms nms (writeAt buf nm.startpos _)) a n = _
      rw [ih nms _ nm.endpos a n h4
          (by rw [length_writeAt _ _ _ hin]; exact hb) (by omega),
        sliceOf_writeAt_before _ _ _ _ _ hin (by omega)]

theorem shiftWrites_slice (ob : List Nat) (oms : List MipMap) : ∀ nms buf cn co j,
    MMChain cn nms → chainEnd cn nms ≤ buf.length →
    MMChain co oms → chainEnd co oms ≤ ob.length →
    (∀ j1, j1 < oms.length → j1 < nms.length →
      (oms.getD j1 dMM).mmlen = (nms.getD j1 dMM).mmlen) →
    j < oms.length → j < nms.length →
    sliceOf (shiftWrites ob oms nms buf)
        (nms.getD j dMM).startpos (nms.getD j dMM).mmlen
      = sliceOf ob (oms.getD j dMM).startpos (oms.getD j dMM).mmlen := by
  induction oms with
  | nil => intro nms buf cn co j _ _ _ _ _ hj _; simp at hj
  | cons om oms ih =>
    intro nms buf cn co j hchn hbn hcho hbo hpar hjo hjn
    cases nms with
    | nil => simp at hjn
    | cons nm nms =>
      obtain ⟨hn1, hn2, hn3, hn4⟩ := hchn
      obtain ⟨ho1, ho2, ho3, ho4⟩ := hcho
      have hendn : nm.endpos ≤ chainEnd cn (nm :: nms) :=
        chainEnd_ge nms nm.endpos hn4
      have hendo : om.endpos ≤ chainEnd co (om :: oms) :=
        chainEnd_ge oms om.endpos ho4
      have hodlen : (sliceOf ob om.startpos (om.endpos - om.startpos)).length
          = om.mmlen := by
        have := length_sliceOf ob om.startpos (om.endpos - om.startpos)
          (by omega)
        omega
      have hml : om.mmlen = nm.mmlen := by
        have := hpar 0 (by simp) (by simp)
        simpa using this
      have hcopy : min (sliceOf ob om.startpos
          (om.endpos - om.startpos)).length nm.mmlen = nm.mmlen := by
        rw [hodlen, hml]; exact Nat.min_self _
      have htake : (sliceOf ob om.startpos (om.endpos - om.startpos)).take
          (min (sliceOf ob om.startpos (om.endpos - om.startpos)).length
            nm.mmlen)
          = sliceOf ob om.startpos (om.endpos - om.startpos) := by
        rw [hcopy]
        exact List.take_of_length_le (by omega)
      have hin : nm.startpos + (sliceOf ob om.startpos
          (om.endpos - om.startpos)).length ≤ buf.length := by
        have : chainEnd cn (nm :: nms) = chainEnd nm.endpos nms := rfl
        omega
      cases j with
      | zero =>
        show sliceOf (shiftWrites ob oms nms (writeAt buf nm.startpos
            ((sliceOf ob om.startpos (om.endpos - om.startpos)).take
              (min (sliceOf ob om.startpos
                (om.endpos - om.startpos)).length nm.mmlen))))
            nm.startpos nm.mmlen
          = sliceOf ob om.startpos om.mmlen
        rw [htake]
        rw [shiftWrites_frame ob oms nms _ nm.endpos nm.startpos nm.mmlen hn4
          (by rw [length_writeAt _ _ _ hin]; exact hbn) (by omega)]
        have := sliceOf_writeAt_self buf nm.startpos
          (sliceOf ob om.startpos (om.endpos - om.startpos)) hin
        rw [hodlen, hml] at this
        rw [this]
        have : om.endpos - om.startpos = om.mmlen := by omega
        rw [this]
      | succ j =>
        show sliceOf (shiftWrites ob oms nms (writeAt buf nm.startpos _))
            (nms.getD j dMM).startpos (nms.getD j dMM).mmlen
          = sliceOf ob (oms.getD j dMM).startpos (oms.getD j dMM).mmlen
        rw [htake]
        exact ih nms _ nm.endpos om.endpos j hn4
          (by rw [length_writeAt _ _ _ hin]; exact hbn) ho4
          (by have : chainEnd co (om :: oms) = chainEnd om.endpos oms := rfl
              omega)
          (by intro j1 hj1 hj2
              have := hpar (j1 + 1) (by simpa using hj1) (by simpa using hj2)
              simpa using this)
          (by simpa using hjo) (by simpa using hjn)

/-- The state after a successful `upgrade_zl`. -/
def upgSt (cdc : Codec) (tid : String) (Z : Nat) (nb : List Nat)
    (tile : Tile) (s : St) : St :=
  let s1 := erasePairSt (storeSt cdc tid (Z + 1) nb tile none none s)
    (pkOfTile tile Z)
  let old_key := tileKeyStr tid Z
  let s2 := match alookup s1.entries old_key with
    | some e =>
      { s1 with entries := aerase s1.entries old_key,
                current_size := s1.current_size - e.size }
    | none => s1
  { s2 with upgrades := s2.upgrades + 1 }

/-- The bytes constructed by a successful `upgrade_zl`: header, then the
supplied mipmap 0, then each old mipmap shifted one slot down. -/
def upgBytes (oldD new_mm0 : List Nat) (nref oldStruct : DDSLayout) :
    List Nat :=
  let buf0 : List Nat := List.replicate nref.total_size 0
  let buf1 := writeAt buf0 0 (nref.header.take 128)
  let buf2 := match nref.mipmap_list with
    | [] => buf1
    | mm0 :: _ =>
      let endp := min (mm0.startpos + new_mm0.length) mm0.endpos
      writeAt buf1 mm0.startpos (new_mm0.take (endp - mm0.startpos))
  shiftWrites oldD oldStruct.mipmap_list (nref.mipmap_list.drop 1) buf2

theorem upgradeBody_run (cdc : Codec) (tid : String) (Z : Nat)
    (new_mm0 : List Nat) (tile : Tile) (s : St) (om : DDM) (odf : DdsFile)
    (oldD : List Nat) (nref : DDSLayout)
    (hNF : NoFaults s) (hE : s.enabled = true)
    (hDdm : alookup s.fs.ddm (pkOfTile tile Z) = some (DdmFile.parsed om))
    (hDds : alookup s.fs.dds (pkOfTile tile Z) = some odf)
    (hDec : decompOf cdc om odf.bytes = some oldD)
    (hW0 : ¬ (om.w = 0 ∨ om.h = 0))
    (htd : tile.dds = some nref)
    (hLen : 128 ≤ (upgBytes oldD new_mm0 nref
      (mkDDS om.w om.h om.fmt)).length) :
    upgradeBody cdc tid Z (Z + 1) new_mm0 tile s =
      Except.ok (some (upgBytes oldD new_mm0 nref (mkDDS om.w om.h om.fmt)),
        upgSt cdc tid Z
          (upgBytes oldD new_mm0 nref (mkDDS om.w om.h om.fmt)) tile s) := by
  have hfo : s.faults = noFaults := hNF
  have hFm : s.faults.ddmRead (pkOfTile tile Z) = false := by rw [hfo]; rfl
  have hFr : s.faults.ddsRead (pkOfTile tile Z) = false := by rw [hfo]; rfl
  have hWn : s.faults.ddsWrite (pkOfTile tile (Z + 1)) = false := by
    rw [hfo]; rfl
  have hMn : s.faults.ddmWrite (pkOfTile tile (Z + 1)) = false := by
    rw [hfo]; rfl
  have hR : readDdm s (pkOfTile tile Z) = some om :=
    readDdm_parsed s _ om hFm hDdm
  have hRd := readDdsE_run (pkOfTile tile Z) s odf hFr hDds
  have hDc := decompressDdsE_run cdc om odf.bytes oldD s hDec
  unfold upgradeBody
  rw [bind_is_mbind, mbind_run_ok _ _ _ _ _ (getS_run s)]
  simp only [hR]
  rw [bind_is_mbind]
  rw [mbind_run_ok _ _ _ _ _ (pyTry_run_ok _ _ _ _
    (by rw [bind_is_mbind, mbind_run_ok _ _ _ _ _ hRd]; rfl))]
  simp only []
  rw [bind_is_mbind]
  rw [mbind_run_ok _ _ _ _ _ (pyTry_run_ok _ _ _ _
    (by rw [bind_is_mbind, mbind_run_ok _ _ _ _ _ hDc]; rfl))]
  simp only []
  rw [if_neg hW0, htd]
  simp only []
  rw [bind_is_mbind]
  show mbind (store cdc tid (Z + 1)
    (upgBytes oldD new_mm0 nref (mkDDS om.w om.h om.fmt)) tile none none)
    _ s = _
  rw [mbind_run_ok _ _ _ _ _
    (store_run cdc tid (Z + 1) _ tile none none s hE hLen hWn hMn)]
  simp only [if_true]
  have hs1f := storeSt_faults cdc tid (Z + 1)
    (upgBytes oldD new_mm0 nref (mkDDS om.w om.h om.fmt)) tile none none s
  have hRm1 : (storeSt cdc tid (Z + 1)
      (upgBytes oldD new_mm0 nref (mkDDS om.w om.h om.fmt)) tile none none
      s).faults.ddsRemove (pkOfTile tile Z) = false := by
    rw [hs1f, hfo]; rfl
  have hRm2 : (storeSt cdc tid (Z + 1)
      (upgBytes oldD new_mm0 nref (mkDDS om.w om.h om.fmt)) tile none none
      s).faults.ddmRemove (pkOfTile tile Z) = false := by
    rw [hs1f, hfo]; rfl
  rw [bind_is_mbind]
  rw [mbind_run_ok _ _ _ _ _ (deletePair_run (pkOfTile tile Z) _ hRm1 hRm2)]
  rw [bind_is_mbind, mbind_run_ok _ _ _ _ _ (modifyS_run _ _)]
  rfl

theorem upgrade_zl_run (cdc : Codec) (tid : String) (Z : Nat)
    (new_mm0 : List Nat) (tile : Tile) (s : St)
    (r : Option (List Nat) × St) (hE : s.enabled = true)
    (hBody : upgradeBody cdc tid Z (Z + 1) new_mm0 tile s = Except.ok r) :
    upgrade_zl cdc tid Z (Z + 1) new_mm0 tile s = Except.ok r := by
  unfold upgrade_zl
  rw [bind_is_mbind, mbind_run_ok _ _ _ _ _ (getS_run s)]
  rw [if_neg (by simp [hE]), if_neg (by omega)]
  exact pyTry_run_ok _ _ _ _ hBody

theorem blocksizeOf_pos (fmt : String) : 1 ≤ blocksizeOf fmt := by
  unfold blocksizeOf; split <;> omega

/-- The three byte-level facts about a successful upgrade buffer: its
size, its mipmap 0, and each shifted mipmap. -/
theorem upgBytes_spec (fmt : String) (W H : Nat) (hW : 1 ≤ W) (hH : 1 ≤ H)
    (oldD new_mm0 : List Nat)
    (hOldLen : oldD.length = (mkDDS W H fmt).total_size)
    (hmm0 : new_mm0.length = mmLen (blocksizeOf fmt) (2 * W) (2 * H)) :
    (upgBytes oldD new_mm0 (mkDDS (2 * W) (2 * H) fmt)
        (mkDDS W H fmt)).length = (mkDDS (2 * W) (2 * H) fmt).total_size ∧
    sliceOf (upgBytes oldD new_mm0 (mkDDS (2 * W) (2 * H) fmt)
        (mkDDS W H fmt)) 128 new_mm0.length = new_mm0 ∧
    ∀ i, i < (mkDDS W H fmt).mipmap_list.length →
      sliceOf (upgBytes oldD new_mm0 (mkDDS (2 * W) (2 * H) fmt)
          (mkDDS W H fmt))
        (((mkDDS (2 * W) (2 * H) fmt).mipmap_list.getD (i + 1) dMM).startpos)
        (((mkDDS (2 * W) (2 * H) fmt).mipmap_list.getD (i + 1) dMM).mmlen)
      = sliceOf oldD
        (((mkDDS W H fmt).mipmap_list.getD i dMM).startpos)
        (((mkDDS W H fmt).mipmap_list.getD i dMM).mmlen) := by
  have hbs : 1 ≤ blocksizeOf fmt := blocksizeOf_pos fmt
  have hml : (mkDDS (2 * W) (2 * H) fmt).mipmap_list
      = buildMMs (blocksizeOf fmt) (2 * W) (2 * H) 128 0 := by
    simp [mkDDS]
  have hmlo : (mkDDS W H fmt).mipmap_list
      = buildMMs (blocksizeOf fmt) W H 128 0 := by
    simp [mkDDS]
  have htso : (mkDDS W H fmt).total_size
      = mmTotal (blocksizeOf fmt) W H 128 := by
    simp [mkDDS]
  have htsn : (mkDDS (2 * W) (2 * H) fmt).total_size
      = mmTotal (blocksizeOf fmt) (2 * W) (2 * H) 128 := by
    simp [mkDDS]
  have hhd : (mkDDS (2 * W) (2 * H) fmt).header = ddsHeaderBytes := by
    simp [mkDDS]
  have hcons : buildMMs (blocksizeOf fmt) (2 * W) (2 * H) 128 0
      = ⟨0, 128, mmLen (blocksizeOf fmt) (2 * W) (2 * H),
          128 + mmLen (blocksizeOf fmt) (2 * W) (2 * H), none⟩ ::
        buildMMs (blocksizeOf fmt) W H
          (128 + mmLen (blocksizeOf fmt) (2 * W) (2 * H)) 1 := by
    rw [buildMMs_rec, if_pos ⟨by omega, by omega⟩]
    rw [show 2 * W / 2 = W from by omega, show 2 * H / 2 = H from by omega]
  have htail : MMChain (128 + mmLen (blocksizeOf fmt) (2 * W) (2 * H))
      (buildMMs (blocksizeOf fmt) W H
        (128 + mmLen (blocksizeOf fmt) (2 * W) (2 * H)) 1) :=
    buildMMs_chain (blocksizeOf fmt) hbs W H _ 1
  have hchO : MMChain 128 (buildMMs (blocksizeOf fmt) W H 128 0) :=
    buildMMs_chain (blocksizeOf fmt) hbs W H 128 0
  have hendT : chainEnd (128 + mmLen (blocksizeOf fmt) (2 * W) (2 * H))
      (buildMMs (blocksizeOf fmt) W H
        (128 + mmLen (blocksizeOf fmt) (2 * W) (2 * H)) 1)
      = mmTotal (blocksizeOf fmt) (2 * W) (2 * H) 128 := by
    have h1 := chainEnd_buildMMs (blocksizeOf fmt) (2 * W) (2 * H) 128 0
    rw [hcons] at h1
    exact h1
  have hendO : chainEnd 128 (buildMMs (blocksizeOf fmt) W H 128 0)
      = mmTotal (blocksizeOf fmt) W H 128 :=
    chainEnd_buildMMs (blocksizeOf fmt) W H 128 0
  have htot : 128 + mmLen (blocksizeOf fmt) (2 * W) (2 * H)
      ≤ mmTotal (blocksizeOf fmt) (2 * W) (2 * H) 128 := by
    have := chainEnd_ge _ _ htail
    omega
  have hLobs : oldD.length = mmTotal (blocksizeOf fmt) W H 128 := by
    rw [hOldLen, htso]
  show (upgBytes oldD new_mm0 (mkDDS (2 * W) (2 * H) fmt)
      (mkDDS W H fmt)).length = _ ∧ _ ∧ _
  unfold upgBytes
  simp only [hml, hmlo, htsn, hhd, hcons]
  simp only [List.drop_succ_cons, List.drop_zero]
  have htk : List.take ((128 + new_mm0.length)
      ⊓ (128 + mmLen (blocksizeOf fmt) (2 * W) (2 * H)) - 128) new_mm0
      = new_mm0 := by
    rw [show (128 + new_mm0.length)
        ⊓ (128 + mmLen (blocksizeOf fmt) (2 * W) (2 * H)) = 128 + new_mm0.length
      from by rw [hmm0, Nat.min_self]]
    rw [Nat.add_sub_cancel_left, List.take_length]
  rw [htk]
  have h128 := mmTotal_ge (blocksizeOf fmt) (2 * W) (2 * H) 128
  have hhtl : (List.take 128 ddsHeaderBytes).length = 128 := by
    rw [List.length_take, ddsHeaderBytes_length, Nat.min_self]
  have hbuf1 : (writeAt (List.replicate
      (mmTotal (blocksizeOf fmt) (2 * W) (2 * H) 128) 0) 0
      (List.take 128 ddsHeaderBytes)).length
      = mmTotal (blocksizeOf fmt) (2 * W) (2 * H) 128 := by
    rw [length_writeAt _ _ _ (by rw [hhtl, List.length_replicate]; omega),
      List.length_replicate]
  have hbuf2 : (writeAt (writeAt (List.replicate
      (mmTotal (blocksizeOf fmt) (2 * W) (2 * H) 128) 0) 0
      (List.take 128 ddsHeaderBytes)) 128 new_mm0).length
      = mmTotal (blocksizeOf fmt) (2 * W) (2 * H) 128 := by
    rw [length_writeAt _ _ _ (by rw [hbuf1]; omega), hbuf1]
  refine ⟨?_, ?_, ?_⟩
  · rw [shiftWrites_length oldD _ _ _ _ htail (by rw [hendT, hbuf2])]
    exact hbuf2
  · rw [shiftWrites_frame oldD _ _ _ _ 128 new_mm0.length htail
      (by rw [hendT, hbuf2]) (by omega)]
    exact sliceOf_writeAt_self _ 128 new_mm0 (by rw [hbuf1]; omega)
  · intro i hi
    simp only [List.getD_cons_succ]
    have hlen := buildMMs_length_eq (blocksizeOf fmt) W H 128
      (128 + mmLen (blocksizeOf fmt) (2 * W) (2 * H)) 0 1
    exact shiftWrites_slice oldD _ _ _
      (128 + mmLen (blocksizeOf fmt) (2 * W) (2 * H)) 128 i htail
      (by rw [hendT, hbuf2]) hchO (by omega)
      (fun j1 _ _ => buildMMs_mmlen_eq (blocksizeOf fmt) W H 128
        (128 + mmLen (blocksizeOf fmt) (2 * W) (2 * H)) 0 1 j1)
      hi (by omega)

theorem pkOfTile_ne_succ (tile : Tile) (Z : Nat) :
    pkOfTile tile (Z + 1) ≠ pkOfTile tile Z := by
  simp [pkOfTile]

theorem storeSt_fs_bundles (cdc : Codec) (tid : String) (mz : Nat)
    (B : List Nat) (tile : Tile) (bp : Option BundleKey)
    (miss : Option (List Nat)) (s : St) :
    (storeSt cdc tid mz B tile bp miss s).fs.bundles = s.fs.bundles := by
  unfold storeSt; rw [lruStoreSt_fs]; rfl

theorem upgSt_fs (cdc : Codec) (tid : String) (Z : Nat) (nb : List Nat)
    (tile : Tile) (s : St) :
    (upgSt cdc tid Z nb tile s).fs =
      (erasePairSt (storeSt cdc tid (Z + 1) nb tile none none s)
        (pkOfTile tile Z)).fs := by
  unfold upgSt
  rcases h : alookup (storeSt cdc tid (Z + 1) nb tile none none
    s).entries (tileKeyStr tid Z) with _ | e <;> simp [h, erasePairSt]

theorem upgSt_faults (cdc : Codec) (tid : String) (Z : Nat) (nb : List Nat)
    (tile : Tile) (s : St) :
    (upgSt cdc tid Z nb tile s).faults = s.faults := by
  unfold upgSt
  rcases h : alookup (storeSt cdc tid (Z + 1) nb tile none none
      s).entries (tileKeyStr tid Z) with _ | e <;>
    simp [h, erasePairSt, storeSt_faults]

theorem upgSt_cfg (cdc : Codec) (tid : String) (Z : Nat) (nb : List Nat)
    (tile : Tile) (s : St) :
    (upgSt cdc tid Z nb tile s).cfg = s.cfg := by
  unfold upgSt
  rcases h : alookup (storeSt cdc tid (Z + 1) nb tile none none
      s).entries (tileKeyStr tid Z) with _ | e <;>
    simp [h, erasePairSt, storeSt_cfg]

theorem upgSt_enabled (cdc : Codec) (tid : String) (Z : Nat) (nb : List Nat)
    (tile : Tile) (s : St) :
    (upgSt cdc tid Z nb tile s).enabled = s.enabled := by
  unfold upgSt
  rcases h : alookup (storeSt cdc tid (Z + 1) nb tile none none
      s).entries (tileKeyStr tid Z) with _ | e <;>
    simp [h, erasePairSt, storeSt_enabled]

/-- `_is_stale` only looks at the config, the stat fault, the DDS file at
the key, and the bundle mtime. -/
theorem isStale_congr (t s : St) (meta : DDM) (tile : Tile) (k : PathKey)
    (h1 : t.cfg = s.cfg) (h2 : t.faults.ddsStat k = s.faults.ddsStat k)
    (h3 : alookup t.fs.dds k = alookup s.fs.dds k)
    (h4 : alookup t.fs.bundles (bundleKeyOf tile.row tile.col tile.maptype
        tile.tilename_zoom)
      = alookup s.fs.bundles (bundleKeyOf tile.row tile.col tile.maptype
        tile.tilename_zoom)) :
    isStale t meta tile k = isStale s meta tile k := by
  unfold isStale
  simp only [h1, h2, h3, h4]

/-- C2 (upgrade exactness, amended): when the supplied `new_mm0_bytes`
has exactly the length of the new mipmap 0, a successful
`upgrade_zl(id, Z, Z+1, new_mm0_bytes, tile)` followed by
`load(id, Z+1, tile)` yields a DDS in which mipmap `i+1` equals mipmap
`i` of the pre-upgrade DDS byte-for-byte for every valid old index `i`,
and mipmap 0 equals the supplied bytes. -/
theorem claim_C2_upgrade_exactness
    (cdc : Codec) (tid : String) (Z W H : Nat) (new_mm0 : List Nat)
    (tile : Tile) (s : St) (om : DDM) (odf : DdsFile) (oldD : List Nat)
    (hNF : NoFaults s) (hE : s.enabled = true)
    (hDdm : alookup s.fs.ddm (pkOfTile tile Z) = some (DdmFile.parsed om))
    (hDds : alookup s.fs.dds (pkOfTile tile Z) = some odf)
    (hDec : decompOf cdc om odf.bytes = some oldD)
    (hw : om.w = W) (hh : om.h = H) (hW1 : 1 ≤ W) (hH1 : 1 ≤ H)
    (htd : tile.dds = some (mkDDS (2 * W) (2 * H) om.fmt))
    (hMz : tile.max_zoom = Z + 1)
    (hOldLen : oldD.length = (mkDDS W H om.fmt).total_size)
    (hmm0 : new_mm0.length = mmLen (blocksizeOf om.fmt) (2 * W) (2 * H)) :
    ∃ nb s1 tile2 s2,
      upgrade_zl cdc tid Z (Z + 1) new_mm0 tile s = Except.ok (some nb, s1)
      ∧ load cdc tid (Z + 1) tile s1 = Except.ok ((some nb, tile2), s2)
      ∧ sliceOf nb 128 new_mm0.length = new_mm0
      ∧ (∀ i, i < (mkDDS W H om.fmt).mipmap_list.length →
          sliceOf nb
            (((mkDDS (2 * W) (2 * H) om.fmt).mipmap_list.getD (i + 1)
              dMM).startpos)
            (((mkDDS (2 * W) (2 * H) om.fmt).mipmap_list.getD (i + 1)
              dMM).mmlen)
          = sliceOf oldD
            (((mkDDS W H om.fmt).mipmap_list.getD i dMM).startpos)
            (((mkDDS W H om.fmt).mipmap_list.getD i dMM).mmlen)) := by
  subst hw
  subst hh
  obtain ⟨hlen, hsl0, hsli⟩ := upgBytes_spec om.fmt om.w om.h hW1 hH1 oldD
    new_mm0 hOldLen hmm0
  set nb := upgBytes oldD new_mm0 (mkDDS (2 * om.w) (2 * om.h) om.fmt)
    (mkDDS om.w om.h om.fmt) with hnb
  have h128tot := mmTotal_ge (blocksizeOf om.fmt) (2 * om.w) (2 * om.h) 128
  have htsn : (mkDDS (2 * om.w) (2 * om.h) om.fmt).total_size
      = mmTotal (blocksizeOf om.fmt) (2 * om.w) (2 * om.h) 128 := by
    simp [mkDDS]
  have hLen : 128 ≤ nb.length := by rw [hlen, htsn]; exact h128tot
  have hBody := upgradeBody_run cdc tid Z new_mm0 tile s om odf oldD
    (mkDDS (2 * om.w) (2 * om.h) om.fmt) hNF hE hDdm hDds hDec (by omega)
    htd hLen
  have hUp := upgrade_zl_run cdc tid Z new_mm0 tile s _ hE hBody
  have hfo : s.faults = noFaults := hNF
  have hne := pkOfTile_ne_succ tile Z
  have hE1 : (upgSt cdc tid Z nb tile s).enabled = true := by
    rw [upgSt_enabled, hE]
  have hFm1 : (upgSt cdc tid Z nb tile s).faults.ddmRead
      (pkOfTile tile (Z + 1)) = false := by
    rw [upgSt_faults, hfo]; rfl
  have hFr1 : (upgSt cdc tid Z nb tile s).faults.ddsRead
      (pkOfTile tile (Z + 1)) = false := by
    rw [upgSt_faults, hfo]; rfl
  have hDdm1 : alookup (upgSt cdc tid Z nb tile s).fs.ddm
      (pkOfTile tile (Z + 1))
      = some (DdmFile.parsed (storeMeta cdc s (Z + 1) tile none none nb)) := by
    rw [upgSt_fs]
    show alookup (aerase (storeSt cdc tid (Z + 1) nb tile none none s).fs.ddm
      (pkOfTile tile Z)) _ = _
    rw [alookup_aerase_ne _ _ _ hne, storeSt_fs_ddm, alookup_aset_self]
  have hDds1 : alookup (upgSt cdc tid Z nb tile s).fs.dds
      (pkOfTile tile (Z + 1))
      = some ⟨storeDiskBytes cdc s.compression nb, s.nowTime⟩ := by
    rw [upgSt_fs]
    show alookup (aerase (storeSt cdc tid (Z + 1) nb tile none none s).fs.dds
      (pkOfTile tile Z)) _ = _
    rw [alookup_aerase_ne _ _ _ hne, storeSt_fs_dds, alookup_aset_self]
  have hStale1 : isStale (upgSt cdc tid Z nb tile s)
      (storeMeta cdc s (Z + 1) tile none none nb) tile
      (pkOfTile tile (Z + 1)) = false := by
    rw [isStale_congr (upgSt cdc tid Z nb tile s)
      (storeSt cdc tid (Z + 1) nb tile none none s) _ tile _
      (by rw [upgSt_cfg, storeSt_cfg])
      (by rw [upgSt_faults, storeSt_faults])
      (by rw [upgSt_fs]
          show alookup (aerase (storeSt cdc tid (Z + 1) nb tile none none
            s).fs.dds (pkOfTile tile Z)) _ = _
          rw [alookup_aerase_ne _ _ _ hne])
      (by rw [upgSt_fs]
          rfl)]
    exact isStale_after_store cdc tid (Z + 1) nb tile none s _ hNF htd hlen
      hMz
  have hZl1 : (storeMeta cdc s (Z + 1) tile none none nb).max_zl = Z + 1 := by
    simp [storeMeta, buildDdm]
  have hDec1 : decompOf cdc (storeMeta cdc s (Z + 1) tile none none nb)
      (storeDiskBytes cdc s.compression nb) = some nb :=
    decompOf_storeMeta cdc s (Z + 1) tile none none nb
  have hSB1 : (match tile.dds with
      | some d => decide (nb.length ≠ d.total_size)
      | none => false) = false := by
    rw [htd]
    simp [hlen]
  have hLoad := load_hit_run cdc tid (Z + 1) tile (upgSt cdc tid Z nb tile s)
    (storeMeta cdc s (Z + 1) tile none none nb)
    ⟨storeDiskBytes cdc s.compression nb, s.nowTime⟩ nb hE1 hFm1 hFr1 hDdm1
    hStale1 hZl1 hDds1 hDec1 hSB1
  exact ⟨nb, _, _, _, hUp, hLoad, hsl0, hsli⟩

/-- A 1x1 BC1 tile cached at zoom 13, used as the pre-upgrade entry. -/
def tileOldC2 : Tile :=
  ⟨1, 2, "BI", 12, 13, 0, some (mkDDS 1 1 "BC1"), none, none, false, [],
    none⟩

def omC2 : DDM := buildDdm tileOldC2 13 none "BC1" "ISPC" none "none" 100

def oldDC2 : List Nat := List.replicate 136 3

/-- A state holding the 1x1 pair on disk at zoom 13. -/
def sC2 : St :=
  { stC with fs :=
    ⟨[(⟨1, 2, "BI", 12, 13⟩, ⟨oldDC2, 50⟩)],
     [(⟨1, 2, "BI", 12, 13⟩, DdmFile.parsed omC2)], []⟩ }

/-- The same tile re-targeted at the doubled 2x2 layout for zoom 14. -/
def tileNewC2 : Tile :=
  ⟨1, 2, "BI", 12, 14, 0, some (mkDDS 2 2 "BC1"), none, none, false, [],
    none⟩

def newMm0C2 : List Nat := List.replicate 8 9

set_option maxRecDepth 100000

/-- Witness for C2: upgrading the 1x1 entry to 2x2 with a full-length
mipmap 0. -/
theorem claim_C2_upgrade_exactness_witness :
    ∃ nb s1 tile2 s2,
      upgrade_zl modelCodec "1_2_BI_12" 13 14 newMm0C2 tileNewC2 sC2
        = Except.ok (some nb, s1)
      ∧ load modelCodec "1_2_BI_12" 14 tileNewC2 s1
        = Except.ok ((some nb, tile2), s2)
      ∧ sliceOf nb 128 newMm0C2.length = newMm0C2
      ∧ (∀ i, i < (mkDDS 1 1 omC2.fmt).mipmap_list.length →
          sliceOf nb
            (((mkDDS (2 * 1) (2 * 1) omC2.fmt).mipmap_list.getD (i + 1)
              dMM).startpos)
            (((mkDDS (2 * 1) (2 * 1) omC2.fmt).mipmap_list.getD (i + 1)
              dMM).mmlen)
          = sliceOf oldDC2
            (((mkDDS 1 1 omC2.fmt).mipmap_list.getD i dMM).startpos)
            (((mkDDS 1 1 omC2.fmt).mipmap_list.getD i dMM).mmlen)) :=
  claim_C2_upgrade_exactness modelCodec "1_2_BI_12" 13 1 1 newMm0C2
    tileNewC2 sC2 omC2 ⟨oldDC2, 50⟩ oldDC2 rfl rfl (by decide) (by decide)
    (by decide) (by decide) (by decide) (by decide) (by decide) rfl rfl
    (by decide) (by decide)

/-- Counterexample for C2 as stated: with a too-short `new_mm0_bytes`
the upgrade still succeeds, but the new mipmap 0 region does not equal
the supplied bytes (the code zero-pads it). -/
theorem claim_C2_counterexample :
    ∃ nb s1,
      upgrade_zl modelCodec "1_2_BI_12" 13 14 [5] tileNewC2 sC2
        = Except.ok (some nb, s1)
      ∧ sliceOf nb 128
          (((mkDDS 2 2 "BC1").mipmap_list.getD 0 dMM).mmlen) ≠ [5] :=
  ⟨_, _, rfl, by decide⟩


/-! ## Claim C3: downgrade_zl -/

/-- The state after a successful `downgrade_zl` from zoom `Z + 1` to
`Z`. -/
def dgSt (cdc : Codec) (tid : String) (Z : Nat) (nb : List Nat)
    (tile : Tile) (s : St) : St :=
  let s1 := erasePairSt (storeSt cdc tid Z nb tile none none s)
    (pkOfTile tile (Z + 1))
  match alookup s1.entries (tileKeyStr tid (Z + 1)) with
  | some e =>
    { s1 with entries := aerase s1.entries (tileKeyStr tid (Z + 1)),
              current_size := s1.current_size - e.size }
  | none => s1

/-- The bytes constructed by a successful `downgrade_zl`: header, then
each old mipmap from index 1 on, shifted one slot up. -/
def dgBytes (oldD : List Nat) (oldStruct newStruct : DDSLayout) :
    List Nat :=
  let buf0 : List Nat := List.replicate newStruct.total_size 0
  let buf1 := writeAt buf0 0 (newStruct.header.take 128)
  shiftWrites oldD (oldStruct.mipmap_list.drop 1) newStruct.mipmap_list buf1

theorem downgradeBody_reject (cdc : Codec) (tid : String) (Z : Nat)
    (tile : Tile) (s : St) (om : DDM) (odf : DdsFile) (oldD : List Nat)
    (hNF : NoFaults s)
    (hDdm : alookup s.fs.ddm (pkOfTile tile (Z + 1))
      = some (DdmFile.parsed om))
    (hDds : alookup s.fs.dds (pkOfTile tile (Z + 1)) = some odf)
    (hDec : decompOf cdc om odf.bytes = some oldD)
    (hW0 : ¬ (om.w = 0 ∨ om.h = 0))
    (hSmall : om.w / 2 < 4 ∨ om.h / 2 < 4) :
    downgradeBody cdc tid (Z + 1) Z tile s = Except.ok (none, s) := by
  have hfo : s.faults = noFaults := hNF
  have hFm : s.faults.ddmRead (pkOfTile tile (Z + 1)) = false := by
    rw [hfo]; rfl
  have hFr : s.faults.ddsRead (pkOfTile tile (Z + 1)) = false := by
    rw [hfo]; rfl
  have hR : readDdm s (pkOfTile tile (Z + 1)) = some om :=
    readDdm_parsed s _ om hFm hDdm
  have hRd := readDdsE_run (pkOfTile tile (Z + 1)) s odf hFr hDds
  have hDc := decompressDdsE_run cdc om odf.bytes oldD s hDec
  unfold downgradeBody
  rw [bind_is_mbind, mbind_run_ok _ _ _ _ _ (getS_run s)]
  simp only [hR]
  rw [bind_is_mbind]
  rw [mbind_run_ok _ _ _ _ _ (pyTry_run_ok _ _ _ _
    (by rw [bind_is_mbind, mbind_run_ok _ _ _ _ _ hRd]; rfl))]
  simp only []
  rw [bind_is_mbind]
  rw [mbind_run_ok _ _ _ _ _ (pyTry_run_ok _ _ _ _
    (by rw [bind_is_mbind, mbind_run_ok _ _ _ _ _ hDc]; rfl))]
  simp only []
  rw [if_neg hW0]
  rw [if_pos hSmall]
  rfl

theorem downgradeBody_run (cdc : Codec) (tid : String) (Z : Nat)
    (tile : Tile) (s : St) (om : DDM) (odf : DdsFile) (oldD : List Nat)
    (hNF : NoFaults s) (hE : s.enabled = true)
    (hDdm : alookup s.fs.ddm (pkOfTile tile (Z + 1))
      = some (DdmFile.parsed om))
    (hDds : alookup s.fs.dds (pkOfTile tile (Z + 1)) = some odf)
    (hDec : decompOf cdc om odf.bytes = some oldD)
    (hW0 : ¬ (om.w = 0 ∨ om.h = 0))
    (hBig : ¬ (om.w / 2 < 4 ∨ om.h / 2 < 4))
    (hLen : 128 ≤ (dgBytes oldD (mkDDS om.w om.h om.fmt)
      (mkDDS (om.w / 2) (om.h / 2) om.fmt)).length) :
    downgradeBody cdc tid (Z + 1) Z tile s =
      Except.ok (some (dgBytes oldD (mkDDS om.w om.h om.fmt)
          (mkDDS (om.w / 2) (om.h / 2) om.fmt)),
        dgSt cdc tid Z
          (dgBytes oldD (mkDDS om.w om.h om.fmt)
            (mkDDS (om.w / 2) (om.h / 2) om.fmt)) tile s) := by
  have hfo : s.faults = noFaults := hNF
  have hFm : s.faults.ddmRead (pkOfTile tile (Z + 1)) = false := by
    rw [hfo]; rfl
  have hFr : s.faults.ddsRead (pkOfTile tile (Z + 1)) = false := by
    rw [hfo]; rfl
  have hWn : s.faults.ddsWrite (pkOfTile tile Z) = false := by rw [hfo]; rfl
  have hMn : s.faults.ddmWrite (pkOfTile tile Z) = false := by rw [hfo]; rfl
  have hR : readDdm s (pkOfTile tile (Z + 1)) = some om :=
    readDdm_parsed s _ om hFm hDdm
  have hRd := readDdsE_run (pkOfTile tile (Z + 1)) s odf hFr hDds
  have hDc := decompressDdsE_run cdc om odf.bytes oldD s hDec
  unfold downgradeBody
  rw [bind_is_mbind, mbind_run_ok _ _ _ _ _ (getS_run s)]
  simp only [hR]
  rw [bind_is_mbind]
  rw [mbind_run_ok _ _ _ _ _ (pyTry_run_ok _ _ _ _
    (by rw [bind_is_mbind, mbind_run_ok _ _ _ _ _ hRd]; rfl))]
  simp only []
  rw [bind_is_mbind]
  rw [mbind_run_ok _ _ _ _ _ (pyTry_run_ok _ _ _ _
    (by rw [bind_is_mbind, mbind_run_ok _ _ _ _ _ hDc]; rfl))]
  simp only []
  rw [if_neg hW0]
  rw [if_neg hBig]
  rw [bind_is_mbind]
  show mbind (store cdc tid Z
    (dgBytes oldD (mkDDS om.w om.h om.fmt)
      (mkDDS (om.w / 2) (om.h / 2) om.fmt)) tile none none) _ s = _
  rw [mbind_run_ok _ _ _ _ _
    (store_run cdc tid Z _ tile none none s hE hLen hWn hMn)]
  simp only [if_true]
  have hs1f := storeSt_faults cdc tid Z
    (dgBytes oldD (mkDDS om.w om.h om.fmt)
      (mkDDS (om.w / 2) (om.h / 2) om.fmt)) tile none none s
  have hRm1 : (storeSt cdc tid Z
      (dgBytes oldD (mkDDS om.w om.h om.fmt)
        (mkDDS (om.w / 2) (om.h / 2) om.fmt)) tile none none
      s).faults.ddsRemove (pkOfTile tile (Z + 1)) = false := by
    rw [hs1f, hfo]; rfl
  have hRm2 : (storeSt cdc tid Z
      (dgBytes oldD (mkDDS om.w om.h om.fmt)
        (mkDDS (om.w / 2) (om.h / 2) om.fmt)) tile none none
      s).faults.ddmRemove (pkOfTile tile (Z + 1)) = false := by
    rw [hs1f, hfo]; rfl
  rw [bind_is_mbind]
  rw [mbind_run_ok _ _ _ _ _
    (deletePair_run (pkOfTile tile (Z + 1)) _ hRm1 hRm2)]
  rw [bind_is_mbind, mbind_run_ok _ _ _ _ _ (modifyS_run _ _)]
  rfl

theorem downgrade_zl_run (cdc : Codec) (tid : String) (Z : Nat)
    (tile : Tile) (s : St) (r : Option (List Nat) × St)
    (hE : s.enabled = true)
    (hBody : downgradeBody cdc tid (Z + 1) Z tile s = Except.ok r) :
    downgrade_zl cdc tid (Z + 1) Z tile s = Except.ok r := by
  unfold downgrade_zl
  rw [bind_is_mbind, mbind_run_ok _ _ _ _ _ (getS_run s)]
  rw [if_neg (by simp [hE]), if_neg (by omega)]
  exact pyTry_run_ok _ _ _ _ hBody

/-- The byte-level facts about a successful downgrade buffer: its size
and each shifted mipmap. -/
theorem dgBytes_spec (fmt : String) (W H : Nat) (hW : 1 ≤ W) (hH : 1 ≤ H)
    (oldD : List Nat)
    (hOldLen : oldD.length = (mkDDS W H fmt).total_size) :
    (dgBytes oldD (mkDDS W H fmt) (mkDDS (W / 2) (H / 2) fmt)).length
      = (mkDDS (W / 2) (H / 2) fmt).total_size ∧
    ∀ i, i < (mkDDS (W / 2) (H / 2) fmt).mipmap_list.length →
      sliceOf (dgBytes oldD (mkDDS W H fmt) (mkDDS (W / 2) (H / 2) fmt))
        (((mkDDS (W / 2) (H / 2) fmt).mipmap_list.getD i dMM).startpos)
        (((mkDDS (W / 2) (H / 2) fmt).mipmap_list.getD i dMM).mmlen)
      = sliceOf oldD
        (((mkDDS W H fmt).mipmap_list.getD (i + 1) dMM).startpos)
        (((mkDDS W H fmt).mipmap_list.getD (i + 1) dMM).mmlen) := by
  have hbs : 1 ≤ blocksizeOf fmt := blocksizeOf_pos fmt
  have hml : (mkDDS (W / 2) (H / 2) fmt).mipmap_list
      = buildMMs (blocksizeOf fmt) (W / 2) (H / 2) 128 0 := by
    simp [mkDDS]
  have hmlo : (mkDDS W H fmt).mipmap_list
      = buildMMs (blocksizeOf fmt) W H 128 0 := by
    simp [mkDDS]
  have htso : (mkDDS W H fmt).total_size
      = mmTotal (blocksizeOf fmt) W H 128 := by
    simp [mkDDS]
  have htsn : (mkDDS (W / 2) (H / 2) fmt).total_size
      = mmTotal (blocksizeOf fmt) (W / 2) (H / 2) 128 := by
    simp [mkDDS]
  have hhd : (mkDDS (W / 2) (H / 2) fmt).header = ddsHeaderBytes := by
    simp [mkDDS]
  have hcons : buildMMs (blocksizeOf fmt) W H 128 0
      = ⟨0, 128, mmLen (blocksizeOf fmt) W H,
          128 + mmLen (blocksizeOf fmt) W H, none⟩ ::
        buildMMs (blocksizeOf fmt) (W / 2) (H / 2)
          (128 + mmLen (blocksizeOf fmt) W H) 1 := by
    rw [buildMMs_rec, if_pos ⟨by omega, by omega⟩]
  have htail : MMChain (128 + mmLen (blocksizeOf fmt) W H)
      (buildMMs (blocksizeOf fmt) (W / 2) (H / 2)
        (128 + mmLen (blocksizeOf fmt) W H) 1) :=
    buildMMs_chain (blocksizeOf fmt) hbs (W / 2) (H / 2) _ 1
  have hchN : MMChain 128 (buildMMs (blocksizeOf fmt) (W / 2) (H / 2) 128 0)
    := buildMMs_chain (blocksizeOf fmt) hbs (W / 2) (H / 2) 128 0
  have hendT : chainEnd (128 + mmLen (blocksizeOf fmt) W H)
      (buildMMs (blocksizeOf fmt) (W / 2) (H / 2)
        (128 + mmLen (blocksizeOf fmt) W H) 1)
      = mmTotal (blocksizeOf fmt) W H 128 := by
    have h1 := chainEnd_buildMMs (blocksizeOf fmt) W H 128 0
    rw [hcons] at h1
    exact h1
  have hendN : chainEnd 128 (buildMMs (blocksizeOf fmt) (W / 2) (H / 2) 128 0)
      = mmTotal (blocksizeOf fmt) (W / 2) (H / 2) 128 :=
    chainEnd_buildMMs (blocksizeOf fmt) (W / 2) (H / 2) 128 0
  have hLobs : oldD.length = mmTotal (blocksizeOf fmt) W H 128 := by
    rw [hOldLen, htso]
  have h128 := mmTotal_ge (blocksizeOf fmt) (W / 2) (H / 2) 128
  show (dgBytes oldD (mkDDS W H fmt) (mkDDS (W / 2) (H / 2) fmt)).length
      = _ ∧ _
  unfold dgBytes
  simp only [hml, hmlo, htsn, hhd, hcons]
  simp only [List.drop_succ_cons, List.drop_zero]
  have hhtl : (List.take 128 ddsHeaderBytes).length = 128 := by
    rw [List.length_take, ddsHeaderBytes_length, Nat.min_self]
  have hbuf1 : (writeAt (List.replicate
      (mmTotal (blocksizeOf fmt) (W / 2) (H / 2) 128) 0) 0
      (List.take 128 ddsHeaderBytes)).length
      = mmTotal (blocksizeOf fmt) (W / 2) (H / 2) 128 := by
    rw [length_writeAt _ _ _ (by rw [hhtl, List.length_replicate]; omega),
      List.length_replicate]
  refine ⟨?_, ?_⟩
  · rw [shiftWrites_length oldD _ _ _ _ hchN (by rw [hendN, hbuf1])]
    exact hbuf1
  · intro i hi
    simp only [List.getD_cons_succ]
    have hlen := buildMMs_length_eq (blocksizeOf fmt) (W / 2) (H / 2)
      (128 + mmLen (blocksizeOf fmt) W H) 128 1 0
    exact shiftWrites_slice oldD _ _ _ 128
      (128 + mmLen (blocksizeOf fmt) W H) i hchN
      (by rw [hendN, hbuf1]) htail (by omega)
      (fun j1 _ _ => buildMMs_mmlen_eq (blocksizeOf fmt) (W / 2) (H / 2)
        (128 + mmLen (blocksizeOf fmt) W H) 128 1 0 j1)
      (by omega) hi

/-- C3 (downgrade, amended): `downgrade_zl(id, z_old, z_old - 1, tile)`
rejects (returns no data and leaves the state untouched) when the halved
width or height is below 4 pixels; otherwise it produces a DDS whose
mipmap `i` equals old mipmap `i + 1` byte-for-byte. -/
theorem claim_C3_downgrade
    (cdc : Codec) (tid : String) (Z W H : Nat) (tile : Tile) (s : St)
    (om : DDM) (odf : DdsFile) (oldD : List Nat)
    (hNF : NoFaults s) (hE : s.enabled = true)
    (hDdm : alookup s.fs.ddm (pkOfTile tile (Z + 1))
      = some (DdmFile.parsed om))
    (hDds : alookup s.fs.dds (pkOfTile tile (Z + 1)) = some odf)
    (hDec : decompOf cdc om odf.bytes = some oldD)
    (hw : om.w = W) (hh : om.h = H) (hW1 : 1 ≤ W) (hH1 : 1 ≤ H)
    (hOldLen : oldD.length = (mkDDS W H om.fmt).total_size) :
    ((W / 2 < 4 ∨ H / 2 < 4) →
      downgrade_zl cdc tid (Z + 1) Z tile s = Except.ok (none, s))
    ∧ (4 ≤ W / 2 → 4 ≤ H / 2 →
      ∃ nb s1,
        downgrade_zl cdc tid (Z + 1) Z tile s = Except.ok (some nb, s1)
        ∧ nb.length = (mkDDS (W / 2) (H / 2) om.fmt).total_size
        ∧ ∀ i, i < (mkDDS (W / 2) (H / 2) om.fmt).mipmap_list.length →
            sliceOf nb
              (((mkDDS (W / 2) (H / 2) om.fmt).mipmap_list.getD i
                dMM).startpos)
              (((mkDDS (W / 2) (H / 2) om.fmt).mipmap_list.getD i
                dMM).mmlen)
            = sliceOf oldD
              (((mkDDS W H om.fmt).mipmap_list.getD (i + 1) dMM).startpos)
              (((mkDDS W H om.fmt).mipmap_list.getD (i + 1) dMM).mmlen)) := by
  subst hw
  subst hh
  constructor
  · intro hSmall
    exact downgrade_zl_run cdc tid Z tile s _ hE
      (downgradeBody_reject cdc tid Z tile s om odf oldD hNF hDdm hDds
        hDec (by omega) hSmall)
  · intro h4w h4h
    obtain ⟨hlen, hsli⟩ := dgBytes_spec om.fmt om.w om.h hW1 hH1 oldD
      hOldLen
    have htsn : (mkDDS (om.w / 2) (om.h / 2) om.fmt).total_size
        = mmTotal (blocksizeOf om.fmt) (om.w / 2) (om.h / 2) 128 := by
      simp [mkDDS]
    have hLen : 128 ≤ (dgBytes oldD (mkDDS om.w om.h om.fmt)
        (mkDDS (om.w / 2) (om.h / 2) om.fmt)).length := by
      rw [hlen, htsn]; exact mmTotal_ge _ _ _ _
    have hBody := downgradeBody_run cdc tid Z tile s om odf oldD hNF hE
      hDdm hDds hDec (by omega) (by omega) hLen
    exact ⟨_, _, downgrade_zl_run cdc tid Z tile s _ hE hBody, hlen, hsli⟩

/-- A 16x16 BC1 tile cached at zoom 14, used as the pre-downgrade
entry. -/
def tileOldC3 : Tile :=
  ⟨1, 2, "BI", 12, 14, 0, some (mkDDS 16 16 "BC1"), none, none, false, [],
    none⟩

def omC3 : DDM := buildDdm tileOldC3 14 none "BC1" "ISPC" none "none" 100

def oldDC3 : List Nat := List.replicate 312 3

/-- A state holding the 16x16 pair on disk at zoom 14. -/
def sC3 : St :=
  { stC with fs :=
    ⟨[(⟨1, 2, "BI", 12, 14⟩, ⟨oldDC3, 50⟩)],
     [(⟨1, 2, "BI", 12, 14⟩, DdmFile.parsed omC3)], []⟩ }

/-- The same tile re-targeted at the halved 8x8 layout for zoom 13. -/
def tileNewC3 : Tile :=
  ⟨1, 2, "BI", 12, 13, 0, some (mkDDS 8 8 "BC1"), none, none, false, [],
    none⟩

set_option maxRecDepth 100000

/-- Witness for C3: downgrading the 16x16 entry at zoom 14 to 8x8. -/
theorem claim_C3_downgrade_witness :
    ((16 / 2 < 4 ∨ 16 / 2 < 4) →
      downgrade_zl modelCodec "1_2_BI_12" 14 13 tileNewC3 sC3
        = Except.ok (none, sC3))
    ∧ (4 ≤ 16 / 2 → 4 ≤ 16 / 2 →
      ∃ nb s1,
        downgrade_zl modelCodec "1_2_BI_12" 14 13 tileNewC3 sC3
          = Except.ok (some nb, s1)
        ∧ nb.length = (mkDDS (16 / 2) (16 / 2) omC3.fmt).total_size
        ∧ ∀ i, i < (mkDDS (16 / 2) (16 / 2) omC3.fmt).mipmap_list.length →
            sliceOf nb
              (((mkDDS (16 / 2) (16 / 2) omC3.fmt).mipmap_list.getD i
                dMM).startpos)
              (((mkDDS (16 / 2) (16 / 2) omC3.fmt).mipmap_list.getD i
                dMM).mmlen)
            = sliceOf oldDC3
              (((mkDDS 16 16 omC3.fmt).mipmap_list.getD (i + 1)
                dMM).startpos)
              (((mkDDS 16 16 omC3.fmt).mipmap_list.getD (i + 1)
                dMM).mmlen)) :=
  claim_C3_downgrade modelCodec "1_2_BI_12" 13 16 16 tileNewC3 sC3 omC3
    ⟨oldDC3, 50⟩ oldDC3 rfl rfl (by decide) (by decide) (by decide)
    (by decide) (by decide) (by decide) (by decide) (by decide)

/-- Counterexample for C3 as stated: a downgrade to 8x8 (below the
claimed 16-pixel minimum, above the code's 4-pixel minimum) succeeds
rather than being rejected. -/
theorem claim_C3_counterexample :
    16 / 2 < 16 ∧
    ∃ nb s1,
      downgrade_zl modelCodec "1_2_BI_12" 14 13 tileNewC3 sC3
        = Except.ok (some nb, s1) :=
  ⟨by decide, _, _, rfl⟩


/-! ## Claim C6: which operations can raise -/

/-- A computation that returns normally from every starting state. -/
def MTotal {α : Type} (x : M α) : Prop :=
  ∀ s, ∃ r, x s = Except.ok r

theorem mpure_total {α : Type} (a : α) : MTotal (mpure a) :=
  fun s => ⟨(a, s), rfl⟩

theorem pure_total {α : Type} (a : α) : MTotal (pure a : M α) :=
  mpure_total a

theorem getS_total : MTotal getS := fun s => ⟨(s, s), rfl⟩

theorem modifyS_total (f : St → St) : MTotal (modifyS f) :=
  fun s => ⟨((), f s), rfl⟩

theorem mbind_total {α β : Type} (x : M α) (f : α → M β) (hx : MTotal x)
    (hf : ∀ a, MTotal (f a)) : MTotal (mbind x f) := by
  intro s
  obtain ⟨⟨a, s1⟩, hr⟩ := hx s
  obtain ⟨r2, hr2⟩ := hf a s1
  exact ⟨r2, by rw [mbind_run_ok x f s s1 a hr]; exact hr2⟩

/-- A `try` with a total handler is total, whatever the body does. -/
theorem pyTry_total {α : Type} (body handler : M α) (hh : MTotal handler) :
    MTotal (pyTry body handler) := by
  intro s
  cases hb : body s with
  | ok r => exact ⟨r, pyTry_run_ok _ _ _ _ hb⟩
  | error s1 =>
    obtain ⟨r, hr⟩ := hh s1
    exact ⟨r, by rw [pyTry_run_err _ _ _ _ hb]; exact hr⟩

theorem removeDdsQuiet_total (k : PathKey) : MTotal (removeDdsQuiet k) := by
  intro s
  show ∃ r, (if s.faults.ddsRemove k then _ else _) = Except.ok r
  split
  · exact ⟨_, rfl⟩
  · exact ⟨_, rfl⟩

theorem removeDdmQuiet_total (k : PathKey) : MTotal (removeDdmQuiet k) := by
  intro s
  show ∃ r, (if s.faults.ddmRemove k then _ else _) = Except.ok r
  split
  · exact ⟨_, rfl⟩
  · exact ⟨_, rfl⟩

theorem deletePair_total (k : PathKey) : MTotal (deletePair k) := by
  unfold deletePair
  rw [bind_is_mbind]
  exact mbind_total _ _ (removeDdsQuiet_total k)
    (fun _ => removeDdmQuiet_total k)

theorem bumpMisses_total : MTotal bumpMisses := modifyS_total _

theorem forM_deletePair_total (l : List PathKey) :
    MTotal (l.forM deletePair) := by
  induction l with
  | nil => exact pure_total _
  | cons k rest ih =>
    show MTotal (mbind (deletePair k) fun _ => rest.forM deletePair)
    exact mbind_total _ _ (deletePair_total k) (fun _ => ih)

theorem load_total (cdc : Codec) (tid : String) (mz : Nat) (tile : Tile) :
    MTotal (load cdc tid mz tile) := by
  unfold load
  rw [bind_is_mbind]
  apply mbind_total _ _ getS_total
  intro s0
  split
  · exact pure_total _
  · apply pyTry_total
    rw [bind_is_mbind]
    exact mbind_total _ _ bumpMisses_total (fun _ => pure_total _)

theorem load_metadata_total (tid : String) (mz : Nat) (tile : Tile) :
    MTotal (load_metadata tid mz tile) := by
  unfold load_metadata
  rw [bind_is_mbind]
  apply mbind_total _ _ getS_total
  intro s0
  split
  · exact pure_total _
  · exact pyTry_total _ _ (pure_total _)

theorem containsOp_total (tid : String) (mz : Nat) (tile : Tile) :
    MTotal (containsOp tid mz tile) := by
  unfold containsOp
  rw [bind_is_mbind]
  apply mbind_total _ _ getS_total
  intro s0
  split
  · exact pure_total _
  · exact pyTry_total _ _ (pure_total _)

theorem store_total (cdc : Codec) (tid : String) (mz : Nat) (B : List Nat)
    (tile : Tile) (bp : Option BundleKey) (miss : Option (List Nat)) :
    MTotal (store cdc tid mz B tile bp miss) := by
  unfold store
  rw [bind_is_mbind]
  apply mbind_total _ _ getS_total
  intro s0
  split
  · exact pure_total _
  · split
    · exact pure_total _
    · exact pyTry_total _ _ (pure_total _)

theorem store_from_file_total (cdc : Codec) (tid : String) (mz : Nat)
    (source : Option (List Nat)) (tile : Tile) (miss : Option (List Nat)) :
    MTotal (store_from_file cdc tid mz source tile miss) := by
  unfold store_from_file
  rw [bind_is_mbind]
  apply mbind_total _ _ getS_total
  intro s0
  split
  · exact pure_total _
  · rw [bind_is_mbind]
    apply mbind_total _ _ (pyTry_total _ _ (pure_total _))
    intro szOpt
    rcases szOpt with _ | n
    · exact pure_total _
    · show MTotal (if n < 128 then _ else _)
      split
      · exact pure_total _
      · exact pyTry_total _ _ (pure_total _)

theorem store_incremental_total (tid : String) (mz row col : Nat)
    (maptype : String) (tz : Nat) (hdr : List Nat) (total w h mmc : Nat)
    (mdata : List (Nat × List Nat)) (moffs : List (Nat × (Nat × Nat))) :
    MTotal (store_incremental tid mz row col maptype tz hdr total w h mmc
      mdata moffs) := by
  unfold store_incremental
  rw [bind_is_mbind]
  apply mbind_total _ _ getS_total
  intro s0
  split
  · exact pure_total _
  · split
    · exact pure_total _
    · exact pyTry_total _ _ (pure_total _)

theorem upgrade_zl_total (cdc : Codec) (tid : String) (oz nz : Nat)
    (mm0 : List Nat) (tile : Tile) :
    MTotal (upgrade_zl cdc tid oz nz mm0 tile) := by
  unfold upgrade_zl
  rw [bind_is_mbind]
  apply mbind_total _ _ getS_total
  intro s0
  split
  · exact pure_total _
  · split
    · exact pure_total _
    · exact pyTry_total _ _ (pure_total _)

theorem downgrade_zl_total (cdc : Codec) (tid : String) (oz nz : Nat)
    (tile : Tile) :
    MTotal (downgrade_zl cdc tid oz nz tile) := by
  unfold downgrade_zl
  rw [bind_is_mbind]
  apply mbind_total _ _ getS_total
  intro s0
  split
  · exact pure_total _
  · split
    · exact pure_total _
    · exact pyTry_total _ _ (pure_total _)

theorem invalidate_total (tid : String) (mz : Nat) :
    MTotal (invalidate tid mz) := by
  unfold invalidate
  rw [bind_is_mbind]
  apply mbind_total _ _ getS_total
  intro s0
  split
  · exact pure_total _
  · simp only []
    split
    · exact pure_total _
    · rw [bind_is_mbind]
      apply mbind_total _ _ (modifyS_total _)
      intro _
      rw [bind_is_mbind]
      exact mbind_total _ _ (deletePair_total _) (fun _ => pure_total _)

theorem evict_lru_total (need : Nat) : MTotal (evict_lru need) := by
  unfold evict_lru
  rw [bind_is_mbind]
  apply mbind_total _ _ getS_total
  intro s0
  rw [bind_is_mbind]
  apply mbind_total _ _ (modifyS_total _)
  intro _
  rw [bind_is_mbind]
  exact mbind_total _ _ (forM_deletePair_total _) (fun _ => pure_total _)

theorem scanLoop_total (l : List (PathKey × DdsFile)) :
    MTotal (scanLoop l) := by
  induction l with
  | nil => exact pure_total 0
  | cons p rest ih =>
    obtain ⟨k, df⟩ := p
    unfold scanLoop
    rw [bind_is_mbind]
    apply mbind_total _ _ getS_total
    intro s
    split
    · rw [bind_is_mbind]
      exact mbind_total _ _ (removeDdsQuiet_total k) (fun _ => ih)
    · split
      · exact ih
      · rw [bind_is_mbind]
        apply mbind_total _ _ (pyTry_total _ _ (pure_total _))
        intro szOpt
        split
        · exact ih
        · rw [bind_is_mbind]
          apply mbind_total _ _ getS_total
          intro s2
          rw [bind_is_mbind]
          apply mbind_total _ _ getS_total
          intro s3
          split
          · simp only []
            rw [if_neg (show ¬ (false = true) from by simp)]
            rw [bind_is_mbind]
            apply mbind_total _ _ (pure_total _)
            intro _
            rw [bind_is_mbind]
            exact mbind_total _ _ ih (fun n => pure_total _)
          · simp only []
            rw [if_pos True.intro]
            rw [bind_is_mbind]
            apply mbind_total _ _ (modifyS_total _)
            intro _
            rw [bind_is_mbind]
            exact mbind_total _ _ ih (fun n => pure_total _)

theorem scan_existing_total : MTotal scan_existing := by
  unfold scan_existing
  rw [bind_is_mbind]
  apply mbind_total _ _ getS_total
  intro s0
  split
  · exact pure_total _
  · rw [bind_is_mbind]
    apply mbind_total _ _ (pyTry_total _ _ (pure_total _))
    intro cnt
    simp only []
    split
    · rw [bind_is_mbind]
      exact mbind_total _ _ (modifyS_total _) (fun _ => pure_total _)
    · rw [bind_is_mbind]
      exact mbind_total _ _ (pure_total _) (fun _ => pure_total _)

/-- C6 (error propagation, amended): none of `load`, `load_metadata`,
`contains`, `store`, `store_from_file`, `store_incremental`,
`upgrade_zl`, `downgrade_zl`, `invalidate`, `evict_lru` and
`scan_existing` ever raises to its caller, from any state and under any
injected filesystem fault (`patch_missing_chunks` is the exception, see
the counterexample). -/
theorem claim_C6_error_propagation :
    (∀ cdc tid mz tile, MTotal (load cdc tid mz tile))
    ∧ (∀ tid mz tile, MTotal (load_metadata tid mz tile))
    ∧ (∀ tid mz tile, MTotal (containsOp tid mz tile))
    ∧ (∀ cdc tid mz B tile bp miss, MTotal (store cdc tid mz B tile bp miss))
    ∧ (∀ cdc tid mz src tile miss,
        MTotal (store_from_file cdc tid mz src tile miss))
    ∧ (∀ tid mz row col maptype tz hdr total w h mmc mdata moffs,
        MTotal (store_incremental tid mz row col maptype tz hdr total w h
          mmc mdata moffs))
    ∧ (∀ cdc tid oz nz mm0 tile, MTotal (upgrade_zl cdc tid oz nz mm0 tile))
    ∧ (∀ cdc tid oz nz tile, MTotal (downgrade_zl cdc tid oz nz tile))
    ∧ (∀ tid mz, MTotal (invalidate tid mz))
    ∧ (∀ need, MTotal (evict_lru need))
    ∧ MTotal scan_existing :=
  ⟨load_total, load_metadata_total, containsOp_total, store_total,
    store_from_file_total, store_incremental_total, upgrade_zl_total,
    downgrade_zl_total, invalidate_total, evict_lru_total,
    scan_existing_total⟩

/-- External patch collaborators that decode nothing: the heal then
"completes" vacuously on an empty chunk list. -/
def extNull : PatchExt :=
  ⟨fun _ => none, fun i _ _ => i, fun _ _ _ => none⟩

/-- Fault set where every DDM sidecar write raises. -/
def faultsDdmW : Faults :=
  ⟨fun _ => false, fun _ => true, fun _ => false, fun _ => false,
   fun _ => false, fun _ => false, fun _ => false, false, false, false,
   false⟩

/-- A healable cached pair whose DDM writes fail. -/
def sC6 : St :=
  { stC with
    fs :=
      ⟨[(⟨1, 2, "BI", 12, 13⟩, ⟨List.replicate 184 7, 50⟩)],
       [(⟨1, 2, "BI", 12, 13⟩, DdmFile.parsed mMisC)], []⟩,
    faults := faultsDdmW }

def tileC6 : Tile :=
  ⟨1, 2, "BI", 12, 13, 1, some (mkDDS 8 8 "BC1"), none, none, false, [],
    none⟩

/-- Counterexample for C6 as stated: `patch_missing_chunks` propagates
the `_write_ddm` failure of its final sidecar update to the caller. -/
theorem claim_C6_counterexample :
    ∃ s1,
      patch_missing_chunks modelCodec extNull "1_2_BI_12" 13 tileC6 [] sC6
        = Except.error s1 :=
  ⟨_, rfl⟩


/-! ## Claim C8: cleanup_stale_dds -/

theorem alookup_aerase_of_none {κ β : Type} [DecidableEq κ]
    (l : List (κ × β)) (k k1 : κ) (h : alookup l k1 = none) :
    alookup (aerase l k) k1 = none := by
  by_cases hk : k1 = k
  · subst hk; exact alookup_aerase_self l k1
  · rw [alookup_aerase_ne l k k1 hk]; exact h

theorem cleanupLoop_bundles (l : List (PathKey × DdmFile)) : ∀ fs : Fs,
    (cleanupLoop l fs).2.2.bundles = fs.bundles := by
  induction l with
  | nil => intro fs; rfl
  | cons p rest ih =>
    intro fs
    obtain ⟨k, f⟩ := p
    cases f with
    | corrupt sz =>
      show (cleanupLoop rest (fsRemovePair fs k)).2.2.bundles = _
      rw [ih]
      rfl
    | parsed m =>
      simp only [cleanupLoop]
      split
      · exact ih fs
      · show (cleanupLoop rest (fsRemovePair fs k)).2.2.bundles = _
        rw [ih]
        rfl

/-- The loop never re-creates a sidecar entry. -/
theorem cleanupLoop_none_ddm (l : List (PathKey × DdmFile)) : ∀ (fs : Fs)
    (k1 : PathKey), alookup fs.ddm k1 = none →
    alookup (cleanupLoop l fs).2.2.ddm k1 = none := by
  induction l with
  | nil => intro fs k1 h; exact h
  | cons p rest ih =>
    intro fs k1 h
    obtain ⟨k, f⟩ := p
    cases f with
    | corrupt sz =>
      show alookup (cleanupLoop rest (fsRemovePair fs k)).2.2.ddm k1 = none
      exact ih _ k1 (alookup_aerase_of_none _ _ _ h)
    | parsed m =>
      simp only [cleanupLoop]
      split
      · exact ih fs k1 h
      · show alookup (cleanupLoop rest (fsRemovePair fs k)).2.2.ddm k1 = none
        exact ih _ k1 (alookup_aerase_of_none _ _ _ h)

theorem cleanupLoop_none_dds (l : List (PathKey × DdmFile)) : ∀ (fs : Fs)
    (k1 : PathKey), alookup fs.dds k1 = none →
    alookup (cleanupLoop l fs).2.2.dds k1 = none := by
  induction l with
  | nil => intro fs k1 h; exact h
  | cons p rest ih =>
    intro fs k1 h
    obtain ⟨k, f⟩ := p
    cases f with
    | corrupt sz =>
      show alookup (cleanupLoop rest (fsRemovePair fs k)).2.2.dds k1 = none
      exact ih _ k1 (alookup_aerase_of_none _ _ _ h)
    | parsed m =>
      simp only [cleanupLoop]
      split
      · exact ih fs k1 h
      · show alookup (cleanupLoop rest (fsRemovePair fs k)).2.2.dds k1 = none
        exact ih _ k1 (alookup_aerase_of_none _ _ _ h)

/-- Every sidecar in the walked list whose bundle is absent ends up with
both of its files removed. -/
theorem cleanupLoop_removes (l : List (PathKey × DdmFile)) : ∀ (fs : Fs)
    (k : PathKey) (m : DDM), (k, DdmFile.parsed m) ∈ l →
    alookup fs.bundles
      (bundleKeyOf m.tile_row m.tile_col m.maptype m.zl) = none →
    alookup (cleanupLoop l fs).2.2.ddm k = none
    ∧ alookup (cleanupLoop l fs).2.2.dds k = none := by
  induction l with
  | nil => intro fs k m hmem; simp at hmem
  | cons p rest ih =>
    intro fs k m hmem hb
    obtain ⟨k0, f0⟩ := p
    rcases List.mem_cons.mp hmem with heq | hrest
    · have hk : k = k0 := congrArg Prod.fst heq
      have hf : DdmFile.parsed m = f0 := congrArg Prod.snd heq
      subst hk
      rw [← hf]
      simp only [cleanupLoop]
      split
      · rename_i hsome
        rw [hb] at hsome
        simp at hsome
      · exact ⟨cleanupLoop_none_ddm rest _ k (alookup_aerase_self _ _),
          cleanupLoop_none_dds rest _ k (alookup_aerase_self _ _)⟩
    · cases f0 with
      | corrupt sz =>
        show _ ∧ _
        exact ih (fsRemovePair fs k0) k m hrest hb
      | parsed m0 =>
        simp only [cleanupLoop]
        split
        · exact ih fs k m hrest hb
        · exact ih (fsRemovePair fs k0) k m hrest hb

/-- The DDS bytes freed by the walk, computed against the starting
filesystem: one `os.path.getsize(dds_path)` term per reaped sidecar,
and nothing for the sidecar file itself. -/
def staleSizes (fs : Fs) : List (PathKey × DdmFile) → Nat
  | [] => 0
  | (_, DdmFile.corrupt _) :: rest => staleSizes fs rest
  | (k, DdmFile.parsed m) :: rest =>
    if (alookup fs.bundles
        (bundleKeyOf m.tile_row m.tile_col m.maptype m.zl)).isSome then
      staleSizes fs rest
    else
      staleSizes fs rest +
        (match alookup fs.dds k with
         | some df => df.bytes.length
         | none => 0)

theorem staleSizes_congr (l : List (PathKey × DdmFile)) : ∀ fs1 fs2 : Fs,
    fs1.bundles = fs2.bundles →
    (∀ k, k ∈ l.map Prod.fst → alookup fs1.dds k = alookup fs2.dds k) →
    staleSizes fs1 l = staleSizes fs2 l := by
  induction l with
  | nil => intro fs1 fs2 _ _; rfl
  | cons p rest ih =>
    intro fs1 fs2 hb hd
    obtain ⟨k, f⟩ := p
    cases f with
    | corrupt sz =>
      show staleSizes fs1 rest = staleSizes fs2 rest
      exact ih fs1 fs2 hb (fun k1 h1 => hd k1 (by simp [h1]))
    | parsed m =>
      simp only [staleSizes]
      rw [hb, hd k (by simp), ih fs1 fs2 hb (fun k1 h1 => hd k1 (by simp [h1]))]

theorem cleanupLoop_freed (l : List (PathKey × DdmFile)) : ∀ fs : Fs,
    (l.map Prod.fst).Nodup →
    (cleanupLoop l fs).2.1 = staleSizes fs l := by
  induction l with
  | nil => intro fs _; rfl
  | cons p rest ih =>
    intro fs hnd
    obtain ⟨k0, f0⟩ := p
    have hnd2 : (rest.map Prod.fst).Nodup := by
      simp only [List.map_cons, List.nodup_cons] at hnd
      exact hnd.2
    have hk0 : k0 ∉ rest.map Prod.fst := by
      simp only [List.map_cons, List.nodup_cons] at hnd
      exact hnd.1
    have hcong : staleSizes (fsRemovePair fs k0) rest = staleSizes fs rest := by
      apply staleSizes_congr rest (fsRemovePair fs k0) fs rfl
      intro k hkmem
      exact alookup_aerase_ne _ _ _ (fun h => hk0 (h ▸ hkmem))
    cases f0 with
    | corrupt sz =>
      show (cleanupLoop rest (fsRemovePair fs k0)).2.1 = staleSizes fs rest
      rw [ih _ hnd2, hcong]
    | parsed m =>
      simp only [cleanupLoop, staleSizes]
      split
      · exact ih fs hnd2
      · show (cleanupLoop rest (fsRemovePair fs k0)).2.1 + _ = _
        rw [ih _ hnd2, hcong]

/-- C8 (orphan-DDS reaping, amended): every sidecar whose source bundle
is absent loses both its DDM and its DDS file, and the tracked DDS usage
drops by the freed DDS bytes only (clamped at zero); the sidecar file
sizes are not accounted. -/
theorem claim_C8_orphan_reaping (fs : Fs) (bm : BmSt)
    (hNodup : (fs.ddm.map Prod.fst).Nodup) :
    (∀ k m, (k, DdmFile.parsed m) ∈ fs.ddm →
      alookup fs.bundles
        (bundleKeyOf m.tile_row m.tile_col m.maptype m.zl) = none →
      alookup (cleanup_stale_dds fs bm).2.1.ddm k = none
      ∧ alookup (cleanup_stale_dds fs bm).2.1.dds k = none)
    ∧ (cleanup_stale_dds fs bm).2.2.dds_usage =
        (if 0 < staleSizes fs fs.ddm then
          max 0 (bm.dds_usage - (staleSizes fs fs.ddm : Int))
         else bm.dds_usage) := by
  constructor
  · intro k m hmem hb
    exact cleanupLoop_removes fs.ddm fs k m hmem hb
  · show (if 0 < (cleanupLoop fs.ddm fs).2.1 then _ else bm).dds_usage = _
    rw [cleanupLoop_freed fs.ddm fs hNodup]
    by_cases h : 0 < staleSizes fs fs.ddm
    · rw [if_pos h, if_pos h]
    · rw [if_neg h, if_neg h]

def kC8 : PathKey := ⟨1, 2, "BI", 12, 13⟩

/-- A filesystem with one orphaned pair: a 1000-byte DDS file and its
sidecar, and no bundles at all. -/
def fsC8 : Fs :=
  ⟨[(kC8, ⟨List.replicate 1000 1, 50⟩)], [(kC8, DdmFile.parsed mMisC)], []⟩

def bmC8 : BmSt := ⟨2000, 0, 0, 0, 0, 0⟩

set_option maxRecDepth 100000

/-- Witness for C8 on the one-orphan filesystem. -/
theorem claim_C8_orphan_reaping_witness :
    (∀ k m, (k, DdmFile.parsed m) ∈ fsC8.ddm →
      alookup fsC8.bundles
        (bundleKeyOf m.tile_row m.tile_col m.maptype m.zl) = none →
      alookup (cleanup_stale_dds fsC8 bmC8).2.1.ddm k = none
      ∧ alookup (cleanup_stale_dds fsC8 bmC8).2.1.dds k = none)
    ∧ (cleanup_stale_dds fsC8 bmC8).2.2.dds_usage =
        (if 0 < staleSizes fsC8 fsC8.ddm then
          max 0 (bmC8.dds_usage - (staleSizes fsC8 fsC8.ddm : Int))
         else bmC8.dds_usage) :=
  claim_C8_orphan_reaping fsC8 bmC8 (by decide)

/-- Counterexample for C8 as stated: the usage drops by the DDS size
alone; the sidecar size is positive but not subtracted. -/
theorem claim_C8_counterexample :
    (cleanup_stale_dds fsC8 bmC8).2.2.dds_usage = 2000 - 1000
    ∧ 0 < ddmFileSize (DdmFile.parsed mMisC)
    ∧ (2000 - 1000 : Int)
      ≠ 2000 - (1000 + (ddmFileSize (DdmFile.parsed mMisC) : Int)) :=
  ⟨by decide, by decide, by decide⟩


/-! ## Claim C5: LRU size bookkeeping -/

theorem alookup_lruPut_self (entries : List (String × Entry)) (key : String)
    (e : Entry) : alookup (lruPut entries key e) key = some e := by
  unfold lruPut
  rw [alookup_append, alookup_aerase_self]
  simp [alookup]

theorem storeSt_entries (cdc : Codec) (tid : String) (mz : Nat)
    (B : List Nat) (tile : Tile) (bp : Option BundleKey)
    (miss : Option (List Nat)) (s : St) :
    (storeSt cdc tid mz B tile bp miss s).entries =
      lruPut s.entries (tileKeyStr tid mz)
        ⟨pkOfTile tile mz, (storeDiskBytes cdc s.compression B).length,
          s.nowTime⟩ := by
  unfold storeSt lruStoreSt
  rcases h : alookup (setDdmSt (setDdsSt s (pkOfTile tile mz)
      (storeDiskBytes cdc s.compression B)) (pkOfTile tile mz)
      (storeMeta cdc s mz tile bp miss B)).entries (tileKeyStr tid mz) with
    _ | e <;> simp [h, setDdsSt, setDdmSt]

theorem loadHitSt_fs (t : St) (key : String) (k : PathKey) (size : Nat) :
    (loadHitSt t key k size).fs = t.fs := by
  unfold loadHitSt
  rcases h : alookup t.entries key with _ | e <;> simp [h]

theorem loadHitSt_entries_none (t : St) (key : String) (k : PathKey)
    (size : Nat) (hNone : alookup t.entries key = none) :
    alookup (loadHitSt t key k size).entries key
      = some ⟨k, size, t.nowTime⟩ := by
  unfold loadHitSt
  rw [hNone]
  show alookup (t.entries ++ [(key, ⟨k, size, t.nowTime⟩)]) key = _
  rw [alookup_append, hNone]
  simp [alookup]

/-! ## Claim C5 support: store_incremental size recording and the sequence invariant -/

/-- The LRU key string determined by a path key (the key the callers
build: `tile.id + "_z" + max_zoom` with `tile.id` derived from the same
four identity fields). -/
def keyOfPk (k : PathKey) : String :=
  tileKeyStr (toString k.row ++ "_" ++ toString k.col ++ "_" ++ k.maptype
    ++ "_" ++ toString k.tilename_zoom) k.max_zoom

theorem keyOfPk_pkOfTile (t : Tile) (mz : Nat) :
    keyOfPk (pkOfTile t mz) = tileKeyStr (tileIdOf t) mz := rfl

/-- Invariant I5 with the key-consistency fact needed to close the
induction: every tracked entry is keyed by its own path key, and its
recorded size equals the length of its on-disk DDS file. -/
def SizeInv (s : St) : Prop :=
  ∀ key e, alookup s.entries key = some e →
    key = keyOfPk e.pk ∧
    ∃ df, alookup s.fs.dds e.pk = some df ∧ e.size = df.bytes.length

theorem alookup_lruPut_ne (entries : List (String × Entry)) (key : String)
    (e : Entry) (key1 : String) (h : key1 ≠ key) :
    alookup (lruPut entries key e) key1 = alookup entries key1 := by
  unfold lruPut
  rw [alookup_append, alookup_aerase_ne _ _ _ h]
  rcases halk : alookup entries key1 with _ | e1
  · show alookup [(key, e)] key1 = none
    show (if key = key1 then some e else alookup [] key1) = none
    rw [if_neg (fun he => h he.symm)]
    rfl
  · rfl

/-- Inserting an entry for key `keyOfPk k` whose size matches the file
at `k`, while touching no other DDS file, preserves the invariant. -/
theorem SizeInv_insert (s s1 : St) (k : PathKey) (e : Entry) (df : DdsFile)
    (hInv : SizeInv s)
    (hent : s1.entries = lruPut s.entries (keyOfPk k) e)
    (hpk : e.pk = k)
    (hdf : alookup s1.fs.dds k = some df)
    (hsize : e.size = df.bytes.length)
    (hoff : ∀ k1, k1 ≠ k → alookup s1.fs.dds k1 = alookup s.fs.dds k1) :
    SizeInv s1 := by
  intro key1 e1 h1
  rw [hent] at h1
  by_cases hk : key1 = keyOfPk k
  · subst hk
    rw [alookup_lruPut_self] at h1
    obtain rfl := Option.some.inj h1
    exact ⟨by rw [hpk], df, by rw [hpk]; exact hdf, hsize⟩
  · rw [alookup_lruPut_ne _ _ _ _ hk] at h1
    obtain ⟨hkey, df1, hdf1, hs1⟩ := hInv key1 e1 h1
    have hne : e1.pk ≠ k := by
      intro hpk1
      exact hk (by rw [hkey, hpk1])
    exact ⟨hkey, df1, by rw [hoff e1.pk hne]; exact hdf1, hs1⟩

/-- The seek-write loop of `store_incremental` succeeds when every index
has an offset entry and the file exists, and only the DDS file at `k`
changes. -/
theorem writeMipmapsE_run (k : PathKey) (l : List (Nat × List Nat))
    (offs : List (Nat × (Nat × Nat))) : ∀ s : St,
    s.faults.ddsRead k = false →
    (∀ p ∈ l, (alookup offs p.1).isSome) →
    (alookup s.fs.dds k).isSome →
    ∃ dds1,
      writeMipmapsE k l offs s =
        Except.ok ((), { s with fs := { s.fs with dds := dds1 } })
      ∧ (alookup dds1 k).isSome
      ∧ (∀ k1, k1 ≠ k → alookup dds1 k1 = alookup s.fs.dds k1) := by
  induction l with
  | nil =>
    intro s _ _ hPres
    exact ⟨s.fs.dds, rfl, hPres, fun _ _ => rfl⟩
  | cons p rest ih =>
    intro s hF hOffs hPres
    obtain ⟨idx, data⟩ := p
    obtain ⟨se, hse⟩ := Option.isSome_iff_exists.mp (hOffs (idx, data) (by simp))
    unfold writeMipmapsE
    simp only [hse]
    by_cases hlen : data.length = se.2
    · rw [if_pos hlen]
      obtain ⟨df, hdf⟩ := Option.isSome_iff_exists.mp hPres
      have hupd : updateDdsE k (fun b => writeAtExt b se.1 data) s =
          Except.ok ((), { s with fs := { s.fs with
            dds := aset s.fs.dds k
              ⟨writeAtExt df.bytes se.1 data, s.nowTime⟩ } }) := by
        unfold updateDdsE
        rw [hF, hdf]
        simp
      rw [bind_is_mbind, mbind_run_ok _ _ _ _ _ hupd]
      obtain ⟨dds1, hrun, hP1, hO1⟩ := ih ({ s with fs := { s.fs with
          dds := aset s.fs.dds k
            ⟨writeAtExt df.bytes se.1 data, s.nowTime⟩ } }) hF
        (fun p hp => hOffs p (by simp [hp]))
        (by show (alookup (aset s.fs.dds k
              ⟨writeAtExt df.bytes se.1 data, s.nowTime⟩) k).isSome
            rw [alookup_aset_self]; rfl)
      refine ⟨dds1, hrun, hP1, ?_⟩
      intro k1 h1
      rw [hO1 k1 h1]
      exact alookup_aset_ne _ _ _ _ h1
    · rw [if_neg hlen]
      rw [bind_is_mbind, mbind_run_ok _ _ _ _ _
        (show (pure () : M Unit) s = Except.ok ((), s) from rfl)]
      exact ih s hF (fun p hp => hOffs p (by simp [hp])) hPres

theorem lruStoreSt_entries (s : St) (key : String) (k : PathKey)
    (size : Nat) :
    (lruStoreSt s key k size).entries =
      lruPut s.entries key ⟨k, size, s.nowTime⟩ := by
  unfold lruStoreSt
  rcases h : alookup s.entries key with _ | e <;> simp [h]

/-- The body of `store_incremental` is a no-op success when every index
is already populated. -/
theorem storeIncrementalBody_skip (tid : String) (mz row col : Nat)
    (maptype : String) (tz : Nat) (hdr : List Nat) (total w h mmc : Nat)
    (mdata : List (Nat × List Nat)) (moffs : List (Nat × (Nat × Nat)))
    (s : St)
    (hEmp : (mdata.filter (fun p => decide (p.1 ∉
        (match readDdm s (⟨row, col, maptype, tz, mz⟩ : PathKey) with
         | some m => m.populated_mipmaps
         | none => [])))).isEmpty = true) :
    storeIncrementalBody tid mz row col maptype tz hdr total w h mmc mdata
      moffs s = Except.ok (true, s) := by
  unfold storeIncrementalBody
  rw [bind_is_mbind, mbind_run_ok _ _ _ _ _ (getS_run s)]
  simp only []
  rw [if_pos hEmp]
  rfl

/-- The shared tail of the `store_incremental` write path, from the
mipmap write loop on: it succeeds, records the stat'ed DDS size in the
LRU, and changes no DDS file other than the one at the key. -/
theorem storeIncTail_run (tid : String) (mz row col : Nat)
    (maptype : String) (tz : Nat) (total w h mmc : Nat)
    (nm : List (Nat × List Nat)) (moffs : List (Nat × (Nat × Nat)))
    (already : List Nat) (sA : St)
    (hF : sA.faults = noFaults)
    (hOffs2 : ∀ p ∈ nm, (alookup moffs p.1).isSome)
    (hPres : (alookup sA.fs.dds
      (⟨row, col, maptype, tz, mz⟩ : PathKey)).isSome) :
    ∃ (df : DdsFile) (s1 : St),
      (do
        writeMipmapsE (⟨row, col, maptype, tz, mz⟩ : PathKey) nm moffs
        let s1 ← getS
        writeDdmE (⟨row, col, maptype, tz, mz⟩ : PathKey)
          (buildDdmIncremental row col maptype tz mz w h mmc
            (getFormatAndCompressor s1.cfg).1
            (getFormatAndCompressor s1.cfg).2
            (sortByKey id (dedupNat (already ++ nm.map Prod.fst)))
            s1.nowTime)
        let szOpt ← pyTry
          (do
            let n ← statDdsE (⟨row, col, maptype, tz, mz⟩ : PathKey)
            pure (some n))
          (pure none)
        lruStoreUpdate (tileKeyStr tid mz)
          (⟨row, col, maptype, tz, mz⟩ : PathKey) (szOpt.getD total)
        pure true : M Bool) sA = Except.ok (true, s1)
      ∧ s1.entries = lruPut sA.entries (tileKeyStr tid mz)
          ⟨⟨row, col, maptype, tz, mz⟩, df.bytes.length, sA.nowTime⟩
      ∧ alookup s1.fs.dds (⟨row, col, maptype, tz, mz⟩ : PathKey) = some df
      ∧ (∀ k1, k1 ≠ (⟨row, col, maptype, tz, mz⟩ : PathKey) →
          alookup s1.fs.dds k1 = alookup sA.fs.dds k1) := by
  obtain ⟨dds1, hBr, hBp, hBoff⟩ := writeMipmapsE_run
    (⟨row, col, maptype, tz, mz⟩ : PathKey) nm moffs sA
    (by rw [hF]; rfl) hOffs2 hPres
  obtain ⟨df, hdfk⟩ := Option.isSome_iff_exists.mp hBp
  have hMW : ({ sA with fs := { sA.fs with dds := dds1 } } : St).faults.ddmWrite
      (⟨row, col, maptype, tz, mz⟩ : PathKey) = false := by
    show sA.faults.ddmWrite _ = false
    rw [hF]
    rfl
  have hMS : ∀ m : DDM,
      (setDdmSt { sA with fs := { sA.fs with dds := dds1 } }
        (⟨row, col, maptype, tz, mz⟩ : PathKey) m).faults.ddsStat
        (⟨row, col, maptype, tz, mz⟩ : PathKey) = false := by
    intro m
    show sA.faults.ddsStat _ = false
    rw [hF]
    rfl
  have hdfC : ∀ m : DDM,
      alookup (setDdmSt { sA with fs := { sA.fs with dds := dds1 } }
        (⟨row, col, maptype, tz, mz⟩ : PathKey) m).fs.dds
        (⟨row, col, maptype, tz, mz⟩ : PathKey) = some df := fun _ => hdfk
  have hLru : ∀ st : St, lruStoreUpdate (tileKeyStr tid mz)
      (⟨row, col, maptype, tz, mz⟩ : PathKey) df.bytes.length st
      = Except.ok ((), lruStoreSt st (tileKeyStr tid mz)
          (⟨row, col, maptype, tz, mz⟩ : PathKey) df.bytes.length) :=
    fun _ => rfl
  refine ⟨df, ?s1, ?heq, ?he1, ?he2, ?he3⟩
  case heq =>
    rw [bind_is_mbind, mbind_run_ok _ _ _ _ _ hBr]
    rw [bind_is_mbind, mbind_run_ok _ _ _ _ _
      (getS_run { sA with fs := { sA.fs with dds := dds1 } })]
    simp only []
    rw [bind_is_mbind, mbind_run_ok _ _ _ _ _ (writeDdmE_run _ _ _ hMW)]
    rw [bind_is_mbind]
    rw [mbind_run_ok _ _ _ _ _ (pyTry_run_ok _ _ _ _ (by
      rw [bind_is_mbind, mbind_run_ok _ _ _ _ _
        (statDdsE_run _ _ df (hMS _) (hdfC _))]
      rfl))]
    simp only [Option.getD_some]
    rw [bind_is_mbind, mbind_run_ok _ _ _ _ _ (hLru _)]
    exact mpure_run true _
  case he1 =>
    rw [lruStoreSt_entries]
    simp only [setDdmSt]
  case he2 =>
    rw [lruStoreSt_fs]
    exact hdfC _
  case he3 =>
    intro k1 h1
    rw [lruStoreSt_fs]
    show alookup dds1 k1 = _
    rw [hBoff k1 h1]

/-- The body of `store_incremental` on the write path: it succeeds, and
the new LRU entry records exactly the length of the DDS file it just
stat'ed. -/
theorem storeIncrementalBody_insert (tid : String) (mz row col : Nat)
    (maptype : String) (tz : Nat) (hdr : List Nat) (total w h mmc : Nat)
    (mdata : List (Nat × List Nat)) (moffs : List (Nat × (Nat × Nat)))
    (s : St) (hNF : NoFaults s)
    (hOffs : ∀ p ∈ mdata, (alookup moffs p.1).isSome)
    (hNE : (mdata.filter (fun p => decide (p.1 ∉
        (match readDdm s (⟨row, col, maptype, tz, mz⟩ : PathKey) with
         | some m => m.populated_mipmaps
         | none => [])))).isEmpty = false) :
    ∃ (df : DdsFile) (s1 : St),
      storeIncrementalBody tid mz row col maptype tz hdr total w h mmc
        mdata moffs s = Except.ok (true, s1)
      ∧ s1.entries = lruPut s.entries (tileKeyStr tid mz)
          ⟨⟨row, col, maptype, tz, mz⟩, df.bytes.length, s.nowTime⟩
      ∧ alookup s1.fs.dds (⟨row, col, maptype, tz, mz⟩ : PathKey) = some df
      ∧ (∀ k1, k1 ≠ (⟨row, col, maptype, tz, mz⟩ : PathKey) →
          alookup s1.fs.dds k1 = alookup s.fs.dds k1) := by
  have hfo : s.faults = noFaults := hNF
  by_cases hex : ddsExists s (⟨row, col, maptype, tz, mz⟩ : PathKey) = false
  · obtain ⟨df, s1, hT, hTe, hTd, hToff⟩ := storeIncTail_run tid mz row col
      maptype tz total w h mmc
      (mdata.filter (fun p => decide (p.1 ∉
        ((match readDdm s (⟨row, col, maptype, tz, mz⟩ : PathKey) with
          | some m => m.populated_mipmaps
          | none => []) : List Nat))))
      moffs
      ((match readDdm s (⟨row, col, maptype, tz, mz⟩ : PathKey) with
        | some m => m.populated_mipmaps
        | none => []) : List Nat)
      (setDdsSt s ⟨row, col, maptype, tz, mz⟩ (skeletonBytes hdr total))
      (show s.faults = noFaults from hfo)
      (fun p hp => hOffs p (List.mem_filter.mp hp).1)
      (by show (alookup (aset s.fs.dds (⟨row, col, maptype, tz, mz⟩ :
            PathKey) ⟨skeletonBytes hdr total, s.nowTime⟩) _).isSome
          rw [alookup_aset_self]
          rfl)
    refine ⟨df, s1, ?_, hTe, hTd, ?_⟩
    · unfold storeIncrementalBody
      rw [bind_is_mbind, mbind_run_ok _ _ _ _ _ (getS_run s)]
      simp only []
      rw [if_neg (by rw [hNE]; exact Bool.false_ne_true)]
      rw [if_pos hex]
      rw [bind_is_mbind, mbind_run_ok _ _ _ _ _
        (writeDdsE_run _ _ s (by rw [hfo]; rfl))]
      exact hT
    · intro k1 h1
      rw [hToff k1 h1]
      exact alookup_aset_ne _ _ _ _ h1
  · obtain ⟨df, s1, hT, hTe, hTd, hToff⟩ := storeIncTail_run tid mz row col
      maptype tz total w h mmc
      (mdata.filter (fun p => decide (p.1 ∉
        ((match readDdm s (⟨row, col, maptype, tz, mz⟩ : PathKey) with
          | some m => m.populated_mipmaps
          | none => []) : List Nat))))
      moffs
      ((match readDdm s (⟨row, col, maptype, tz, mz⟩ : PathKey) with
        | some m => m.populated_mipmaps
        | none => []) : List Nat)
      s hfo
      (fun p hp => hOffs p (List.mem_filter.mp hp).1)
      (by unfold ddsExists at hex
          exact Option.isSome_iff_ne_none.mpr (by simpa using hex))
    refine ⟨df, s1, ?_, hTe, hTd, hToff⟩
    unfold storeIncrementalBody
    rw [bind_is_mbind, mbind_run_ok _ _ _ _ _ (getS_run s)]
    simp only []
    rw [if_neg (by rw [hNE]; exact Bool.false_ne_true)]
    rw [if_neg hex]
    exact hT

/-- Fresh-path `store_incremental`: the inserted LRU entry records the
stat'ed on-disk size. -/
theorem store_incremental_run (tid : String) (mz row col : Nat)
    (maptype : String) (tz : Nat) (hdr : List Nat) (total w h mmc : Nat)
    (mdata : List (Nat × List Nat)) (moffs : List (Nat × (Nat × Nat)))
    (s : St) (hNF : NoFaults s) (hE : s.enabled = true)
    (hMD : mdata.isEmpty = false)
    (hOffs : ∀ p ∈ mdata, (alookup moffs p.1).isSome)
    (hRD : readDdm s (⟨row, col, maptype, tz, mz⟩ : PathKey) = none) :
    ∃ (s1 : St) (e : Entry) (df : DdsFile),
      store_incremental tid mz row col maptype tz hdr total w h mmc mdata
        moffs s = Except.ok (true, s1)
      ∧ alookup s1.entries (tileKeyStr tid mz) = some e
      ∧ alookup s1.fs.dds e.pk = some df
      ∧ e.size = df.bytes.length := by
  have hNE : (mdata.filter (fun p => decide (p.1 ∉
      (match readDdm s (⟨row, col, maptype, tz, mz⟩ : PathKey) with
       | some m => m.populated_mipmaps
       | none => [])))).isEmpty = false := by
    simp only [hRD]
    rw [List.filter_eq_self.mpr (fun a _ => by simp)]
    exact hMD
  obtain ⟨df, s1, hB, hEnt, hDds, _⟩ := storeIncrementalBody_insert tid mz
    row col maptype tz hdr total w h mmc mdata moffs s hNF hOffs hNE
  refine ⟨s1, ⟨⟨row, col, maptype, tz, mz⟩, df.bytes.length, s.nowTime⟩,
    df, ?_, ?_, hDds, rfl⟩
  · unfold store_incremental
    rw [bind_is_mbind, mbind_run_ok _ _ _ _ _ (getS_run s)]
    rw [if_neg (by simp [hE]), if_neg (by rw [hMD]; exact Bool.false_ne_true)]
    exact pyTry_run_ok _ _ _ _ hB
  · rw [hEnt]
    exact alookup_lruPut_self _ _ _

/-- Outcomes of `store` under fault-free operation: rejected with the
state unchanged, or completed. -/
theorem store_cases (cdc : Codec) (tid : String) (mz : Nat) (B : List Nat)
    (tile : Tile) (bp : Option BundleKey) (miss : Option (List Nat))
    (s : St) (r : Bool) (s1 : St) (hNF : NoFaults s)
    (hrun : store cdc tid mz B tile bp miss s = Except.ok (r, s1)) :
    s1 = s ∨ s1 = storeSt cdc tid mz B tile bp miss s := by
  have hfo : s.faults = noFaults := hNF
  unfold store at hrun
  rw [bind_is_mbind, mbind_run_ok _ _ _ _ _ (getS_run s)] at hrun
  by_cases hE : s.enabled = false
  · rw [if_pos hE] at hrun
    exact Or.inl (Prod.ext_iff.mp (Except.ok.inj hrun)).2.symm
  · rw [if_neg hE] at hrun
    by_cases hL : B.length < 128
    · rw [if_pos hL] at hrun
      exact Or.inl (Prod.ext_iff.mp (Except.ok.inj hrun)).2.symm
    · rw [if_neg hL] at hrun
      rw [pyTry_run_ok _ _ _ _ (storeBody_run cdc tid mz B tile bp miss s
        (by rw [hfo]; rfl) (by rw [hfo]; rfl))] at hrun
      exact Or.inr (Prod.ext_iff.mp (Except.ok.inj hrun)).2.symm

/-- Outcomes of `store_from_file` under fault-free operation. -/
theorem storeFromFile_cases (cdc : Codec) (tid : String) (mz : Nat)
    (src : Option (List Nat)) (tile : Tile) (miss : Option (List Nat))
    (s : St) (r : Bool) (s1 : St) (hNF : NoFaults s)
    (hrun : store_from_file cdc tid mz src tile miss s
      = Except.ok (r, s1)) :
    s1 = s ∨ ∃ raw, src = some raw
      ∧ s1 = storeSt cdc tid mz raw tile none miss s := by
  have hfo : s.faults = noFaults := hNF
  unfold store_from_file at hrun
  rw [bind_is_mbind, mbind_run_ok _ _ _ _ _ (getS_run s)] at hrun
  by_cases hE : s.enabled = false
  · rw [if_pos hE] at hrun
    exact Or.inl (Prod.ext_iff.mp (Except.ok.inj hrun)).2.symm
  · rw [if_neg hE] at hrun
    cases src with
    | none =>
      rw [bind_is_mbind] at hrun
      rw [mbind_run_ok _ _ _ _ _ (pyTry_run_err _ _ _ _
        (by rw [bind_is_mbind]
            exact mbind_run_err _ _ _ _ (statSrcE_none_err s)))] at hrun
      exact Or.inl (Prod.ext_iff.mp (Except.ok.inj hrun)).2.symm
    | some raw =>
      have hstat : statSrcE (some raw) s = Except.ok (raw.length, s) := by
        unfold statSrcE
        rw [show s.faults.srcStat = false from by rw [hfo]; rfl]
        simp
      rw [bind_is_mbind] at hrun
      rw [mbind_run_ok _ _ _ _ _ (pyTry_run_ok _ _ _ _
        (by rw [bind_is_mbind, mbind_run_ok _ _ _ _ _ hstat]
            rfl))] at hrun
      have hrun2 : (if raw.length < 128 then (pure false : M Bool)
          else pyTry (storeFromFileBody cdc tid mz (some raw) raw.length
            tile miss) (pure false)) s = Except.ok (r, s1) := hrun
      by_cases hL : raw.length < 128
      · rw [if_pos hL] at hrun2
        exact Or.inl (Prod.ext_iff.mp (Except.ok.inj hrun2)).2.symm
      · rw [if_neg hL] at hrun2
        rw [pyTry_run_ok _ _ _ _ (storeFromFileBody_run cdc tid mz raw tile
          miss s (by rw [hfo]; rfl) (by rw [hfo]; rfl)
          (by rw [hfo]; rfl) (by rw [hfo]; rfl))] at hrun2
        exact Or.inr ⟨raw, rfl,
          (Prod.ext_iff.mp (Except.ok.inj hrun2)).2.symm⟩

/-- Outcomes of `store_incremental` under fault-free operation with
well-formed offsets. -/
theorem store_incremental_cases (tid : String) (mz row col : Nat)
    (maptype : String) (tz : Nat) (hdr : List Nat) (total w h mmc : Nat)
    (mdata : List (Nat × List Nat)) (moffs : List (Nat × (Nat × Nat)))
    (s : St) (r : Bool) (s1 : St) (hNF : NoFaults s)
    (hOffs : ∀ p ∈ mdata, (alookup moffs p.1).isSome)
    (hrun : store_incremental tid mz row col maptype tz hdr total w h mmc
      mdata moffs s = Except.ok (r, s1)) :
    s1 = s ∨ ∃ df : DdsFile,
      s1.entries = lruPut s.entries (tileKeyStr tid mz)
        ⟨⟨row, col, maptype, tz, mz⟩, df.bytes.length, s.nowTime⟩
      ∧ alookup s1.fs.dds (⟨row, col, maptype, tz, mz⟩ : PathKey) = some df
      ∧ (∀ k1, k1 ≠ (⟨row, col, maptype, tz, mz⟩ : PathKey) →
          alookup s1.fs.dds k1 = alookup s.fs.dds k1) := by
  unfold store_incremental at hrun
  rw [bind_is_mbind, mbind_run_ok _ _ _ _ _ (getS_run s)] at hrun
  by_cases hE : s.enabled = false
  · rw [if_pos hE] at hrun
    exact Or.inl (Prod.ext_iff.mp (Except.ok.inj hrun)).2.symm
  · rw [if_neg hE] at hrun
    by_cases hMD : mdata.isEmpty = true
    · rw [if_pos hMD] at hrun
      exact Or.inl (Prod.ext_iff.mp (Except.ok.inj hrun)).2.symm
    · rw [if_neg hMD] at hrun
      by_cases hNE : (mdata.filter (fun p => decide (p.1 ∉
          (match readDdm s (⟨row, col, maptype, tz, mz⟩ : PathKey) with
           | some m => m.populated_mipmaps
           | none => [])))).isEmpty = true
      · rw [pyTry_run_ok _ _ _ _ (storeIncrementalBody_skip tid mz row col
          maptype tz hdr total w h mmc mdata moffs s hNE)] at hrun
        exact Or.inl (Prod.ext_iff.mp (Except.ok.inj hrun)).2.symm
      · have hNE2 : (mdata.filter (fun p => decide (p.1 ∉
            (match readDdm s (⟨row, col, maptype, tz, mz⟩ : PathKey) with
             | some m => m.populated_mipmaps
             | none => [])))).isEmpty = false := by
          revert hNE
          cases (mdata.filter (fun p => decide (p.1 ∉
            (match readDdm s (⟨row, col, maptype, tz, mz⟩ : PathKey) with
             | some m => m.populated_mipmaps
             | none => [])))).isEmpty <;> simp
        obtain ⟨df, sX, hB, hEnt, hDds, hOff⟩ := storeIncrementalBody_insert
          tid mz row col maptype tz hdr total w h mmc mdata moffs s hNF
          hOffs hNE2
        rw [pyTry_run_ok _ _ _ _ hB] at hrun
        obtain rfl : sX = s1 := (Prod.ext_iff.mp (Except.ok.inj hrun)).2
        exact Or.inr ⟨df, hEnt, hDds, hOff⟩

/-- One fault-free cache-writing operation, called the way the callers
do (the tile id string derived from the tile identity fields). -/
inductive C5Step (cdc : Codec) : St → St → Prop where
  | store (mz : Nat) (B : List Nat) (tile : Tile) (bp : Option BundleKey)
      (miss : Option (List Nat)) (s : St) (r : Bool) (s1 : St)
      (hNF : NoFaults s)
      (hrun : store cdc (tileIdOf tile) mz B tile bp miss s
        = Except.ok (r, s1)) :
      C5Step cdc s s1
  | fromFile (mz : Nat) (src : Option (List Nat)) (tile : Tile)
      (miss : Option (List Nat)) (s : St) (r : Bool) (s1 : St)
      (hNF : NoFaults s)
      (hrun : store_from_file cdc (tileIdOf tile) mz src tile miss s
        = Except.ok (r, s1)) :
      C5Step cdc s s1
  | incremental (mz row col : Nat) (maptype : String) (tz : Nat)
      (hdr : List Nat) (total w hh mmc : Nat)
      (mdata : List (Nat × List Nat)) (moffs : List (Nat × (Nat × Nat)))
      (s : St) (r : Bool) (s1 : St)
      (hNF : NoFaults s)
      (hOffs : ∀ p ∈ mdata, (alookup moffs p.1).isSome)
      (hrun : store_incremental
        (toString row ++ "_" ++ toString col ++ "_" ++ maptype ++ "_"
          ++ toString tz) mz row col maptype tz hdr total w hh mmc mdata
        moffs s = Except.ok (r, s1)) :
      C5Step cdc s s1

/-- A completed `store`-shaped state keeps the invariant. -/
theorem SizeInv_storeSt (cdc : Codec) (mz : Nat) (B : List Nat)
    (tile : Tile) (bp : Option BundleKey) (miss : Option (List Nat))
    (s : St) (hInv : SizeInv s) :
    SizeInv (storeSt cdc (tileIdOf tile) mz B tile bp miss s) := by
  apply SizeInv_insert s _ (pkOfTile tile mz)
    ⟨pkOfTile tile mz, (storeDiskBytes cdc s.compression B).length,
      s.nowTime⟩
    ⟨storeDiskBytes cdc s.compression B, s.nowTime⟩ hInv
  · rw [storeSt_entries]
    rfl
  · rfl
  · rw [storeSt_fs_dds]
    exact alookup_aset_self _ _ _
  · rfl
  · intro k1 h1
    rw [storeSt_fs_dds]
    exact alookup_aset_ne _ _ _ _ h1

theorem C5Step_preserves (cdc : Codec) (s s1 : St) (hInv : SizeInv s)
    (hstep : C5Step cdc s s1) : SizeInv s1 := by
  cases hstep with
  | store mz B tile bp miss _ r _ hNF hrun =>
    rcases store_cases cdc (tileIdOf tile) mz B tile bp miss s r s1 hNF
      hrun with h | h
    · rw [h]; exact hInv
    · rw [h]; exact SizeInv_storeSt cdc mz B tile bp miss s hInv
  | fromFile mz src tile miss _ r _ hNF hrun =>
    rcases storeFromFile_cases cdc (tileIdOf tile) mz src tile miss s r s1
      hNF hrun with h | ⟨raw, _, h⟩
    · rw [h]; exact hInv
    · rw [h]; exact SizeInv_storeSt cdc mz raw tile none miss s hInv
  | incremental mz row col maptype tz hdr total w hh mmc mdata moffs _ r _
      hNF hOffs hrun =>
    rcases store_incremental_cases _ mz row col maptype tz hdr total w hh
      mmc mdata moffs s r s1 hNF hOffs hrun with h | ⟨df, hEnt, hDds, hOff⟩
    · rw [h]; exact hInv
    · exact SizeInv_insert s s1 ⟨row, col, maptype, tz, mz⟩
        ⟨⟨row, col, maptype, tz, mz⟩, df.bytes.length, s.nowTime⟩ df hInv
        hEnt rfl hDds rfl hOff

/-- C5 (LRU size invariant, amended): entries inserted by `store`,
`store_from_file` and `store_incremental` record exactly the on-disk
(post-compression) size of their DDS file, and the invariant "every
tracked entry's recorded size equals the length of its on-disk DDS
file" is preserved by any fault-free sequence of these three store
operations; an entry inserted by a cache hit of `load` on an untracked
key records the decompressed payload length instead, which matches the
on-disk file size only when the entry is stored with
`disk_compression = "none"`, so adding `load` to the sequence breaks
the invariant (see the counterexample). -/
theorem claim_C5_lru_size_invariant :
    (∀ (cdc : Codec) (tid : String) (mz : Nat) (B : List Nat) (tile : Tile)
        (bp : Option BundleKey) (miss : Option (List Nat)) (s : St),
      s.enabled = true → 128 ≤ B.length →
      s.faults.ddsWrite (pkOfTile tile mz) = false →
      s.faults.ddmWrite (pkOfTile tile mz) = false →
      ∃ s1 e df,
        store cdc tid mz B tile bp miss s = Except.ok (true, s1)
        ∧ alookup s1.entries (tileKeyStr tid mz) = some e
        ∧ alookup s1.fs.dds e.pk = some df
        ∧ e.size = df.bytes.length)
    ∧ (∀ (cdc : Codec) (tid : String) (mz : Nat) (raw : List Nat)
        (tile : Tile) (miss : Option (List Nat)) (s : St),
      s.enabled = true → 128 ≤ raw.length →
      s.faults.ddsWrite (pkOfTile tile mz) = false →
      s.faults.ddmWrite (pkOfTile tile mz) = false →
      s.faults.srcStat = false → s.faults.srcRead = false →
      s.faults.link = false →
      ∃ s1 e df,
        store_from_file cdc tid mz (some raw) tile miss s
          = Except.ok (true, s1)
        ∧ alookup s1.entries (tileKeyStr tid mz) = some e
        ∧ alookup s1.fs.dds e.pk = some df
        ∧ e.size = df.bytes.length)
    ∧ (∀ (tid : String) (mz row col : Nat) (maptype : String) (tz : Nat)
        (hdr : List Nat) (total w h mmc : Nat)
        (mdata : List (Nat × List Nat)) (moffs : List (Nat × (Nat × Nat)))
        (s : St),
      NoFaults s → s.enabled = true → mdata.isEmpty = false →
      (∀ p ∈ mdata, (alookup moffs p.1).isSome) →
      readDdm s (⟨row, col, maptype, tz, mz⟩ : PathKey) = none →
      ∃ s1 e df,
        store_incremental tid mz row col maptype tz hdr total w h mmc
          mdata moffs s = Except.ok (true, s1)
        ∧ alookup s1.entries (tileKeyStr tid mz) = some e
        ∧ alookup s1.fs.dds e.pk = some df
        ∧ e.size = df.bytes.length)
    ∧ (∀ (cdc : Codec) (tid : String) (mz : Nat) (tile : Tile) (t : St)
        (meta : DDM) (df : DdsFile) (D : List Nat),
      t.enabled = true →
      t.faults.ddmRead (pkOfTile tile mz) = false →
      t.faults.ddsRead (pkOfTile tile mz) = false →
      alookup t.fs.ddm (pkOfTile tile mz) = some (DdmFile.parsed meta) →
      isStale t meta tile (pkOfTile tile mz) = false →
      meta.max_zl = mz →
      alookup t.fs.dds (pkOfTile tile mz) = some df →
      decompOf cdc meta df.bytes = some D →
      (match tile.dds with
       | some d => decide (D.length ≠ d.total_size)
       | none => false) = false →
      alookup t.entries (tileKeyStr tid mz) = none →
      ∃ s2 tile2 e,
        load cdc tid mz tile t = Except.ok ((some D, tile2), s2)
        ∧ alookup s2.entries (tileKeyStr tid mz) = some e
        ∧ e.pk = pkOfTile tile mz
        ∧ alookup s2.fs.dds e.pk = some df
        ∧ e.size = D.length
        ∧ (meta.disk_compression ≠ "zstd" → e.size = df.bytes.length))
    ∧ (∀ (cdc : Codec) (s0 s : St),
      Relation.ReflTransGen (C5Step cdc) s0 s → SizeInv s0 → SizeInv s) := by
  refine ⟨?_, ?_, ?_, ?_, ?_⟩
  · intro cdc tid mz B tile bp miss s hE hL hW hM
    refine ⟨storeSt cdc tid mz B tile bp miss s,
      ⟨pkOfTile tile mz, (storeDiskBytes cdc s.compression B).length,
        s.nowTime⟩,
      ⟨storeDiskBytes cdc s.compression B, s.nowTime⟩,
      store_run cdc tid mz B tile bp miss s hE hL hW hM, ?_, ?_, rfl⟩
    · rw [storeSt_entries]
      exact alookup_lruPut_self _ _ _
    · show alookup (storeSt cdc tid mz B tile bp miss s).fs.dds
        (pkOfTile tile mz) = _
      rw [storeSt_fs_dds]
      exact alookup_aset_self _ _ _
  · intro cdc tid mz raw tile miss s hE hL hW hM hSS hSR hLC
    refine ⟨storeSt cdc tid mz raw tile none miss s,
      ⟨pkOfTile tile mz, (storeDiskBytes cdc s.compression raw).length,
        s.nowTime⟩,
      ⟨storeDiskBytes cdc s.compression raw, s.nowTime⟩,
      storeFromFile_run cdc tid mz raw tile miss s hE hL hW hM hSS hSR hLC,
      ?_, ?_, rfl⟩
    · rw [storeSt_entries]
      exact alookup_lruPut_self _ _ _
    · show alookup (storeSt cdc tid mz raw tile none miss s).fs.dds
        (pkOfTile tile mz) = _
      rw [storeSt_fs_dds]
      exact alookup_aset_self _ _ _
  · intro tid mz row col maptype tz hdr total w h mmc mdata moffs s hNF hE
      hMD hOffs hRD
    exact store_incremental_run tid mz row col maptype tz hdr total w h
      mmc mdata moffs s hNF hE hMD hOffs hRD
  · intro cdc tid mz tile t meta df D hE hFm hFr hDdm hStale hZl hDds hDec
      hSB hNone
    refine ⟨loadHitSt t (tileKeyStr tid mz) (pkOfTile tile mz) D.length,
      loadHitTile tile meta,
      ⟨pkOfTile tile mz, D.length, t.nowTime⟩,
      load_hit_run cdc tid mz tile t meta df D hE hFm hFr hDdm hStale hZl
        hDds hDec hSB,
      loadHitSt_entries_none t _ _ _ hNone, rfl, ?_, rfl, ?_⟩
    · show alookup (loadHitSt t (tileKeyStr tid mz) (pkOfTile tile mz)
        D.length).fs.dds (pkOfTile tile mz) = some df
      rw [loadHitSt_fs]
      exact hDds
    · intro hnz
      unfold decompOf at hDec
      rw [if_pos hnz] at hDec
      show D.length = df.bytes.length
      rw [(Option.some.injEq .. ).mp hDec]
  · intro cdc s0 s hseq hInv
    induction hseq with
    | refl => exact hInv
    | tail _ hstep ih => exact C5Step_preserves cdc _ _ ih hstep

def mC5 : DDM := buildDdm tileC8 13 none "BC1" "ISPC" none "zstd" 100

/-- A fresh-session state (empty LRU) holding a zstd-compressed pair on
disk: 3 bytes on disk for a 184-byte payload. -/
def sC5 : St :=
  { stC with fs :=
    ⟨[(⟨1, 2, "BI", 12, 13⟩, ⟨modelCodec.comp bytesC, 50⟩)],
     [(⟨1, 2, "BI", 12, 13⟩, DdmFile.parsed mC5)], []⟩ }

set_option maxRecDepth 100000

/-- Witness for C5: a store, a store_from_file, a fresh incremental
store, an untracked load hit, and a one-step store sequence, at
concrete inputs. -/
theorem claim_C5_lru_size_invariant_witness :
    (∃ s1 e df,
      store modelCodec "1_2_BI_12" 13 bytesC tileC8 none none stC
        = Except.ok (true, s1)
      ∧ alookup s1.entries (tileKeyStr "1_2_BI_12" 13) = some e
      ∧ alookup s1.fs.dds e.pk = some df
      ∧ e.size = df.bytes.length)
    ∧ (∃ s1 e df,
      store_from_file modelCodec "1_2_BI_12" 13 (some bytesC) tileC8 none
          stC
        = Except.ok (true, s1)
      ∧ alookup s1.entries (tileKeyStr "1_2_BI_12" 13) = some e
      ∧ alookup s1.fs.dds e.pk = some df
      ∧ e.size = df.bytes.length)
    ∧ (∃ s1 e df,
      store_incremental "1_2_BI_12" 13 1 2 "BI" 12 ddsHeaderBytes 184 8 8
          4 [(0, List.replicate 8 5)] [(0, (128, 8))] stC
        = Except.ok (true, s1)
      ∧ alookup s1.entries (tileKeyStr "1_2_BI_12" 13) = some e
      ∧ alookup s1.fs.dds e.pk = some df
      ∧ e.size = df.bytes.length)
    ∧ (∃ s2 tile2 e,
      load modelCodec "1_2_BI_12" 13 tileC8 sC5
        = Except.ok ((some bytesC, tile2), s2)
      ∧ alookup s2.entries (tileKeyStr "1_2_BI_12" 13) = some e
      ∧ e.pk = pkOfTile tileC8 13
      ∧ alookup s2.fs.dds e.pk = some (⟨modelCodec.comp bytesC, 50⟩ : DdsFile)
      ∧ e.size = bytesC.length
      ∧ (mC5.disk_compression ≠ "zstd" →
          e.size = (⟨modelCodec.comp bytesC, 50⟩ : DdsFile).bytes.length))
    ∧ SizeInv (storeSt modelCodec "1_2_BI_12" 13 bytesC tileC8 none none
        stC) :=
  ⟨claim_C5_lru_size_invariant.1 modelCodec "1_2_BI_12" 13 bytesC tileC8
      none none stC rfl (by decide) rfl rfl,
   claim_C5_lru_size_invariant.2.1 modelCodec "1_2_BI_12" 13 bytesC tileC8
      none stC rfl (by decide) rfl rfl rfl rfl rfl,
   claim_C5_lru_size_invariant.2.2.1 "1_2_BI_12" 13 1 2 "BI" 12
      ddsHeaderBytes 184 8 8 4 [(0, List.replicate 8 5)] [(0, (128, 8))]
      stC rfl rfl (by decide) (by decide) (by decide),
   claim_C5_lru_size_invariant.2.2.2.1 modelCodec "1_2_BI_12" 13 tileC8
      sC5 mC5 ⟨modelCodec.comp bytesC, 50⟩ bytesC rfl rfl rfl (by decide)
      (by decide) (by decide) (by decide) (by decide) (by decide) rfl,
   claim_C5_lru_size_invariant.2.2.2.2 modelCodec stC _
      (Relation.ReflTransGen.single
        (C5Step.store 13 bytesC tileC8 none none stC true _ rfl
          (store_run modelCodec (tileIdOf tileC8) 13 bytesC tileC8 none
            none stC rfl (by decide) rfl rfl)))
      (fun key e h => absurd h (by simp [stC, alookup]))⟩

/-- Counterexample for C5 as stated: the untracked load hit records 184
bytes while the on-disk zstd file is 3 bytes. -/
theorem claim_C5_counterexample :
    ∃ r s2,
      load modelCodec "1_2_BI_12" 13 tileC8 sC5 = Except.ok (r, s2)
      ∧ alookup s2.entries (tileKeyStr "1_2_BI_12" 13)
          = some ⟨pkOfTile tileC8 13, 184, 100⟩
      ∧ alookup s2.fs.dds (pkOfTile tileC8 13)
          = some ⟨modelCodec.comp bytesC, 50⟩
      ∧ (184 : Nat) ≠ (modelCodec.comp bytesC).length :=
  ⟨_, _, rfl, by decide, by decide, by decide⟩

end AO
